import Mathlib

/-!
# Verification of the Raw-Intelligence-OSINT research/drafting core

Shallow embedding of the two core subsystems of `src/services/geminiService.ts`
(the current version of the file, starting at the final `import` block):

* the Evidence Harvesting Engine (`runResearchPhase` with its inner helpers
  `harvest`, `runLoop`, `appendCitationBlock`, `upsertSource`,
  `registerDiscoveredSource`, `runWithConcurrency`, ...), and
* the Draft-Review Refinement Loop (`runDraftingPhase` with
  `selectEvidenceBlocks`, `reviewDraft`, the revision loop, ...).

Two models are used:

* a **sequential run model** (`harvestB`, `runLoopAux`, `runResearchPhase`):
  all `await`s in the source are strictly sequenced between the points where
  shared state is mutated (harvest calls never overlap; registry dedup
  decisions happen in synchronous code), so deduplication, counting,
  terminal-state and recursion-depth properties are independent of the
  interleaving of the worker pool and are settled on this model;
* a **concurrent pool model** (`pstep`, `execPool`): a small-step embedding of
  `runWithConcurrency` together with the per-URL worker body, driven by an
  explicit schedule of `start`/`finish` actions, used for the concurrency
  bound and for ordering properties of the shared context list.

External gateway replies are oracle parameters (`Except GenError _` for calls
that can throw); the gateway itself is out of scope (spec §6).
-/

namespace OSINT

/-! ## String helpers (JS semantics, ASCII model) -/

/-- JS `String.prototype.includes` (substring containment). -/
def strContains (s sub : String) : Bool :=
  s.data.tails.any fun t => sub.data.isPrefixOf t

/-- ASCII whitespace, the fragment of JS `trim()` relevant to this code. -/
def isWsChar (c : Char) : Bool :=
  c = ' ' || c = '\t' || c = '\n' || c = '\r'

/-- JS `String.prototype.trim` (ASCII whitespace model). -/
def jsTrim (s : String) : String :=
  ⟨((s.data.dropWhile isWsChar).reverse.dropWhile isWsChar).reverse⟩

/-- JS truthiness for strings combined with `||`: `a || b` yields `b` when
`a` is the empty string (or absent). -/
def jsOr (a b : String) : String :=
  if a = "" then b else a

/-- `isValidSourceUrl` from the source: rejects Google redirect /
search-infrastructure URLs. -/
def isValidSourceUrl (url : String) : Bool :=
  !(strContains url "vertexaisearch") &&
  !(strContains url "google.com/search") &&
  !(strContains url "google.com/url")

/-- Uppercase hex digit. -/
def hexDigit (n : Nat) : Char :=
  if n < 10 then Char.ofNat ('0'.toNat + n)
  else Char.ofNat ('A'.toNat + (n - 10))

/-- UTF-8 bytes of a code point (as `Nat`s). -/
def utf8Bytes (n : Nat) : List Nat :=
  if n < 0x80 then [n]
  else if n < 0x800 then [0xC0 + n / 64, 0x80 + n % 64]
  else if n < 0x10000 then
    [0xE0 + n / 4096, 0x80 + (n / 64) % 64, 0x80 + n % 64]
  else
    [0xF0 + n / 262144, 0x80 + (n / 4096) % 64, 0x80 + (n / 64) % 64,
     0x80 + n % 64]

/-- Characters `encodeURIComponent` leaves unescaped. -/
def isUriUnreserved (c : Char) : Bool :=
  (c ≥ 'A' && c ≤ 'Z') || (c ≥ 'a' && c ≤ 'z') || (c ≥ '0' && c ≤ '9') ||
  c = '-' || c = '_' || c = '.' || c = '!' || c = '~' || c = '*' ||
  c = '\'' || c = '(' || c = ')'

/-- JS `encodeURIComponent`. -/
def encodeURIComponent (s : String) : String :=
  ⟨s.data.flatMap fun c =>
    if isUriUnreserved c then [c]
    else (utf8Bytes c.toNat).flatMap fun b =>
      ['%', hexDigit (b / 16), hexDigit (b % 16)]⟩

/-- `formatSourceTitle`: hostname of the URL, `www.` stripped, first letter
capitalised; `"External Source"` when the URL does not parse.  (Model of the
`new URL(...)` parser for `http(s)://host/...` URLs.) -/
def asciiToUpper (c : Char) : Char :=
  if 'a' ≤ c ∧ c ≤ 'z' then Char.ofNat (c.toNat - 32) else c

def hostnameOf (s : String) : Option String :=
  let d := s.data
  if d.take 7 = "http://".data then
    some ⟨(d.drop 7).takeWhile fun c => c ≠ '/' && c ≠ ':' && c ≠ '?' && c ≠ '#'⟩
  else if d.take 8 = "https://".data then
    some ⟨(d.drop 8).takeWhile fun c => c ≠ '/' && c ≠ ':' && c ≠ '?' && c ≠ '#'⟩
  else none

def formatSourceTitle (url : String) : String :=
  match hostnameOf url with
  | none => "External Source"
  | some host =>
    let name := if host.data.take 4 = "www.".data then ⟨host.data.drop 4⟩ else host
    match name.data with
    | [] => ""
    | c :: cs => ⟨asciiToUpper c :: cs⟩

/-! ## Shared constants and formatting helpers -/

def MAX_FACTS_PER_SOURCE : Nat := 10
def MAX_EVIDENCE_SOURCES : Nat := 10
def MAX_RESEARCH_DEPTH : Nat := 3
def MAX_URL_CONCURRENCY : Nat := 5
def MAX_REVISIONS : Nat := 2

/-- `formatEvidenceContent`: `SUMMARY:` line (when non-empty) followed by
`- fact` bullets, blank entries dropped. -/
def formatEvidenceContent (summary : String) (facts : List String) : String :=
  let trimmedSummary := jsTrim summary
  let trimmedFacts := (facts.map jsTrim).filter (· ≠ "")
  let lines := (if trimmedSummary ≠ "" then ["SUMMARY: " ++ trimmedSummary] else [])
      ++ trimmedFacts.map ("- " ++ ·)
  String.intercalate "\n" lines

/-! ## Data model (from `src/unnamed/part_003`, the types module) -/

inductive SectionType where
  | text
  | list
deriving DecidableEq, Repr

structure ReportStructureItem where
  title : String
  type : SectionType
  guidance : String
deriving DecidableEq, Repr

/-- `content: string | string[]` of `ReportSection` / the draft schema. -/
inductive ContentVal where
  | str (s : String)
  | items (l : List String)
deriving DecidableEq, Repr

structure ReportSection where
  title : String
  type : SectionType
  content : ContentVal
deriving DecidableEq, Repr

structure SourceReference where
  url : String
  title : String := ""
  summary : String := ""
deriving DecidableEq, Repr

structure FailedSource where
  url : String
  reason : String
  isHighValue : Bool
deriving DecidableEq, Repr

/-- Errors thrown by the generative-call gateway (`generateSafe`):
`Error("QUOTA_EXCEEDED")` or an ordinary error with a message. -/
inductive GenError where
  | quotaExceeded
  | other (msg : String)
deriving DecidableEq, Repr

/-- `e.message` of the thrown error. -/
def GenError.message : GenError → String
  | .quotaExceeded => "QUOTA_EXCEEDED"
  | .other m => m

/-! ## Evidence selection (`runDraftingPhase` helpers) -/

/-- A parsed citation block as produced by `extractCitationBlocks`. -/
structure EvidenceBlock where
  url : String
  title : String
  content : String
  block : String
deriving DecidableEq, Repr

def asciiToLower (c : Char) : Char :=
  if 'A' ≤ c ∧ c ≤ 'Z' then Char.ofNat (c.toNat + 32) else c

def strToLower (s : String) : String :=
  ⟨s.data.map asciiToLower⟩

def isLowerAlnum (c : Char) : Bool :=
  (c ≥ 'a' && c ≤ 'z') || (c ≥ '0' && c ≤ '9')

/-- Tokenise on runs of non-`[a-z0-9]` characters.  (JS `split(/[^a-z0-9]+/)`
may additionally produce empty-string tokens at the boundaries; those are
removed by the `length > 3` filter in `getKeywords`, so they are dropped
here directly.) -/
def alnumTokens : List Char → List Char → List (List Char)
  | [], acc => if acc = [] then [] else [acc.reverse]
  | c :: cs, acc =>
    if isLowerAlnum c then alnumTokens cs (c :: acc)
    else if acc = [] then alnumTokens cs []
    else acc.reverse :: alnumTokens cs []

/-- `getKeywords`: lowercase, split on non-alphanumerics, keep words longer
than 3 characters. -/
def getKeywords (text : String) : List String :=
  ((alnumTokens (strToLower text).data []).map fun l => (⟨l⟩ : String)).filter
    fun w => w.length > 3

/-- `new Set([...])`: deduplicate keeping the first occurrence. -/
def firstDedupAux : List String → List String → List String
  | [], _ => []
  | x :: xs, seen =>
    if x ∈ seen then firstDedupAux xs seen
    else x :: firstDedupAux xs (x :: seen)

def firstDedup (l : List String) : List String := firstDedupAux l []

/-- Keyword-overlap score of a block against a keyword set. -/
def scoreBlock (keywords : List String) (b : EvidenceBlock) : Nat :=
  let haystack := strToLower (b.title ++ " " ++ b.content)
  keywords.countP fun w => strContains haystack w

/-- Insert into a descending-sorted list after all elements of score ≥ the
inserted one (stability for ties). -/
def insDesc (score : EvidenceBlock → Nat) :
    List EvidenceBlock → EvidenceBlock → List EvidenceBlock
  | [], x => [x]
  | y :: ys, x =>
    if score y < score x then x :: y :: ys else y :: insDesc score ys x

/-- Stable descending sort by score.  A stable sort w.r.t. a total preorder
is unique, so this agrees with the (specified-stable) JS `Array.sort` with
comparator `(a, b) => b.score - a.score`. -/
def stableSortDesc (score : EvidenceBlock → Nat) (l : List EvidenceBlock) :
    List EvidenceBlock :=
  l.foldl (insDesc score) []

/-- `selectEvidenceBlocks` from `runDraftingPhase`. -/
def selectEvidenceBlocks (evidenceBlocks : List EvidenceBlock)
    (sectionPlan : ReportStructureItem) : List EvidenceBlock :=
  if evidenceBlocks = [] then []
  else
    let keywords := firstDedup
      (getKeywords sectionPlan.title ++ getKeywords sectionPlan.guidance)
    let score := scoreBlock keywords
    let sorted := stableSortDesc score evidenceBlocks
    let selected := sorted.filter fun b => 0 < score b
    let fallback := if selected ≠ [] then selected else sorted
    fallback.take MAX_EVIDENCE_SOURCES

/-- `buildLengthGuide`. -/
def buildLengthGuide (sourceCount : Nat) (sectionType : SectionType) : String :=
  let paragraphTarget := min 10 (max 3 (sourceCount * 2))
  let listTarget := min 18 (max 6 (sourceCount * 3))
  match sectionType with
  | .list =>
    "Provide " ++ toString listTarget ++ "-" ++ toString (listTarget + 2) ++
      " bullets if evidence supports it."
  | .text =>
    "Provide " ++ toString paragraphTarget ++ "-" ++ toString (paragraphTarget + 1) ++
      " paragraphs if evidence supports it."

/-- `buildEvidencePack`. -/
def buildEvidencePack (evidenceBlocks : List EvidenceBlock) (rawSnippet : String)
    (sectionPlan : ReportStructureItem) : String × Nat :=
  let selected := selectEvidenceBlocks evidenceBlocks sectionPlan
  if selected = [] then
    (if rawSnippet ≠ "" then "RAW SNIPPET:\n" ++ rawSnippet else "", 0)
  else
    let manifest := (selected.enum.map fun p =>
      "[Source " ++ toString (p.1 + 1) ++ "] " ++ p.2.title ++ " (" ++ p.2.url ++ ")")
    let evidenceText := String.intercalate "\n\n" (selected.map (·.block))
    ("SOURCE MANIFEST:\n" ++ String.intercalate "\n" manifest ++
      "\n\nEVIDENCE:\n" ++ evidenceText, selected.length)

/-! ## Draft-review refinement loop (`runDraftingPhase`) -/

structure DraftPayload where
  content : ContentVal
  claims : List String
deriving DecidableEq, Repr

inductive VerdictKind where
  | approved
  | rejected
deriving DecidableEq, Repr

structure ReviewVerdict where
  verdict : VerdictKind
  feedback : String
deriving DecidableEq, Repr

/-- `normaliseClaims`: trim, drop blanks, cap at 8. -/
def normaliseClaims (claims : List String) : List String :=
  ((claims.map jsTrim).filter (· ≠ "")).take 8

/-- `normaliseDraftContent`: arrays are joined for the revision prompt. -/
def normaliseDraftContent : ContentVal → String
  | .str s => s
  | .items l => String.intercalate "\n" l

/-- Gateway oracles for one section's drafting: the `i`-th writer
(`generateSectionDraft`) call and the `i`-th editor (`reviewDraft`) call may
return a parsed reply or throw. -/
structure DraftOracles where
  draft : Nat → Except GenError DraftPayload
  review : Nat → Except GenError ReviewVerdict

/-- `generateSectionDraft` (reply side): parse errors fall back to
`{ content: "Data insufficient.", claims: [] }` — represented here as the
oracle returning that payload; the claims list is normalised. -/
def mkDraft (p : DraftPayload) : DraftPayload :=
  { content := p.content, claims := normaliseClaims p.claims }

/-- `reviewDraft`: any thrown error is caught and `null` is returned
("Defaulting to draft"). -/
def reviewDraftModel (o : DraftOracles) (i : Nat) : Option ReviewVerdict :=
  match o.review i with
  | .ok v => some v
  | .error _ => none

/-- The `for (attempt = 0; attempt <= MAX_REVISIONS; ...)` revision loop.
`remaining` is `MAX_REVISIONS - attempt` (the loop only exits via `break`).
Returns the final draft together with the total number of writer calls and
editor calls made for this section (ghost counters). -/
def sectionLoop (o : DraftOracles) :
    Nat → DraftPayload → Nat → Nat → Except GenError (DraftPayload × Nat × Nat)
  | remaining, currentDraft, d, r =>
    match reviewDraftModel o r with
    | none => .ok (currentDraft, d, r + 1)
    | some review =>
      if review.verdict = .approved then .ok (currentDraft, d, r + 1)
      else
        match remaining with
        | 0 => .ok (currentDraft, d, r + 1)
        | remaining' + 1 => do
          let p ← o.draft d
          sectionLoop o remaining' (mkDraft p) (d + 1) (r + 1)

/-- One section of `runDraftingPhase`: initial draft, revision loop, and the
surrounding `try`/`catch` that re-throws `QUOTA_EXCEEDED` ("Bubble critical
errors") and degrades any other error to a placeholder section.  The two
`Nat`s are the writer/editor call counts (0 on the degraded path, where the
loop state was lost to the exception). -/
def draftSection (o : DraftOracles) (sectionPlan : ReportStructureItem) :
    Except GenError (ReportSection × Nat × Nat) :=
  let body : Except GenError (DraftPayload × Nat × Nat) := do
    let p0 ← o.draft 0
    sectionLoop o MAX_REVISIONS (mkDraft p0) 1 0
  match body with
  | .ok (draft, d, r) =>
    .ok ({ title := sectionPlan.title, type := sectionPlan.type,
           content := draft.content }, d, r)
  | .error .quotaExceeded => .error .quotaExceeded
  | .error (.other _) =>
    .ok ({ title := sectionPlan.title, type := sectionPlan.type,
           content := .str "Drafting Error: content generation failed." }, 0, 0)

/-- `runDraftingPhase` over a list of section plans.  Sections run in batches
of 3 via `Promise.all`; a re-thrown `QUOTA_EXCEEDED` rejects the whole phase.
State is per-section, so the batch execution is modelled as a left-to-right
fold; each section gets its own oracle family. -/
def runDraftingPhase (oracles : Nat → DraftOracles)
    (sections : List ReportStructureItem) : Except GenError (List ReportSection) :=
  let rec go : Nat → List ReportStructureItem → Except GenError (List ReportSection)
    | _, [] => .ok []
    | i, p :: ps => do
      let (s, _, _) ← draftSection (oracles i) p
      let rest ← go (i + 1) ps
      pure (s :: rest)
  go 0 sections

/-! ## Evidence harvesting engine (`runResearchPhase`), sequential run model

All `harvest` invocations in the source are strictly sequenced (each one is
`await`ed before the next starts), and within one `harvest` the registry
dedup loop is synchronous, the URL worker pool completes before query
execution, and query results are folded in batch order.  The worker pool is
therefore sequentialised here (its interleaving, which the dedup/count
claims do not depend on, is modelled separately by `execPool` below). -/

inductive SourceStatus where
  | queued
  | processing
  | completed
  | failed
deriving DecidableEq, Repr

structure RegistryEntry where
  status : SourceStatus
  title : String := ""
  summary : String := ""
  lastError : String := ""
deriving DecidableEq, Repr

structure EvidenceRecord where
  url : String
  title : String
  summary : String
  facts : List String
deriving DecidableEq, Repr

structure CitationBlock where
  url : String
  title : String
  content : String
deriving DecidableEq, Repr

/-- `buildCitationBlock` (structured part; `renderBlock` gives the string). -/
def mkCitationBlock (url title content : String) : CitationBlock :=
  { url,
    title := jsOr (jsTrim title) "External Source",
    content := if jsTrim content ≠ "" then jsTrim content else "No extractable content." }

def renderBlock (b : CitationBlock) : String :=
  "[[SOURCE_ID: " ++ b.url ++ "]]\n[[TITLE: " ++ b.title ++ "]]\n" ++
    b.content ++ "\n[[END_SOURCE]]"

def citationDirectiveUrl : String := "https://directive.local/citation-format"

def citationDirectiveContent : String :=
  "CITATION FORMAT REQUIRED:\nEach source MUST be wrapped as:\n" ++
  "[[SOURCE_ID: <url>]]\n[[TITLE: <title>]]\n<extracted_content>\n[[END_SOURCE]]"

/-- Ghost trace events: gateway fetch per URL, search-vector execution per
query, and gap-analysis calls. -/
inductive REvent where
  | fetch (url : String)
  | exec (q : String)
  | gapReview
deriving DecidableEq, Repr

/-- JS `Map` / assoc list with insertion order: in-place update or append. -/
def updateA {β : Type} : List (String × β) → String → β → List (String × β)
  | [], k, v => [(k, v)]
  | (k', v') :: rest, k, v =>
    if k' = k then (k, v) :: rest else (k', v') :: updateA rest k v

def lookupA {β : Type} : List (String × β) → String → Option β
  | [], _ => none
  | (k', v') :: rest, k => if k' = k then some v' else lookupA rest k

structure ResearchState where
  contextParts : List CitationBlock := []
  contextSourceIds : List String := []
  sourceRegistry : List (String × RegistryEntry) := []
  gatheredSources : List (String × SourceReference) := []
  failedUrls : List FailedSource := []
  visitedQueries : List String := []
  evidenceStore : List (String × EvidenceRecord) := []
  events : List REvent := []
  gapCalls : Nat := 0
  rounds : Nat := 0
deriving DecidableEq, Repr

def initResearchState : ResearchState := {}

/-- JS `Set.add`: append if absent (used for `visitedQueries` and
`contextSourceIds`, both `Set`s in the source). -/
def addVisited (vs : List String) (q : String) : List String :=
  if q ∈ vs then vs else vs ++ [q]

/-- `ensureCitationDirective`. -/
def ensureCitationDirective (st : ResearchState) : ResearchState :=
  if citationDirectiveUrl ∈ st.contextSourceIds then st
  else
    { st with
      contextParts := st.contextParts ++
        [mkCitationBlock citationDirectiveUrl "Citation Format" citationDirectiveContent],
      contextSourceIds := st.contextSourceIds ++ [citationDirectiveUrl] }

/-- `appendCitationBlock` (first-write-wins per source id). -/
def appendCitationBlock (st : ResearchState) (url title content : String) :
    ResearchState :=
  if url = "" ∨ url ∈ st.contextSourceIds then st
  else
    let st := ensureCitationDirective st
    { st with
      contextParts := st.contextParts ++ [mkCitationBlock url title content],
      contextSourceIds := addVisited st.contextSourceIds url }

/-- `setRegistryStatus`; the update fields use the JS `||` merge with the
existing entry (empty string plays the role of `undefined`). -/
def setRegistryStatus (st : ResearchState) (url : String) (status : SourceStatus)
    (utitle usummary uerr : String) : ResearchState :=
  let existing := (lookupA st.sourceRegistry url).getD
    { status, title := "", summary := "", lastError := "" }
  { st with
    sourceRegistry := updateA st.sourceRegistry url
      { status,
        title := jsOr utitle existing.title,
        summary := jsOr usummary existing.summary,
        lastError := jsOr uerr existing.lastError } }

/-- `upsertEvidence`: facts merge as a first-occurrence set union, re-capped. -/
def upsertEvidence (st : ResearchState) (record : EvidenceRecord) : ResearchState :=
  if record.url = "" ∨ isValidSourceUrl record.url = false then st
  else
    let existing := lookupA st.evidenceStore record.url
    let exFacts := (existing.map (·.facts)).getD []
    let exTitle := (existing.map (·.title)).getD ""
    let exSummary := (existing.map (·.summary)).getD ""
    { st with
      evidenceStore := updateA st.evidenceStore record.url
        { url := record.url,
          title := jsOr record.title (jsOr exTitle "External Source"),
          summary := jsOr record.summary exSummary,
          facts := (firstDedup (exFacts ++ record.facts)).take MAX_FACTS_PER_SOURCE } }

/-- `upsertSource` (the `gatheredSources` map). -/
def upsertSource (st : ResearchState) (source : SourceReference) : ResearchState :=
  if source.url = "" ∨ isValidSourceUrl source.url = false then st
  else
    let existing := lookupA st.gatheredSources source.url
    let exTitle := (existing.map (·.title)).getD ""
    let exSummary := (existing.map (·.summary)).getD ""
    { st with
      gatheredSources := updateA st.gatheredSources source.url
        { url := source.url,
          title := jsOr source.title exTitle,
          summary := jsOr source.summary exSummary } }

/-- `registerDiscoveredSource`: new sources become `QUEUED`; terminal entries
are never touched. -/
def registerDiscoveredSource (st : ResearchState) (source : SourceReference) :
    ResearchState :=
  if source.url = "" ∨ isValidSourceUrl source.url = false then st
  else
    let st := upsertSource st source
    match lookupA st.sourceRegistry source.url with
    | none =>
      { st with
        sourceRegistry := updateA st.sourceRegistry source.url
          { status := .queued, title := source.title, summary := source.summary,
            lastError := "" } }
    | some e =>
      if e.status = .completed ∨ e.status = .failed then st
      else
        { st with
          sourceRegistry := updateA st.sourceRegistry source.url
            { e with
              title := jsOr e.title source.title,
              summary := jsOr e.summary source.summary } }

/-- `markSourceCompleted`. -/
def markSourceCompleted (st : ResearchState) (url title summary : String) :
    ResearchState :=
  if url = "" ∨ isValidSourceUrl url = false then st
  else
    let st := upsertSource st { url, title, summary }
    setRegistryStatus st url .completed title summary ""

/-- `addFailedUrl` (dedup by URL, first write wins). -/
def addFailedUrl (st : ResearchState) (url reason : String) (isHighValue : Bool) :
    ResearchState :=
  if url = "" then st
  else if st.failedUrls.any (fun f => f.url = url) then st
  else { st with failedUrls := st.failedUrls ++ [{ url, reason, isHighValue }] }

/-- Parsed reply of the per-URL extraction call (`SOURCE_ANALYSIS_SCHEMA`);
a parse failure corresponds to the all-empty reply. -/
structure FetchData where
  title : String
  summary : String
  facts : List String
deriving DecidableEq, Repr

/-- Result of `executeSearchVector` (which never throws: it catches its own
errors and returns the empty result). -/
structure SearchResult where
  text : String
  sources : List SourceReference
  summary : String
  facts : List String
deriving DecidableEq, Repr

/-- Gateway oracles for one research run.  `fetch` is keyed by URL (each URL
is fetched at most once); `gap` is keyed by the index of the gap-analysis
call so each round may return different queries. -/
structure ResearchOracles where
  fetch : String → Except GenError FetchData
  search : String → SearchResult
  gap : Nat → Except GenError (List String)

/-- The worker body dispatched per URL by `runWithConcurrency`: mark
`PROCESSING`, call the gateway, then either record evidence + `COMPLETED` +
citation block, or record the failure (any thrown error, quota included, is
caught here). -/
def processUrl (o : ResearchOracles) (st : ResearchState) (url : String) :
    ResearchState :=
  let st := setRegistryStatus st url .processing "" "" ""
  let st := { st with events := st.events ++ [.fetch url] }
  match o.fetch url with
  | .ok data =>
    let title := jsOr data.title (formatSourceTitle url)
    let summary := jsOr data.summary "Analysed source."
    let facts := (data.facts.filter (· ≠ "")).take MAX_FACTS_PER_SOURCE
    let evidenceContent := formatEvidenceContent summary facts
    let st := upsertEvidence st { url, title, summary, facts }
    let st := markSourceCompleted st url title summary
    appendCitationBlock st url title evidenceContent
  | .error e =>
    let reason := jsOr e.message "Access Denied / Timeout"
    let st := addFailedUrl st url reason true
    setRegistryStatus st url .failed "" "" reason

/-- The synchronous dedup loop at the head of `harvest` (a `forEach`, written
as structural recursion over the batch): invalid URLs fail immediately,
terminal/in-flight URLs are skipped, fresh ones are queued and collected into
the `urlsToProcess` set (insertion-ordered, deduplicated). -/
def collectUrlsAux :
    ResearchState → List String → List String → ResearchState × List String
  | st, [], ups => (st, ups)
  | st, url :: rest, ups =>
    if isValidSourceUrl url = false then
      collectUrlsAux
        (setRegistryStatus
          (addFailedUrl st url "Invalid or unsupported source URL" true)
          url .failed "" "" "Invalid or unsupported source URL") rest ups
    else
      match lookupA st.sourceRegistry url with
      | some e =>
        if e.status = .processing ∨ e.status = .completed ∨ e.status = .failed
        then collectUrlsAux st rest ups
        else collectUrlsAux st rest (if url ∈ ups then ups else ups ++ [url])
      | none =>
        collectUrlsAux (setRegistryStatus st url .queued "" "" "") rest
          (if url ∈ ups then ups else ups ++ [url])

def collectUrls (st : ResearchState) (uniqueUrls : List String) :
    ResearchState × List String :=
  collectUrlsAux st uniqueUrls []

/-- Query-side of `harvest` for one executed query: ghost-log the execution,
wrap a non-empty synthesis in its own citation block keyed by a synthetic
search URL, and register discovered sources as `QUEUED`. -/
def processQuery (o : ResearchOracles) (st : ResearchState) (q : String) :
    ResearchState :=
  let st := { st with events := st.events ++ [.exec q] }
  let res := o.search q
  let st :=
    if res.text ≠ "" then
      let queryUrl := "https://search.local/query?q=" ++ encodeURIComponent q
      let st := upsertEvidence st
        { url := queryUrl, title := "Search Summary: " ++ q,
          summary := res.summary, facts := res.facts }
      appendCitationBlock st queryUrl ("Search Summary: " ++ q) res.text
    else st
  res.sources.foldl registerDiscoveredSource st

/-- `harvest(urlBatch, queryBatch)`.  The URL pool is sequentialised; queries
are filtered against `visitedQueries` *in one pass* (so duplicates inside the
same batch all survive the filter), then marked visited, then executed.  The
3-at-a-time `Promise.all` batching only affects timing: results are folded
back in batch order, which is list order. -/
def harvestB (o : ResearchOracles) (st : ResearchState)
    (urlBatch queryBatch : List String) : ResearchState :=
  let uniqueUrls := (urlBatch.map jsTrim).filter (· ≠ "")
  let (st, urlsToProcess) := collectUrls st uniqueUrls
  let st := urlsToProcess.foldl (processUrl o) st
  let filteredQueries := (queryBatch.map jsTrim).filter
    fun q => q ≠ "" && !decide (q ∈ st.visitedQueries)
  let st := { st with
    visitedQueries := filteredQueries.foldl addVisited st.visitedQueries }
  filteredQueries.foldl (processQuery o) st

def getQueuedUrls (st : ResearchState) : List String :=
  (st.sourceRegistry.filter fun p => p.2.status = .queued).map (·.1)

/-- `reviewForGaps`: one gap-analysis gateway call; both a thrown error and a
parse failure degrade to "no gaps" (`[]`). -/
def reviewForGapsB (o : ResearchOracles) (st : ResearchState) :
    ResearchState × List String :=
  let i := st.gapCalls
  let st := { st with events := st.events ++ [.gapReview], gapCalls := i + 1 }
  (st, match o.gap i with | .ok qs => qs | .error _ => [])

/-- `runLoop(urlBatch, queryBatch, depth)`.  `fuel = MAX_RESEARCH_DEPTH -
depth`; the source's `depth >= MAX_RESEARCH_DEPTH` early return is `fuel = 0`.
`rounds` is a ghost counter of `runLoop` entries. -/
def runLoopAux (o : ResearchOracles) :
    Nat → ResearchState → List String → List String → ResearchState
  | fuel, st, urlBatch, queryBatch =>
    let st := { st with rounds := st.rounds + 1 }
    let st := harvestB o st urlBatch queryBatch
    let queued := getQueuedUrls st
    let st := if queued ≠ [] then harvestB o st queued [] else st
    match fuel with
    | 0 => st
    | fuel' + 1 =>
      let (st, newQueries) := reviewForGapsB o st
      let filtered := (newQueries.map jsTrim).filter
        fun q => q ≠ "" && !decide (q ∈ st.visitedQueries)
      if filtered = [] then st
      else runLoopAux o fuel' st [] filtered

/-- The final mutable state of one `runResearchPhase` run. -/
def runResearchState (o : ResearchOracles) (urls queries : List String) :
    ResearchState :=
  runLoopAux o MAX_RESEARCH_DEPTH initResearchState urls queries

structure DeepResearchResult where
  context : String
  sources : List SourceReference
  failedUrls : List FailedSource
deriving DecidableEq, Repr

/-- `runResearchPhase`: the returned `{context, sources, failedUrls}` triple. -/
def runResearchPhase (o : ResearchOracles) (urls queries : List String) :
    DeepResearchResult :=
  let st := runResearchState o urls queries
  { context := String.intercalate "\n\n" (st.contextParts.map renderBlock),
    sources := st.gatheredSources.map (·.2),
    failedUrls := st.failedUrls }

/-- Ghost projections of the event trace. -/
def fetchedUrls (st : ResearchState) : List String :=
  st.events.filterMap fun e => match e with | .fetch u => some u | _ => none

def executedQueries (st : ResearchState) : List String :=
  st.events.filterMap fun e => match e with | .exec q => some q | _ => none

def isGapEvent : REvent → Bool
  | .gapReview => true
  | _ => false

/-- Registry status of a URL. -/
def statusOf (s : ResearchState) (u : String) : Option SourceStatus :=
  (lookupA s.sourceRegistry u).map (·.status)

/-- The URL's registry entry is in a terminal state. -/
def terminalAt (s : ResearchState) (u : String) : Prop :=
  statusOf s u = some .completed ∨ statusOf s u = some .failed

/-- Synthetic per-query citation keys (`https://search.local/query?q=...`). -/
def isQueryKey (u : String) : Bool :=
  "https://search.local/query?q=".data.isPrefixOf u.data

/-- Core run invariant of the sequential research model: fetch-log dedup and
validity, context-id dedup and the context-block count bookkeeping
(`contextSourceIds` is a `Set` but `contextParts` is an array, so the
directive key may appear under two blocks), the shape of emitted keys,
registry key dedup and the invalid-URL bookkeeping, and the failed-list
dedup.  (The terminal-status property of fetched URLs is layered on top in
`RInv`: it is momentarily broken while a fetch is in flight.) -/
structure RCore (s : ResearchState) : Prop where
  fetchNodup : (fetchedUrls s).Nodup
  fetchValid : ∀ u ∈ fetchedUrls s, isValidSourceUrl u = true
  idsNodup : s.contextSourceIds.Nodup
  ctxSub : ∀ u ∈ s.contextParts.map (·.url), u ∈ s.contextSourceIds
  ctxCount : ∀ u, u ≠ citationDirectiveUrl →
    (s.contextParts.map (·.url)).count u = s.contextSourceIds.count u
  ctxDir : (s.contextParts.map (·.url)).count citationDirectiveUrl ≤ 2
  idsShape : ∀ u ∈ s.contextSourceIds,
    u = citationDirectiveUrl ∨ isValidSourceUrl u = true ∨ isQueryKey u = true
  regNodup : (s.sourceRegistry.map (·.1)).Nodup
  regNE : ∀ k ∈ s.sourceRegistry.map (·.1), k ≠ ""
  invalidFailed : ∀ u e, isValidSourceUrl u = false →
    lookupA s.sourceRegistry u = some e → e.status = .failed
  failedNodup : (s.failedUrls.map (·.url)).Nodup
  failedInvalidReason : ∀ f ∈ s.failedUrls, isValidSourceUrl f.url = false →
    f.reason = "Invalid or unsupported source URL" ∧ f.isHighValue = true
  sourcesValid : ∀ u ∈ s.gatheredSources.map (·.1), isValidSourceUrl u = true

/-- Full run invariant: the core plus "every fetched URL is terminal", which
holds at every point where no fetch is in flight. -/
structure RInv (s : ResearchState) extends RCore s : Prop where
  fetchTerm : ∀ u ∈ fetchedUrls s, terminalAt s u

/-- Monotone facts between two states of one run: the traces and output
lists only grow, visited queries and registry keys are never removed. -/
structure RMono (s s' : ResearchState) : Prop where
  events : ∃ t, s'.events = s.events ++ t
  failed : ∃ t, s'.failedUrls = s.failedUrls ++ t
  ids : ∃ t, s'.contextSourceIds = s.contextSourceIds ++ t
  ctx : ∃ t, s'.contextParts = s.contextParts ++ t
  visited : ∃ t, s'.visitedQueries = s.visitedQueries ++ t
  regKeys : ∀ u, u ∈ s.sourceRegistry.map (·.1) → u ∈ s'.sourceRegistry.map (·.1)

/-! ## Concurrent worker pool (`runWithConcurrency` + per-URL worker body)

Small-step model of the bounded worker pool: `Math.min(limit, items.length)`
workers share a `nextIndex` counter; each worker repeatedly claims the next
index and runs the handler for it to completion before claiming another.
A schedule is a list of `start`/`finish` actions; `pstep` rejects actions
that no interleaving of the JS code could produce.  A worker's `start`
claims the index and performs the handler's synchronous prefix (mark
`PROCESSING`); its `finish` performs the rest of the handler after the
gateway call resolves (terminal status, context append or failure record).
The inter-dispatch delay only constrains timing, never which interleavings
are possible, so it is not modelled. -/

inductive PoolAction where
  | start (w : Nat)
  | finish (w : Nat)
deriving DecidableEq, Repr

structure PoolState where
  nextIndex : Nat
  workers : List (Option Nat)
  statuses : List SourceStatus
  contextKeys : List String
  failedKeys : List String
deriving DecidableEq, Repr

/-- `appendCitationBlock` projected to source ids, directive included
(`contextSourceIds` is a `Set`, so the final add dedups). -/
def appendKeyPool (ctx : List String) (u : String) : List String :=
  if u = "" ∨ u ∈ ctx then ctx
  else addVisited (if citationDirectiveUrl ∈ ctx then ctx
        else ctx ++ [citationDirectiveUrl]) u

def initPool (items : List String) (limit : Nat) : PoolState :=
  { nextIndex := 0,
    workers := List.replicate (min limit items.length) none,
    statuses := List.replicate items.length .queued,
    contextKeys := [],
    failedKeys := [] }

def pstep (items : List String) (o : String → Except GenError FetchData)
    (s : PoolState) : PoolAction → Option PoolState
  | .start w =>
    match s.workers[w]? with
    | some none =>
      if s.nextIndex < items.length then
        some { s with
          workers := s.workers.set w (some s.nextIndex),
          statuses := s.statuses.set s.nextIndex .processing,
          nextIndex := s.nextIndex + 1 }
      else none
    | _ => none
  | .finish w =>
    match s.workers[w]? with
    | some (some i) =>
      match items[i]? with
      | some url =>
        match o url with
        | .ok _ =>
          some { s with
            workers := s.workers.set w none,
            statuses := s.statuses.set i .completed,
            contextKeys := appendKeyPool s.contextKeys url }
        | .error _ =>
          some { s with
            workers := s.workers.set w none,
            statuses := s.statuses.set i .failed,
            failedKeys := s.failedKeys ++ [url] }
      | none => none
    | _ => none

def execPool (items : List String) (o : String → Except GenError FetchData) :
    PoolState → List PoolAction → Option PoolState
  | s, [] => some s
  | s, a :: acts =>
    match pstep items o s a with
    | some s' => execPool items o s' acts
    | none => none

def isProcessing : SourceStatus → Bool
  | .processing => true
  | _ => false

/-- Number of registry entries currently `PROCESSING`. -/
def processingCount (s : PoolState) : Nat :=
  s.statuses.countP isProcessing

/-- Number of workers with an in-flight fetch. -/
def busyCount (s : PoolState) : Nat :=
  s.workers.countP (·.isSome)

/-- `PROCESSING` count after running a schedule from the initial pool state
with the configured cap (0 when the schedule is invalid). -/
def processingAfter (items : List String) (o : String → Except GenError FetchData)
    (acts : List PoolAction) : Nat :=
  match execPool items o (initPool items MAX_URL_CONCURRENCY) acts with
  | some s => processingCount s
  | none => 0

/-! ## Theorems: draft-review refinement loop -/

/-- Concrete inputs used by counterexample/witness theorems. -/
def planW : ReportStructureItem :=
  { title := "Strategic Context", type := .text, guidance := "Summarize the situation." }

def draftOraclesRejectAll : DraftOracles :=
  { draft := fun i => .ok ⟨.str ("draft " ++ toString i), ["claim"]⟩,
    review := fun _ => .ok ⟨.rejected, "Add citations."⟩ }

def draftOraclesEditorCrash : DraftOracles :=
  { draft := fun _ => .ok ⟨.str "", []⟩,
    review := fun _ => .error (.other "timeout") }

/-- Inductive invariant of the worker-pool state machine. -/
structure PInv (items : List String) (limit : Nat) (s : PoolState) : Prop where
  wlen : s.workers.length = min limit items.length
  slen : s.statuses.length = items.length
  nle : s.nextIndex ≤ items.length
  fresh : ∀ (i : Nat), s.nextIndex ≤ i → i < items.length →
    s.statuses[i]? = some .queued
  busy : ∀ (w i : Nat), s.workers[w]? = some (some i) →
    i < s.nextIndex ∧ s.statuses[i]? = some .processing
  distinct : ∀ (w w' i : Nat), w ≠ w' → s.workers[w]? = some (some i) →
    s.workers[w']? ≠ some (some i)
  count : processingCount s = busyCount s

/-- Demo inputs for the ordering theorems: two distinct URLs discovered in
the order `[a, b]`, a schedule in which `b`'s fetch completes first. -/
def demoItems : List String := ["https://example.com/a", "https://example.com/b"]

def demoOracle : String → Except GenError FetchData := fun _ => .ok ⟨"", "", []⟩

def demoActs : List PoolAction := [.start 0, .start 1, .finish 1, .finish 0]

def demoFinal : PoolState :=
  { nextIndex := 2, workers := [none, none],
    statuses := [.completed, .completed],
    contextKeys := [citationDirectiveUrl, "https://example.com/b",
      "https://example.com/a"],
    failedKeys := [] }

def gapReply (o : ResearchOracles) (i : Nat) : List String :=
  match o.gap i with
  | .ok qs => qs
  | .error _ => []

/-- All-quiet gateway oracles: every fetch parses to an empty page, every
search vector returns an empty result, gap analysis reports no gaps. -/
def plainSearchOracles : ResearchOracles :=
  { fetch := fun _ => .ok { title := "", summary := "", facts := [] },
    search := fun _ => { text := "", sources := [], summary := "", facts := [] },
    gap := fun _ => .ok [] }

/-- Key-value coherence of the `gatheredSources` map: every stored source
carries its own key as URL. -/
def GKV (s : ResearchState) : Prop :=
  ∀ p ∈ s.gatheredSources, p.2.url = p.1

/-- Oracles whose search vector always returns a non-empty synthesis. -/
def chattySearchOracles : ResearchOracles :=
  { fetch := fun _ => .ok { title := "", summary := "", facts := [] },
    search := fun _ => ⟨"Synthesised findings.", [], "", []⟩,
    gap := fun _ => .ok [] }

/-- Oracles whose every fetch throws the quota error. -/
def quotaFetchOracles : ResearchOracles :=
  { fetch := fun _ => .error .quotaExceeded,
    search := fun _ => ⟨"", [], "", []⟩,
    gap := fun _ => .ok [] }

def draftOraclesWriterQuota : DraftOracles :=
  { draft := fun _ => .error .quotaExceeded,
    review := fun _ => .ok ⟨.approved, ""⟩ }

def draftOraclesReviewQuota : DraftOracles :=
  { draft := fun _ => .ok ⟨.str "Findings.", []⟩,
    review := fun _ => .error .quotaExceeded }

/-- C7: with an always-`Rejected` editor, a section performs exactly
`MAX_REVISIONS + 1` writer calls and `MAX_REVISIONS + 1` editor calls and
returns the content of the last draft produced (never a merge of drafts). -/
theorem drafting_bounded_revisions (o : DraftOracles) (plan : ReportStructureItem)
    (pay : Nat → DraftPayload) (fb : Nat → String)
    (hd : ∀ i, o.draft i = .ok (pay i))
    (hr : ∀ i, o.review i = .ok ⟨.rejected, fb i⟩) :
    draftSection o plan =
      .ok ({ title := plan.title, type := plan.type, content := (pay 2).content },
        MAX_REVISIONS + 1, MAX_REVISIONS + 1) := by
  simp [draftSection, MAX_REVISIONS, hd 0, hd 1, hd 2, sectionLoop,
    reviewDraftModel, hr 0, hr 1, hr 2, mkDraft, Bind.bind, Except.bind]

/-- Witness for `drafting_bounded_revisions` at concrete oracles. -/
theorem drafting_bounded_revisions_witness :
    draftSection draftOraclesRejectAll planW =
      .ok ({ title := "Strategic Context", type := .text,
             content := .str "draft 2" }, MAX_REVISIONS + 1, MAX_REVISIONS + 1) :=
  drafting_bounded_revisions draftOraclesRejectAll planW
    (fun i => ⟨.str ("draft " ++ toString i), ["claim"]⟩)
    (fun _ => "Add citations.") (fun _ => rfl) (fun _ => rfl)

/-- C8 (amended): if the editor call always throws an ordinary error, the
section performs exactly one writer call and one editor call, raises no
exception, and returns the first draft's content unchanged (hence non-empty
exactly when that reply's content is; the parse-failure fallback
`"Data insufficient."` is non-empty). -/
theorem drafting_fail_open_editor (o : DraftOracles) (plan : ReportStructureItem)
    (pay : DraftPayload) (m : Nat → String)
    (hd : o.draft 0 = .ok pay)
    (hr : ∀ i, o.review i = .error (.other (m i))) :
    draftSection o plan =
      .ok ({ title := plan.title, type := plan.type, content := pay.content }, 1, 1) := by
  simp [draftSection, MAX_REVISIONS, hd, sectionLoop, reviewDraftModel, hr 0,
    mkDraft, Bind.bind, Except.bind]

/-- Witness for `drafting_fail_open_editor` at concrete oracles. -/
theorem drafting_fail_open_editor_witness :
    draftSection
      { draft := fun _ => .ok ⟨.str "Draft ok.", ["c"]⟩,
        review := fun _ => .error (.other "timeout") } planW =
      .ok ({ title := "Strategic Context", type := .text,
             content := .str "Draft ok." }, 1, 1) :=
  drafting_fail_open_editor _ planW ⟨.str "Draft ok.", ["c"]⟩ (fun _ => "timeout")
    rfl (fun _ => rfl)

/-- C8 counterexample: when the draft reply itself carries empty content and
the editor always errors, the section is returned with *empty* content —
refuting "returns it with non-empty content" as universally stated. -/
theorem drafting_fail_open_empty_content_cex :
    draftSection draftOraclesEditorCrash planW =
      .ok ({ title := "Strategic Context", type := .text, content := .str "" }, 1, 1)
      ∧ ContentVal.str "" ≠ ContentVal.str " " := by
  exact ⟨rfl, by decide⟩

/-! ## Theorems: evidence selection (C9) -/

theorem insDesc_append (score : EvidenceBlock → Nat) (l : List EvidenceBlock)
    (x : EvidenceBlock) (h : ∀ y ∈ l, ¬ score y < score x) :
    insDesc score l x = l ++ [x] := by
  induction l with
  | nil => rfl
  | cons y ys ih =>
    simp only [insDesc, if_neg (h y (by simp))]
    simp only [List.cons_append, List.cons.injEq, true_and]
    exact ih fun z hz => h z (by simp [hz])

theorem foldl_insDesc_allzero (score : EvidenceBlock → Nat)
    (l acc : List EvidenceBlock) (hl : ∀ b ∈ l, score b = 0) :
    l.foldl (insDesc score) acc = acc ++ l := by
  induction l generalizing acc with
  | nil => simp
  | cons b bs ih =>
    have hb : score b = 0 := hl b (by simp)
    have : insDesc score acc b = acc ++ [b] :=
      insDesc_append score acc b fun y _ => by
        intro hlt
        exact absurd (hb ▸ hlt) (by omega)
    simp only [List.foldl_cons, this]
    rw [ih (acc ++ [b]) (fun x hx => hl x (by simp [hx]))]
    simp

/-- C9: with a non-empty evidence store in which no block scores above zero,
selection falls back to the full evidence set capped at
`MAX_EVIDENCE_SOURCES` (in original order, by sort stability) — never to an
empty pack — and selection is deterministic in its inputs. -/
theorem evidence_selection_zero_fallback (blocks : List EvidenceBlock)
    (plan : ReportStructureItem) (hne : blocks ≠ [])
    (hz : ∀ b ∈ blocks,
      scoreBlock (firstDedup (getKeywords plan.title ++ getKeywords plan.guidance)) b = 0) :
    selectEvidenceBlocks blocks plan = blocks.take MAX_EVIDENCE_SOURCES ∧
    selectEvidenceBlocks blocks plan ≠ [] ∧
    ∀ blocks' plan', blocks' = blocks → plan' = plan →
      selectEvidenceBlocks blocks' plan' = selectEvidenceBlocks blocks plan := by
  have hsort : stableSortDesc
      (scoreBlock (firstDedup (getKeywords plan.title ++ getKeywords plan.guidance)))
      blocks = blocks := by
    have := foldl_insDesc_allzero
      (scoreBlock (firstDedup (getKeywords plan.title ++ getKeywords plan.guidance)))
      blocks [] hz
    simpa [stableSortDesc] using this
  have hsel : selectEvidenceBlocks blocks plan = blocks.take MAX_EVIDENCE_SOURCES := by
    simp only [selectEvidenceBlocks, if_neg hne, hsort]
    have hfilter : blocks.filter (fun b => decide (0 <
        scoreBlock (firstDedup (getKeywords plan.title ++ getKeywords plan.guidance)) b)) = [] := by
      rw [List.filter_eq_nil_iff]
      intro b hb
      simp [hz b hb]
    rw [hfilter]
    simp
  refine ⟨hsel, ?_, fun _ _ h1 h2 => by rw [h1, h2]⟩
  rw [hsel]
  intro h
  rcases List.take_eq_nil_iff.mp h with h10 | hb
  · exact absurd h10 (by simp [MAX_EVIDENCE_SOURCES])
  · exact hne hb

/-- Witness for `evidence_selection_zero_fallback` on two zero-scoring
blocks. -/
theorem evidence_selection_zero_fallback_witness :
    selectEvidenceBlocks
      [⟨"u1", "zzzz", "qqqq", "b1"⟩, ⟨"u2", "wwww", "rrrr", "b2"⟩]
      ⟨"alpha beta", .text, "gamma"⟩ =
      ([⟨"u1", "zzzz", "qqqq", "b1"⟩, ⟨"u2", "wwww", "rrrr", "b2"⟩] :
        List EvidenceBlock).take MAX_EVIDENCE_SOURCES :=
  (evidence_selection_zero_fallback _ _ (by decide) (by decide)).1

/-! ## Theorems: worker pool (C5 concurrency bound, C2 ordering) -/

theorem countP_set_balance {α : Type} (p : α → Bool) :
    ∀ (l : List α) (i : Nat) (a b : α), l[i]? = some b →
      (l.set i a).countP p + (if p b then 1 else 0) =
        l.countP p + (if p a then 1 else 0) := by
  intro l
  induction l with
  | nil => intro i a b h; simp at h
  | cons x xs ih =>
    intro i a b h
    cases i with
    | zero =>
      simp only [List.getElem?_cons_zero, Option.some.injEq] at h
      subst h
      simp [List.countP_cons]
      omega
    | succ j =>
      simp only [List.getElem?_cons_succ] at h
      have := ih j a b h
      simp [List.countP_cons]
      omega


theorem pinv_init (items : List String) (limit : Nat) :
    PInv items limit (initPool items limit) := by
  refine ⟨?_, ?_, ?_, ?_, ?_, ?_, ?_⟩
  · simp [initPool]
  · simp [initPool]
  · simp [initPool]
  · intro i _ hi
    simp [initPool, List.getElem?_replicate, hi]
  · intro w i h
    simp only [initPool] at h
    rw [List.getElem?_replicate] at h
    split at h <;> simp_all
  · intro w w' i _ h
    simp only [initPool] at h
    rw [List.getElem?_replicate] at h
    split at h <;> simp_all
  · simp only [processingCount, busyCount, initPool]
    rw [List.countP_eq_zero.mpr, List.countP_eq_zero.mpr]
    · intro a ha
      simp [List.eq_of_mem_replicate ha]
    · intro a ha
      simp [List.eq_of_mem_replicate ha, isProcessing]

theorem pinv_step (items : List String) (o : String → Except GenError FetchData)
    (limit : Nat) (s s' : PoolState) (a : PoolAction)
    (hinv : PInv items limit s) (hstep : pstep items o s a = some s') :
    PInv items limit s' := by
  obtain ⟨wlen, slen, nle, fresh, busy, distinct, count⟩ := hinv
  cases a with
  | start w =>
    simp only [pstep] at hstep
    cases hw : s.workers[w]? with
    | none => rw [hw] at hstep; exact absurd hstep (by simp)
    | some ow =>
      cases ow with
      | some i => rw [hw] at hstep; exact absurd hstep (by simp)
      | none =>
        rw [hw] at hstep
        simp only at hstep
        split at hstep
        case isFalse => exact absurd hstep (by simp)
        case isTrue hlt =>
          have hwlt : w < s.workers.length := by
            by_contra hge
            rw [List.getElem?_eq_none (by omega)] at hw
            exact absurd hw (by simp)
          have hq : s.statuses[s.nextIndex]? = some .queued :=
            fresh s.nextIndex (le_refl _) hlt
          obtain rfl : _ = s' := Option.some.inj hstep
          refine ⟨?_, ?_, ?_, ?_, ?_, ?_, ?_⟩
          · show (s.workers.set w (some s.nextIndex)).length = min limit items.length
            simpa using wlen
          · show (s.statuses.set s.nextIndex .processing).length = items.length
            simpa using slen
          · show s.nextIndex + 1 ≤ items.length
            omega
          · intro i h1 h2
            have h1' : s.nextIndex + 1 ≤ i := h1
            show (s.statuses.set s.nextIndex .processing)[i]? = some .queued
            rw [List.getElem?_set_ne (by omega)]
            exact fresh i (by omega) h2
          · intro w' i h
            have h' : (s.workers.set w (some s.nextIndex))[w']? = some (some i) := h
            by_cases hww : w = w'
            · subst hww
              rw [List.getElem?_set_self hwlt] at h'
              obtain rfl : s.nextIndex = i := by simpa using h'
              refine ⟨by show s.nextIndex < s.nextIndex + 1; omega, ?_⟩
              show (s.statuses.set s.nextIndex .processing)[s.nextIndex]? =
                some .processing
              rw [List.getElem?_set_self (by omega)]
            · rw [List.getElem?_set_ne hww] at h'
              obtain ⟨h1, h2⟩ := busy w' i h'
              refine ⟨by show i < s.nextIndex + 1; omega, ?_⟩
              show (s.statuses.set s.nextIndex .processing)[i]? = some .processing
              rw [List.getElem?_set_ne (by
                intro hcon
                rw [← hcon] at h2
                rw [hq] at h2
                simp at h2)]
              exact h2
          · intro w1 w2 i hne h1 h2
            have h1' : (s.workers.set w (some s.nextIndex))[w1]? = some (some i) := h1
            have h2' : (s.workers.set w (some s.nextIndex))[w2]? = some (some i) := h2
            by_cases hw1 : w = w1
            · subst hw1
              rw [List.getElem?_set_self hwlt] at h1'
              obtain rfl : s.nextIndex = i := by simpa using h1'
              rw [List.getElem?_set_ne hne] at h2'
              obtain ⟨hlt2, _⟩ := busy w2 s.nextIndex h2'
              omega
            · rw [List.getElem?_set_ne hw1] at h1'
              by_cases hw2 : w = w2
              · subst hw2
                rw [List.getElem?_set_self hwlt] at h2'
                obtain rfl : s.nextIndex = i := by simpa using h2'
                obtain ⟨hlt1, _⟩ := busy w1 s.nextIndex h1'
                omega
              · rw [List.getElem?_set_ne hw2] at h2'
                exact absurd h2' (distinct w1 w2 i hne h1')
          · show List.countP isProcessing (s.statuses.set s.nextIndex .processing) =
              List.countP (fun x => x.isSome) (s.workers.set w (some s.nextIndex))
            have e1 := countP_set_balance isProcessing s.statuses s.nextIndex
              .processing .queued hq
            have e2 := countP_set_balance (fun x => x.isSome) s.workers w
              (some s.nextIndex) none hw
            simp only [processingCount, busyCount] at count
            simp only [isProcessing] at e1
            simp only [Option.isSome_some, Option.isSome_none] at e2
            simp only [if_true, if_false] at e1 e2
            norm_num at e1 e2
            omega
  | finish w =>
    simp only [pstep] at hstep
    cases hw : s.workers[w]? with
    | none => rw [hw] at hstep; exact absurd hstep (by simp)
    | some ow =>
      cases ow with
      | none => rw [hw] at hstep; exact absurd hstep (by simp)
      | some i =>
        rw [hw] at hstep
        simp only at hstep
        cases hit : items[i]? with
        | none => rw [hit] at hstep; exact absurd hstep (by simp)
        | some url =>
          rw [hit] at hstep
          simp only at hstep
          obtain ⟨hi_lt, hi_proc⟩ := busy w i hw
          have hwlt : w < s.workers.length := by
            by_contra hge
            rw [List.getElem?_eq_none (by omega)] at hw
            exact absurd hw (by simp)
          have hilt : i < s.statuses.length := by
            by_contra hge
            rw [List.getElem?_eq_none (by omega)] at hi_proc
            exact absurd hi_proc (by simp)
          -- the two oracle branches only differ in context/failed bookkeeping
          have main : ∀ (st : SourceStatus), isProcessing st = false →
              ∀ (ctx fk : List String),
              PInv items limit
                { nextIndex := s.nextIndex, workers := s.workers.set w none,
                  statuses := s.statuses.set i st, contextKeys := ctx,
                  failedKeys := fk } := by
            intro st hst ctx fk
            refine ⟨?_, ?_, nle, ?_, ?_, ?_, ?_⟩
            · show (s.workers.set w none).length = min limit items.length
              simpa using wlen
            · show (s.statuses.set i st).length = items.length
              simpa using slen
            · intro j h1 h2
              have h1' : s.nextIndex ≤ j := h1
              show (s.statuses.set i st)[j]? = some .queued
              rw [List.getElem?_set_ne (by omega)]
              exact fresh j h1' h2
            · intro w' j h
              have h' : (s.workers.set w none)[w']? = some (some j) := h
              by_cases hww : w = w'
              · subst hww
                rw [List.getElem?_set_self hwlt] at h'
                simp at h'
              · rw [List.getElem?_set_ne hww] at h'
                obtain ⟨hj1, hj2⟩ := busy w' j h'
                refine ⟨hj1, ?_⟩
                show (s.statuses.set i st)[j]? = some .processing
                rw [List.getElem?_set_ne (by
                  intro hcon
                  subst hcon
                  exact distinct w w' i hww hw h')]
                exact hj2
            · intro w1 w2 j hne h1 h2
              have h1' : (s.workers.set w none)[w1]? = some (some j) := h1
              have h2' : (s.workers.set w none)[w2]? = some (some j) := h2
              by_cases hw1 : w = w1
              · subst hw1
                rw [List.getElem?_set_self hwlt] at h1'
                simp at h1'
              · rw [List.getElem?_set_ne hw1] at h1'
                by_cases hw2 : w = w2
                · subst hw2
                  rw [List.getElem?_set_self hwlt] at h2'
                  simp at h2'
                · rw [List.getElem?_set_ne hw2] at h2'
                  exact absurd h2' (distinct w1 w2 j hne h1')
            · show List.countP isProcessing (s.statuses.set i st) =
                List.countP (fun x => x.isSome) (s.workers.set w none)
              have e1 := countP_set_balance isProcessing s.statuses i st
                .processing hi_proc
              have e2 := countP_set_balance (fun x => x.isSome) s.workers w
                none (some i) hw
              simp only [processingCount, busyCount] at count
              rw [hst, show isProcessing SourceStatus.processing = true from rfl] at e1
              simp only [Option.isSome_some, Option.isSome_none] at e2
              norm_num at e1 e2
              omega
          cases horc : o url with
          | ok d =>
            rw [horc] at hstep
            obtain rfl : _ = s' := Option.some.inj hstep
            exact main .completed rfl _ _
          | error e =>
            rw [horc] at hstep
            obtain rfl : _ = s' := Option.some.inj hstep
            exact main .failed rfl _ _
theorem pinv_exec (items : List String) (o : String → Except GenError FetchData)
    (limit : Nat) :
    ∀ (acts : List PoolAction) (s s' : PoolState), PInv items limit s →
      execPool items o s acts = some s' → PInv items limit s' := by
  intro acts
  induction acts with
  | nil =>
    intro s s' h hex
    obtain rfl : s = s' := Option.some.inj hex
    exact h
  | cons a rest ih =>
    intro s s' h hex
    simp only [execPool] at hex
    cases hst : pstep items o s a with
    | none => rw [hst] at hex; exact absurd hex (by simp)
    | some s1 =>
      rw [hst] at hex
      exact ih s1 s' (pinv_step items o limit s s1 a h hst) hex

theorem pinv_processing_le (items : List String) (limit : Nat) (s : PoolState)
    (h : PInv items limit s) : processingCount s ≤ limit := by
  rw [h.count]
  calc busyCount s ≤ s.workers.length := List.countP_le_length _
    _ = min limit items.length := h.wlen
    _ ≤ limit := Nat.min_le_left _ _

/-- C5: in every schedulable execution of the worker pool over any item list
(N = 12 included), the number of `PROCESSING` registry entries — equally, of
in-flight fetches — never exceeds `MAX_URL_CONCURRENCY = 5`. -/
theorem pool_concurrency_bound (items : List String)
    (o : String → Except GenError FetchData) (acts : List PoolAction) :
    processingAfter items o acts ≤ MAX_URL_CONCURRENCY := by
  unfold processingAfter
  cases hex : execPool items o (initPool items MAX_URL_CONCURRENCY) acts with
  | none => simp
  | some s =>
    simp only
    exact pinv_processing_le items MAX_URL_CONCURRENCY s
      (pinv_exec items o MAX_URL_CONCURRENCY acts _ s
        (pinv_init items MAX_URL_CONCURRENCY) hex)

theorem suffix_addVisited (l : List String) (q : String) :
    ∃ t, addVisited l q = l ++ t := by
  unfold addVisited
  split
  · exact ⟨[], by simp⟩
  · exact ⟨[q], rfl⟩

theorem prefix_addVisited (l : List String) (q : String) :
    l <+: addVisited l q := by
  obtain ⟨t, ht⟩ := suffix_addVisited l q
  exact ⟨t, ht.symm⟩

theorem appendKeyPool_mono (ctx : List String) (u : String) :
    ctx <+: appendKeyPool ctx u := by
  simp only [appendKeyPool]
  split
  · exact List.prefix_refl _
  · split
    · exact prefix_addVisited _ _
    · exact (List.prefix_append _ _).trans (prefix_addVisited _ _)

theorem pstep_ctx_mono (items : List String)
    (o : String → Except GenError FetchData) (s s' : PoolState) (a : PoolAction)
    (h : pstep items o s a = some s') : s.contextKeys <+: s'.contextKeys := by
  cases a with
  | start w =>
    simp only [pstep] at h
    cases hw : s.workers[w]? with
    | none => rw [hw] at h; exact absurd h (by simp)
    | some ow =>
      cases ow with
      | some i => rw [hw] at h; exact absurd h (by simp)
      | none =>
        rw [hw] at h
        simp only at h
        split at h
        · obtain rfl : _ = s' := Option.some.inj h
          exact List.prefix_refl _
        · exact absurd h (by simp)
  | finish w =>
    simp only [pstep] at h
    cases hw : s.workers[w]? with
    | none => rw [hw] at h; exact absurd h (by simp)
    | some ow =>
      cases ow with
      | none => rw [hw] at h; exact absurd h (by simp)
      | some i =>
        rw [hw] at h
        simp only at h
        cases hit : items[i]? with
        | none => rw [hit] at h; exact absurd h (by simp)
        | some url =>
          rw [hit] at h
          simp only at h
          cases horc : o url with
          | ok d =>
            rw [horc] at h
            obtain rfl : _ = s' := Option.some.inj h
            exact appendKeyPool_mono _ _
          | error e =>
            rw [horc] at h
            obtain rfl : _ = s' := Option.some.inj h
            exact List.prefix_refl _

theorem exec_ctx_mono (items : List String)
    (o : String → Except GenError FetchData) :
    ∀ (acts : List PoolAction) (s s' : PoolState),
      execPool items o s acts = some s' → s.contextKeys <+: s'.contextKeys := by
  intro acts
  induction acts with
  | nil =>
    intro s s' h
    obtain rfl : s = s' := Option.some.inj h
    exact List.prefix_refl _
  | cons a rest ih =>
    intro s s' h
    simp only [execPool] at h
    cases hst : pstep items o s a with
    | none => rw [hst] at h; exact absurd h (by simp)
    | some s1 =>
      rw [hst] at h
      exact (pstep_ctx_mono items o s s1 a hst).trans (ih s1 s' h)


/-- C2 counterexample: a valid interleaving of the worker pool over discovery
order `[a, b]` emits the citation blocks in order `[b, a]` — the context
order is completion order, not first-discovery order. -/
theorem context_order_not_discovery_cex :
    (execPool demoItems demoOracle (initPool demoItems MAX_URL_CONCURRENCY)
        demoActs).map (·.contextKeys) =
      some [citationDirectiveUrl, "https://example.com/b", "https://example.com/a"]
    ∧ demoItems = ["https://example.com/a", "https://example.com/b"]
    ∧ ([citationDirectiveUrl, "https://example.com/b", "https://example.com/a"] :
        List String) ≠
      [citationDirectiveUrl, "https://example.com/a", "https://example.com/b"] := by
  refine ⟨by decide, rfl, by decide⟩

/-- C2 (amended): the accumulated context is append-only — along every valid
schedule each reached context extends the earlier one — and its order is
append-on-completion: the demo schedule completing `b` before `a` emits
`[directive, b, a]`. -/
theorem context_append_only_completion_order :
    (∀ (items : List String) (o : String → Except GenError FetchData)
      (acts : List PoolAction) (s s' : PoolState),
      execPool items o s acts = some s' → s.contextKeys <+: s'.contextKeys) ∧
    execPool demoItems demoOracle (initPool demoItems MAX_URL_CONCURRENCY)
      demoActs = some demoFinal :=
  ⟨exec_ctx_mono, by decide⟩

/-- Witness for `context_append_only_completion_order` applied along the demo
schedule. -/
theorem context_append_only_completion_order_witness :
    (initPool demoItems MAX_URL_CONCURRENCY).contextKeys <+: demoFinal.contextKeys :=
  context_append_only_completion_order.1 demoItems demoOracle demoActs _ demoFinal
    (by decide)

/-! ## Theorems: evidence harvester — assoc-map toolkit -/

theorem lookupA_updateA_self {β : Type} (l : List (String × β)) (k : String) (v : β) :
    lookupA (updateA l k v) k = some v := by
  induction l with
  | nil => simp [updateA, lookupA]
  | cons p rest ih =>
    obtain ⟨k1, v1⟩ := p
    by_cases h : k1 = k
    · simp [updateA, h, lookupA]
    · simp [updateA, h, lookupA, ih]

theorem lookupA_updateA_ne {β : Type} (l : List (String × β)) (k : String) (v : β)
    (k' : String) (h : k' ≠ k) : lookupA (updateA l k v) k' = lookupA l k' := by
  induction l with
  | nil => simp [updateA, lookupA, Ne.symm h]
  | cons p rest ih =>
    obtain ⟨k1, v1⟩ := p
    by_cases h1 : k1 = k
    · subst h1
      simp [updateA, lookupA, Ne.symm h]
    · simp only [updateA, if_neg h1]
      by_cases h2 : k1 = k'
      · simp [lookupA, h2]
      · simp [lookupA, h2, ih]

theorem mem_keys_updateA {β : Type} (l : List (String × β)) (k : String) (v : β)
    (u : String) :
    u ∈ (updateA l k v).map (·.1) ↔ u ∈ l.map (·.1) ∨ u = k := by
  induction l with
  | nil => simp [updateA]
  | cons p rest ih =>
    obtain ⟨k1, v1⟩ := p
    by_cases h : k1 = k
    · subst h
      simp [updateA]
      tauto
    · simp [updateA, h, ih]
      tauto

theorem keys_nodup_updateA {β : Type} (l : List (String × β)) (k : String) (v : β)
    (h : (l.map (·.1)).Nodup) : ((updateA l k v).map (·.1)).Nodup := by
  induction l with
  | nil => simp [updateA]
  | cons p rest ih =>
    obtain ⟨k1, v1⟩ := p
    simp only [List.map_cons, List.nodup_cons] at h
    obtain ⟨hk1, hrest⟩ := h
    by_cases hkk : k1 = k
    · subst hkk
      have hupd : updateA ((k1, v1) :: rest) k1 v = (k1, v) :: rest := by
        simp [updateA]
      rw [hupd]
      simp only [List.map_cons, List.nodup_cons]
      exact ⟨hk1, hrest⟩
    · simp only [updateA, if_neg hkk, List.map_cons, List.nodup_cons]
      refine ⟨?_, ih hrest⟩
      rw [mem_keys_updateA]
      rintro (h1 | h1)
      · exact hk1 h1
      · exact hkk h1

theorem lookupA_isSome_iff {β : Type} (l : List (String × β)) (u : String) :
    (lookupA l u).isSome ↔ u ∈ l.map (·.1) := by
  induction l with
  | nil => simp [lookupA]
  | cons p rest ih =>
    obtain ⟨k1, v1⟩ := p
    by_cases h : k1 = u
    · simp [lookupA, h]
    · simp [lookupA, h, ih, Ne.symm h]

/-! ## Theorems: evidence harvester — per-operation facts -/

theorem statusOf_setReg_self (st : ResearchState) (u : String) (stt : SourceStatus)
    (a b c : String) : statusOf (setRegistryStatus st u stt a b c) u = some stt := by
  simp [statusOf, setRegistryStatus, lookupA_updateA_self]

theorem statusOf_setReg_ne (st : ResearchState) (u : String) (stt : SourceStatus)
    (a b c : String) (v : String) (h : v ≠ u) :
    statusOf (setRegistryStatus st u stt a b c) v = statusOf st v := by
  simp [statusOf, setRegistryStatus, lookupA_updateA_ne _ _ _ _ h]

theorem sourceRegistry_ensure (st : ResearchState) :
    (ensureCitationDirective st).sourceRegistry = st.sourceRegistry := by
  unfold ensureCitationDirective
  split <;> rfl

theorem sourceRegistry_append (st : ResearchState) (u t c : String) :
    (appendCitationBlock st u t c).sourceRegistry = st.sourceRegistry := by
  unfold appendCitationBlock
  split
  · rfl
  · show (ensureCitationDirective st).sourceRegistry = st.sourceRegistry
    exact sourceRegistry_ensure st

theorem sourceRegistry_upsertEvidence (st : ResearchState) (r : EvidenceRecord) :
    (upsertEvidence st r).sourceRegistry = st.sourceRegistry := by
  unfold upsertEvidence
  split <;> rfl

theorem sourceRegistry_upsertSource (st : ResearchState) (src : SourceReference) :
    (upsertSource st src).sourceRegistry = st.sourceRegistry := by
  unfold upsertSource
  split <;> rfl

theorem sourceRegistry_addFailed (st : ResearchState) (u r : String) (b : Bool) :
    (addFailedUrl st u r b).sourceRegistry = st.sourceRegistry := by
  unfold addFailedUrl
  split
  · rfl
  · split <;> rfl

theorem statusOf_markCompleted_self (st : ResearchState) (u t sm : String)
    (hv : isValidSourceUrl u = true) (hne : u ≠ "") :
    statusOf (markSourceCompleted st u t sm) u = some .completed := by
  unfold markSourceCompleted
  rw [if_neg (by simp [hne, hv])]
  exact statusOf_setReg_self _ _ _ _ _ _

theorem statusOf_markCompleted_ne (st : ResearchState) (u t sm : String)
    (v : String) (h : v ≠ u) :
    statusOf (markSourceCompleted st u t sm) v = statusOf st v := by
  unfold markSourceCompleted
  split
  · rfl
  · rw [statusOf_setReg_ne _ _ _ _ _ _ _ h]
    simp [statusOf, sourceRegistry_upsertSource]

theorem RMono.rfl (s : ResearchState) : RMono s s :=
  ⟨⟨[], by simp⟩, ⟨[], by simp⟩, ⟨[], by simp⟩, ⟨[], by simp⟩, ⟨[], by simp⟩,
   fun _ h => h⟩

theorem RMono.comp {s s' s'' : ResearchState} (h1 : RMono s s') (h2 : RMono s' s'') :
    RMono s s'' := by
  obtain ⟨⟨e1, he1⟩, ⟨f1, hf1⟩, ⟨i1, hi1⟩, ⟨c1, hc1⟩, ⟨v1, hv1⟩, hr1⟩ := h1
  obtain ⟨⟨e2, he2⟩, ⟨f2, hf2⟩, ⟨i2, hi2⟩, ⟨c2, hc2⟩, ⟨v2, hv2⟩, hr2⟩ := h2
  exact ⟨⟨e1 ++ e2, by simp [he2, he1]⟩, ⟨f1 ++ f2, by simp [hf2, hf1]⟩,
    ⟨i1 ++ i2, by simp [hi2, hi1]⟩, ⟨c1 ++ c2, by simp [hc2, hc1]⟩,
    ⟨v1 ++ v2, by simp [hv2, hv1]⟩, fun u hu => hr2 u (hr1 u hu)⟩

theorem rmono_ensure (st : ResearchState) : RMono st (ensureCitationDirective st) := by
  unfold ensureCitationDirective
  split
  · exact RMono.rfl st
  · exact ⟨⟨[], by simp⟩, ⟨[], by simp⟩, ⟨_, Eq.refl _⟩, ⟨_, Eq.refl _⟩,
      ⟨[], by simp⟩, fun _ h => h⟩

theorem rmono_append (st : ResearchState) (u t c : String) :
    RMono st (appendCitationBlock st u t c) := by
  unfold appendCitationBlock
  split
  · exact RMono.rfl st
  · refine RMono.comp (rmono_ensure st) ?_
    exact ⟨⟨[], by simp⟩, ⟨[], by simp⟩, suffix_addVisited _ _, ⟨_, Eq.refl _⟩,
      ⟨[], by simp⟩, fun _ h => h⟩

theorem rmono_setReg (st : ResearchState) (u : String) (stt : SourceStatus)
    (a b c : String) : RMono st (setRegistryStatus st u stt a b c) :=
  ⟨⟨[], by simp [setRegistryStatus]⟩, ⟨[], by simp [setRegistryStatus]⟩,
   ⟨[], by simp [setRegistryStatus]⟩, ⟨[], by simp [setRegistryStatus]⟩,
   ⟨[], by simp [setRegistryStatus]⟩,
   fun v hv => by
    show v ∈ (updateA st.sourceRegistry u _).map (·.1)
    rw [mem_keys_updateA]
    exact Or.inl hv⟩

theorem rmono_upsertEvidence (st : ResearchState) (r : EvidenceRecord) :
    RMono st (upsertEvidence st r) := by
  unfold upsertEvidence
  split
  · exact RMono.rfl st
  · exact ⟨⟨[], by simp⟩, ⟨[], by simp⟩, ⟨[], by simp⟩, ⟨[], by simp⟩,
      ⟨[], by simp⟩, fun _ h => h⟩

theorem rmono_upsertSource (st : ResearchState) (src : SourceReference) :
    RMono st (upsertSource st src) := by
  unfold upsertSource
  split
  · exact RMono.rfl st
  · exact ⟨⟨[], by simp⟩, ⟨[], by simp⟩, ⟨[], by simp⟩, ⟨[], by simp⟩,
      ⟨[], by simp⟩, fun _ h => h⟩

/-! Projection facts: which state fields each operation leaves unchanged. -/

@[simp] theorem events_ensure (st : ResearchState) :
    (ensureCitationDirective st).events = st.events := by
  unfold ensureCitationDirective; split <;> rfl

@[simp] theorem failed_ensure (st : ResearchState) :
    (ensureCitationDirective st).failedUrls = st.failedUrls := by
  unfold ensureCitationDirective; split <;> rfl

@[simp] theorem visited_ensure (st : ResearchState) :
    (ensureCitationDirective st).visitedQueries = st.visitedQueries := by
  unfold ensureCitationDirective; split <;> rfl

@[simp] theorem reg_ensure (st : ResearchState) :
    (ensureCitationDirective st).sourceRegistry = st.sourceRegistry := by
  unfold ensureCitationDirective; split <;> rfl

@[simp] theorem gath_ensure (st : ResearchState) :
    (ensureCitationDirective st).gatheredSources = st.gatheredSources := by
  unfold ensureCitationDirective; split <;> rfl

@[simp] theorem gap_ensure (st : ResearchState) :
    (ensureCitationDirective st).gapCalls = st.gapCalls := by
  unfold ensureCitationDirective; split <;> rfl

@[simp] theorem rounds_ensure (st : ResearchState) :
    (ensureCitationDirective st).rounds = st.rounds := by
  unfold ensureCitationDirective; split <;> rfl

@[simp] theorem events_append (st : ResearchState) (u t c : String) :
    (appendCitationBlock st u t c).events = st.events := by
  unfold appendCitationBlock; split
  · rfl
  · simp only [events_ensure]

@[simp] theorem failed_append (st : ResearchState) (u t c : String) :
    (appendCitationBlock st u t c).failedUrls = st.failedUrls := by
  unfold appendCitationBlock; split
  · rfl
  · simp only [failed_ensure]

@[simp] theorem visited_append (st : ResearchState) (u t c : String) :
    (appendCitationBlock st u t c).visitedQueries = st.visitedQueries := by
  unfold appendCitationBlock; split
  · rfl
  · simp only [visited_ensure]

@[simp] theorem reg_append (st : ResearchState) (u t c : String) :
    (appendCitationBlock st u t c).sourceRegistry = st.sourceRegistry := by
  unfold appendCitationBlock; split
  · rfl
  · simp only [reg_ensure]

@[simp] theorem gath_append (st : ResearchState) (u t c : String) :
    (appendCitationBlock st u t c).gatheredSources = st.gatheredSources := by
  unfold appendCitationBlock; split
  · rfl
  · simp only [gath_ensure]

@[simp] theorem gap_append (st : ResearchState) (u t c : String) :
    (appendCitationBlock st u t c).gapCalls = st.gapCalls := by
  unfold appendCitationBlock; split
  · rfl
  · simp only [gap_ensure]

@[simp] theorem rounds_append (st : ResearchState) (u t c : String) :
    (appendCitationBlock st u t c).rounds = st.rounds := by
  unfold appendCitationBlock; split
  · rfl
  · simp only [rounds_ensure]

@[simp] theorem events_setReg (st : ResearchState) (u : String) (s0 : SourceStatus)
    (a b c : String) : (setRegistryStatus st u s0 a b c).events = st.events := rfl

@[simp] theorem failed_setReg (st : ResearchState) (u : String) (s0 : SourceStatus)
    (a b c : String) : (setRegistryStatus st u s0 a b c).failedUrls = st.failedUrls := rfl

@[simp] theorem visited_setReg (st : ResearchState) (u : String) (s0 : SourceStatus)
    (a b c : String) :
    (setRegistryStatus st u s0 a b c).visitedQueries = st.visitedQueries := rfl

@[simp] theorem ctx_setReg (st : ResearchState) (u : String) (s0 : SourceStatus)
    (a b c : String) : (setRegistryStatus st u s0 a b c).contextParts = st.contextParts := rfl

@[simp] theorem ids_setReg (st : ResearchState) (u : String) (s0 : SourceStatus)
    (a b c : String) :
    (setRegistryStatus st u s0 a b c).contextSourceIds = st.contextSourceIds := rfl

@[simp] theorem gath_setReg (st : ResearchState) (u : String) (s0 : SourceStatus)
    (a b c : String) :
    (setRegistryStatus st u s0 a b c).gatheredSources = st.gatheredSources := rfl

@[simp] theorem gap_setReg (st : ResearchState) (u : String) (s0 : SourceStatus)
    (a b c : String) : (setRegistryStatus st u s0 a b c).gapCalls = st.gapCalls := rfl

@[simp] theorem rounds_setReg (st : ResearchState) (u : String) (s0 : SourceStatus)
    (a b c : String) : (setRegistryStatus st u s0 a b c).rounds = st.rounds := rfl

@[simp] theorem events_upsertEvidence (st : ResearchState) (r : EvidenceRecord) :
    (upsertEvidence st r).events = st.events := by
  unfold upsertEvidence; split <;> rfl

@[simp] theorem failed_upsertEvidence (st : ResearchState) (r : EvidenceRecord) :
    (upsertEvidence st r).failedUrls = st.failedUrls := by
  unfold upsertEvidence; split <;> rfl

@[simp] theorem visited_upsertEvidence (st : ResearchState) (r : EvidenceRecord) :
    (upsertEvidence st r).visitedQueries = st.visitedQueries := by
  unfold upsertEvidence; split <;> rfl

@[simp] theorem ctx_upsertEvidence (st : ResearchState) (r : EvidenceRecord) :
    (upsertEvidence st r).contextParts = st.contextParts := by
  unfold upsertEvidence; split <;> rfl

@[simp] theorem ids_upsertEvidence (st : ResearchState) (r : EvidenceRecord) :
    (upsertEvidence st r).contextSourceIds = st.contextSourceIds := by
  unfold upsertEvidence; split <;> rfl

@[simp] theorem reg_upsertEvidence' (st : ResearchState) (r : EvidenceRecord) :
    (upsertEvidence st r).sourceRegistry = st.sourceRegistry := by
  unfold upsertEvidence; split <;> rfl

@[simp] theorem gath_upsertEvidence (st : ResearchState) (r : EvidenceRecord) :
    (upsertEvidence st r).gatheredSources = st.gatheredSources := by
  unfold upsertEvidence; split <;> rfl

@[simp] theorem gap_upsertEvidence (st : ResearchState) (r : EvidenceRecord) :
    (upsertEvidence st r).gapCalls = st.gapCalls := by
  unfold upsertEvidence; split <;> rfl

@[simp] theorem rounds_upsertEvidence (st : ResearchState) (r : EvidenceRecord) :
    (upsertEvidence st r).rounds = st.rounds := by
  unfold upsertEvidence; split <;> rfl

@[simp] theorem events_upsertSource (st : ResearchState) (src : SourceReference) :
    (upsertSource st src).events = st.events := by
  unfold upsertSource; split <;> rfl

@[simp] theorem failed_upsertSource (st : ResearchState) (src : SourceReference) :
    (upsertSource st src).failedUrls = st.failedUrls := by
  unfold upsertSource; split <;> rfl

@[simp] theorem visited_upsertSource (st : ResearchState) (src : SourceReference) :
    (upsertSource st src).visitedQueries = st.visitedQueries := by
  unfold upsertSource; split <;> rfl

@[simp] theorem ctx_upsertSource (st : ResearchState) (src : SourceReference) :
    (upsertSource st src).contextParts = st.contextParts := by
  unfold upsertSource; split <;> rfl

@[simp] theorem ids_upsertSource (st : ResearchState) (src : SourceReference) :
    (upsertSource st src).contextSourceIds = st.contextSourceIds := by
  unfold upsertSource; split <;> rfl

@[simp] theorem reg_upsertSource' (st : ResearchState) (src : SourceReference) :
    (upsertSource st src).sourceRegistry = st.sourceRegistry := by
  unfold upsertSource; split <;> rfl

@[simp] theorem gap_upsertSource (st : ResearchState) (src : SourceReference) :
    (upsertSource st src).gapCalls = st.gapCalls := by
  unfold upsertSource; split <;> rfl

@[simp] theorem rounds_upsertSource (st : ResearchState) (src : SourceReference) :
    (upsertSource st src).rounds = st.rounds := by
  unfold upsertSource; split <;> rfl

@[simp] theorem events_register (st : ResearchState) (src : SourceReference) :
    (registerDiscoveredSource st src).events = st.events := by
  unfold registerDiscoveredSource; split
  · rfl
  · dsimp only; split
    · simp
    · split <;> simp

@[simp] theorem failed_register (st : ResearchState) (src : SourceReference) :
    (registerDiscoveredSource st src).failedUrls = st.failedUrls := by
  unfold registerDiscoveredSource; split
  · rfl
  · dsimp only; split
    · simp
    · split <;> simp

@[simp] theorem visited_register (st : ResearchState) (src : SourceReference) :
    (registerDiscoveredSource st src).visitedQueries = st.visitedQueries := by
  unfold registerDiscoveredSource; split
  · rfl
  · dsimp only; split
    · simp
    · split <;> simp

@[simp] theorem ctx_register (st : ResearchState) (src : SourceReference) :
    (registerDiscoveredSource st src).contextParts = st.contextParts := by
  unfold registerDiscoveredSource; split
  · rfl
  · dsimp only; split
    · simp
    · split <;> simp

@[simp] theorem ids_register (st : ResearchState) (src : SourceReference) :
    (registerDiscoveredSource st src).contextSourceIds = st.contextSourceIds := by
  unfold registerDiscoveredSource; split
  · rfl
  · dsimp only; split
    · simp
    · split <;> simp

@[simp] theorem gap_register (st : ResearchState) (src : SourceReference) :
    (registerDiscoveredSource st src).gapCalls = st.gapCalls := by
  unfold registerDiscoveredSource; split
  · rfl
  · dsimp only; split
    · simp
    · split <;> simp

@[simp] theorem rounds_register (st : ResearchState) (src : SourceReference) :
    (registerDiscoveredSource st src).rounds = st.rounds := by
  unfold registerDiscoveredSource; split
  · rfl
  · dsimp only; split
    · simp
    · split <;> simp

@[simp] theorem events_markCompleted (st : ResearchState) (u t sm : String) :
    (markSourceCompleted st u t sm).events = st.events := by
  unfold markSourceCompleted; split
  · rfl
  · simp

@[simp] theorem failed_markCompleted (st : ResearchState) (u t sm : String) :
    (markSourceCompleted st u t sm).failedUrls = st.failedUrls := by
  unfold markSourceCompleted; split
  · rfl
  · simp

@[simp] theorem visited_markCompleted (st : ResearchState) (u t sm : String) :
    (markSourceCompleted st u t sm).visitedQueries = st.visitedQueries := by
  unfold markSourceCompleted; split
  · rfl
  · simp

@[simp] theorem ctx_markCompleted (st : ResearchState) (u t sm : String) :
    (markSourceCompleted st u t sm).contextParts = st.contextParts := by
  unfold markSourceCompleted; split
  · rfl
  · simp

@[simp] theorem ids_markCompleted (st : ResearchState) (u t sm : String) :
    (markSourceCompleted st u t sm).contextSourceIds = st.contextSourceIds := by
  unfold markSourceCompleted; split
  · rfl
  · simp

@[simp] theorem gap_markCompleted (st : ResearchState) (u t sm : String) :
    (markSourceCompleted st u t sm).gapCalls = st.gapCalls := by
  unfold markSourceCompleted; split
  · rfl
  · simp

@[simp] theorem rounds_markCompleted (st : ResearchState) (u t sm : String) :
    (markSourceCompleted st u t sm).rounds = st.rounds := by
  unfold markSourceCompleted; split
  · rfl
  · simp

@[simp] theorem events_addFailed (st : ResearchState) (u r : String) (b : Bool) :
    (addFailedUrl st u r b).events = st.events := by
  unfold addFailedUrl; split
  · rfl
  · split <;> rfl

@[simp] theorem visited_addFailed (st : ResearchState) (u r : String) (b : Bool) :
    (addFailedUrl st u r b).visitedQueries = st.visitedQueries := by
  unfold addFailedUrl; split
  · rfl
  · split <;> rfl

@[simp] theorem ctx_addFailed (st : ResearchState) (u r : String) (b : Bool) :
    (addFailedUrl st u r b).contextParts = st.contextParts := by
  unfold addFailedUrl; split
  · rfl
  · split <;> rfl

@[simp] theorem ids_addFailed (st : ResearchState) (u r : String) (b : Bool) :
    (addFailedUrl st u r b).contextSourceIds = st.contextSourceIds := by
  unfold addFailedUrl; split
  · rfl
  · split <;> rfl

@[simp] theorem reg_addFailed' (st : ResearchState) (u r : String) (b : Bool) :
    (addFailedUrl st u r b).sourceRegistry = st.sourceRegistry := by
  unfold addFailedUrl; split
  · rfl
  · split <;> rfl

@[simp] theorem gath_addFailed (st : ResearchState) (u r : String) (b : Bool) :
    (addFailedUrl st u r b).gatheredSources = st.gatheredSources := by
  unfold addFailedUrl; split
  · rfl
  · split <;> rfl

@[simp] theorem gap_addFailed (st : ResearchState) (u r : String) (b : Bool) :
    (addFailedUrl st u r b).gapCalls = st.gapCalls := by
  unfold addFailedUrl; split
  · rfl
  · split <;> rfl

@[simp] theorem rounds_addFailed (st : ResearchState) (u r : String) (b : Bool) :
    (addFailedUrl st u r b).rounds = st.rounds := by
  unfold addFailedUrl; split
  · rfl
  · split <;> rfl

/-- `processUrl` appends exactly one fetch event. -/
@[simp] theorem events_processUrl (o : ResearchOracles) (st : ResearchState)
    (u : String) : (processUrl o st u).events = st.events ++ [.fetch u] := by
  unfold processUrl
  cases o.fetch u <;> simp

@[simp] theorem visited_processUrl (o : ResearchOracles) (st : ResearchState)
    (u : String) : (processUrl o st u).visitedQueries = st.visitedQueries := by
  unfold processUrl
  cases o.fetch u <;> simp

@[simp] theorem gap_processUrl (o : ResearchOracles) (st : ResearchState)
    (u : String) : (processUrl o st u).gapCalls = st.gapCalls := by
  unfold processUrl
  cases o.fetch u <;> simp

@[simp] theorem rounds_processUrl (o : ResearchOracles) (st : ResearchState)
    (u : String) : (processUrl o st u).rounds = st.rounds := by
  unfold processUrl
  cases o.fetch u <;> simp

/-- `processQuery` appends exactly one exec event. -/
@[simp] theorem events_processQuery (o : ResearchOracles) (st : ResearchState)
    (q : String) : (processQuery o st q).events = st.events ++ [.exec q] := by
  unfold processQuery
  have hreg : ∀ (srcs : List SourceReference) (s0 : ResearchState),
      (srcs.foldl registerDiscoveredSource s0).events = s0.events := by
    intro srcs
    induction srcs with
    | nil => intro s0; rfl
    | cons a rest ih => intro s0; rw [List.foldl_cons, ih, events_register]
  dsimp only
  rw [hreg]
  split <;> simp

@[simp] theorem visited_processQuery (o : ResearchOracles) (st : ResearchState)
    (q : String) : (processQuery o st q).visitedQueries = st.visitedQueries := by
  unfold processQuery
  have hreg : ∀ (srcs : List SourceReference) (s0 : ResearchState),
      (srcs.foldl registerDiscoveredSource s0).visitedQueries = s0.visitedQueries := by
    intro srcs
    induction srcs with
    | nil => intro s0; rfl
    | cons a rest ih => intro s0; rw [List.foldl_cons, ih, visited_register]
  dsimp only
  rw [hreg]
  split <;> simp

@[simp] theorem failed_processQuery (o : ResearchOracles) (st : ResearchState)
    (q : String) : (processQuery o st q).failedUrls = st.failedUrls := by
  unfold processQuery
  have hreg : ∀ (srcs : List SourceReference) (s0 : ResearchState),
      (srcs.foldl registerDiscoveredSource s0).failedUrls = s0.failedUrls := by
    intro srcs
    induction srcs with
    | nil => intro s0; rfl
    | cons a rest ih => intro s0; rw [List.foldl_cons, ih, failed_register]
  dsimp only
  rw [hreg]
  split <;> simp

@[simp] theorem gap_processQuery (o : ResearchOracles) (st : ResearchState)
    (q : String) : (processQuery o st q).gapCalls = st.gapCalls := by
  unfold processQuery
  have hreg : ∀ (srcs : List SourceReference) (s0 : ResearchState),
      (srcs.foldl registerDiscoveredSource s0).gapCalls = s0.gapCalls := by
    intro srcs
    induction srcs with
    | nil => intro s0; rfl
    | cons a rest ih => intro s0; rw [List.foldl_cons, ih, gap_register]
  dsimp only
  rw [hreg]
  split <;> simp

@[simp] theorem rounds_processQuery (o : ResearchOracles) (st : ResearchState)
    (q : String) : (processQuery o st q).rounds = st.rounds := by
  unfold processQuery
  have hreg : ∀ (srcs : List SourceReference) (s0 : ResearchState),
      (srcs.foldl registerDiscoveredSource s0).rounds = s0.rounds := by
    intro srcs
    induction srcs with
    | nil => intro s0; rfl
    | cons a rest ih => intro s0; rw [List.foldl_cons, ih, rounds_register]
  dsimp only
  rw [hreg]
  split <;> simp

theorem failed_addFailed_suffix (st : ResearchState) (u r : String) (b : Bool) :
    ∃ t, (addFailedUrl st u r b).failedUrls = st.failedUrls ++ t := by
  unfold addFailedUrl
  split
  · exact ⟨[], by simp⟩
  · split
    · exact ⟨[], by simp⟩
    · exact ⟨[⟨u, r, b⟩], rfl⟩

theorem rmono_addFailed (st : ResearchState) (u r : String) (b : Bool) :
    RMono st (addFailedUrl st u r b) := by
  obtain ⟨t, ht⟩ := failed_addFailed_suffix st u r b
  exact ⟨⟨[], by simp⟩, ⟨t, ht⟩, ⟨[], by simp⟩, ⟨[], by simp⟩, ⟨[], by simp⟩,
    fun v hv => by rw [reg_addFailed']; exact hv⟩

theorem rmono_markCompleted (st : ResearchState) (u t sm : String) :
    RMono st (markSourceCompleted st u t sm) := by
  unfold markSourceCompleted
  split
  · exact RMono.rfl st
  · exact RMono.comp (rmono_upsertSource st _) (rmono_setReg _ _ _ _ _ _)

theorem foldl_addVisited_suffix :
    ∀ (L : List String) (vs : List String), ∃ t, L.foldl addVisited vs = vs ++ t := by
  intro L
  induction L with
  | nil => intro vs; exact ⟨[], by simp⟩
  | cons q qs ih =>
    intro vs
    rw [List.foldl_cons]
    by_cases hq : q ∈ vs
    · rw [show addVisited vs q = vs from by simp [addVisited, hq]]
      exact ih vs
    · rw [show addVisited vs q = vs ++ [q] from by simp [addVisited, hq]]
      obtain ⟨t, ht⟩ := ih (vs ++ [q])
      exact ⟨[q] ++ t, by simp [ht]⟩

/-- The RMono record for each primitive and composite operation. -/
theorem rmono_register (st : ResearchState) (src : SourceReference) :
    RMono st (registerDiscoveredSource st src) := by
  refine ⟨⟨[], by simp⟩, ⟨[], by simp⟩, ⟨[], by simp⟩, ⟨[], by simp⟩,
    ⟨[], by simp⟩, ?_⟩
  intro v hv
  unfold registerDiscoveredSource
  split
  · exact hv
  · dsimp only
    split
    · show v ∈ (updateA (upsertSource st src).sourceRegistry src.url _).map (·.1)
      rw [mem_keys_updateA, reg_upsertSource']
      exact Or.inl hv
    · split
      · show v ∈ (upsertSource st src).sourceRegistry.map (·.1)
        rw [reg_upsertSource']
        exact hv
      · show v ∈ (updateA (upsertSource st src).sourceRegistry src.url _).map (·.1)
        rw [mem_keys_updateA, reg_upsertSource']
        exact Or.inl hv

theorem mem_keys_setReg (st : ResearchState) (u : String) (s0 : SourceStatus)
    (a b c : String) (v : String) (hv : v ∈ st.sourceRegistry.map (·.1)) :
    v ∈ (setRegistryStatus st u s0 a b c).sourceRegistry.map (·.1) := by
  show v ∈ (updateA st.sourceRegistry u _).map (·.1)
  rw [mem_keys_updateA]
  exact Or.inl hv

theorem reg_keys_processUrl (o : ResearchOracles) (st : ResearchState)
    (u v : String) (hv : v ∈ st.sourceRegistry.map (·.1)) :
    v ∈ (processUrl o st u).sourceRegistry.map (·.1) := by
  unfold processUrl
  cases o.fetch u with
  | ok d =>
    dsimp only
    rw [reg_append]
    unfold markSourceCompleted
    split
    · rw [reg_upsertEvidence']
      exact mem_keys_setReg st u .processing "" "" "" v hv
    · refine mem_keys_setReg _ u .completed _ _ "" v ?_
      rw [reg_upsertSource', reg_upsertEvidence']
      exact mem_keys_setReg st u .processing "" "" "" v hv
  | error e =>
    dsimp only
    refine mem_keys_setReg _ u .failed "" "" _ v ?_
    rw [reg_addFailed']
    exact mem_keys_setReg st u .processing "" "" "" v hv

theorem rmono_events_push (st : ResearchState) (e : REvent) :
    RMono st { st with events := st.events ++ [e] } :=
  ⟨⟨[e], Eq.refl _⟩, ⟨[], by simp⟩, ⟨[], by simp⟩, ⟨[], by simp⟩, ⟨[], by simp⟩,
   fun _ h => h⟩

theorem rmono_processUrl (o : ResearchOracles) (st : ResearchState) (u : String) :
    RMono st (processUrl o st u) := by
  unfold processUrl
  dsimp only
  cases o.fetch u with
  | ok d =>
    dsimp only
    exact RMono.comp (rmono_setReg st u .processing "" "" "")
      (RMono.comp (rmono_events_push _ (.fetch u))
        (RMono.comp (rmono_upsertEvidence _ _)
          (RMono.comp (rmono_markCompleted _ _ _ _) (rmono_append _ _ _ _))))
  | error e =>
    dsimp only
    exact RMono.comp (rmono_setReg st u .processing "" "" "")
      (RMono.comp (rmono_events_push _ (.fetch u))
        (RMono.comp (rmono_addFailed _ _ _ _) (rmono_setReg _ _ _ _ _ _)))

theorem rmono_foldl {α : Type} (f : ResearchState → α → ResearchState)
    (hf : ∀ st x, RMono st (f st x)) :
    ∀ (L : List α) (st : ResearchState), RMono st (L.foldl f st) := by
  intro L
  induction L with
  | nil => intro st; exact RMono.rfl st
  | cons x xs ih =>
    intro st
    exact RMono.comp (hf st x) (ih (f st x))

theorem rmono_processQuery (o : ResearchOracles) (st : ResearchState) (q : String) :
    RMono st (processQuery o st q) := by
  unfold processQuery
  dsimp only
  refine RMono.comp (rmono_events_push st (.exec q)) ?_
  split
  · refine RMono.comp ?_ (rmono_foldl _ (fun a b => rmono_register a b) _ _)
    exact RMono.comp (rmono_upsertEvidence _ _) (rmono_append _ _ _ _)
  · exact rmono_foldl _ (fun a b => rmono_register a b) _ _

theorem rmono_collectAux :
    ∀ (L ups : List String) (st : ResearchState),
      RMono st (collectUrlsAux st L ups).1 := by
  intro L
  induction L with
  | nil => intro ups st; exact RMono.rfl st
  | cons url rest ih =>
    intro ups st
    unfold collectUrlsAux
    split
    · exact RMono.comp
        (RMono.comp (rmono_addFailed st url _ true) (rmono_setReg _ _ _ _ _ _))
        (ih _ _)
    · split
      · split
        · exact ih _ _
        · exact ih _ _
      · exact RMono.comp (rmono_setReg st url .queued "" "" "") (ih _ _)

/-- `harvestB` with the pair-destructuring `let` written as projections
(definitional by structure eta). -/
theorem harvestB_eq (o : ResearchOracles) (st : ResearchState)
    (urls queries : List String) :
    harvestB o st urls queries =
      (let uniqueUrls := (urls.map jsTrim).filter (· ≠ "")
       let st1 := (collectUrls st uniqueUrls).1
       let ups := (collectUrls st uniqueUrls).2
       let st2 := ups.foldl (processUrl o) st1
       let fq := (queries.map jsTrim).filter
         fun q => q ≠ "" && !decide (q ∈ st2.visitedQueries)
       let st3 := { st2 with visitedQueries := fq.foldl addVisited st2.visitedQueries }
       fq.foldl (processQuery o) st3) := rfl

theorem rmono_visitedFold (st : ResearchState) (fq : List String) :
    RMono st { st with visitedQueries := fq.foldl addVisited st.visitedQueries } := by
  obtain ⟨t, ht⟩ := foldl_addVisited_suffix fq st.visitedQueries
  exact ⟨⟨[], by simp⟩, ⟨[], by simp⟩, ⟨[], by simp⟩, ⟨[], by simp⟩,
    ⟨t, by simp [ht]⟩, fun _ h => h⟩

theorem rmono_collect (st : ResearchState) (L : List String) :
    RMono st (collectUrls st L).1 :=
  rmono_collectAux L [] st

theorem rmono_harvestB (o : ResearchOracles) (st : ResearchState)
    (urls queries : List String) : RMono st (harvestB o st urls queries) := by
  rw [harvestB_eq]
  dsimp only
  exact RMono.comp (rmono_collect st _)
    (RMono.comp (rmono_foldl _ (fun a b => rmono_processUrl o a b) _ _)
      (RMono.comp (rmono_visitedFold _ _)
        (rmono_foldl _ (fun a b => rmono_processQuery o a b) _ _)))

theorem rmono_reviewGaps (o : ResearchOracles) (st : ResearchState) :
    RMono st (reviewForGapsB o st).1 :=
  ⟨⟨[.gapReview], by simp [reviewForGapsB]⟩, ⟨[], by simp [reviewForGapsB]⟩,
   ⟨[], by simp [reviewForGapsB]⟩, ⟨[], by simp [reviewForGapsB]⟩,
   ⟨[], by simp [reviewForGapsB]⟩,
   fun u h => by simpa [reviewForGapsB] using h⟩

theorem rmono_rounds (st : ResearchState) :
    RMono st { st with rounds := st.rounds + 1 } :=
  ⟨⟨[], by simp⟩, ⟨[], by simp⟩, ⟨[], by simp⟩, ⟨[], by simp⟩, ⟨[], by simp⟩,
   fun _ h => h⟩

theorem rmono_drain (o : ResearchOracles) (st : ResearchState) :
    RMono st
      (if getQueuedUrls st ≠ [] then harvestB o st (getQueuedUrls st) [] else st) := by
  split
  · exact rmono_harvestB o _ _ []
  · exact RMono.rfl _

/-- `runLoopAux` at fuel 0 with the `let`s written out (definitional). -/
theorem runLoopAux_zero_eq (o : ResearchOracles) (st : ResearchState)
    (urls queries : List String) :
    runLoopAux o 0 st urls queries =
      (let st1 := { st with rounds := st.rounds + 1 }
       let st2 := harvestB o st1 urls queries
       if getQueuedUrls st2 ≠ [] then harvestB o st2 (getQueuedUrls st2) [] else st2) :=
  rfl

/-- `runLoopAux` at positive fuel with the `let`s written out (definitional). -/
theorem runLoopAux_succ_eq (o : ResearchOracles) (fuel : Nat) (st : ResearchState)
    (urls queries : List String) :
    runLoopAux o (fuel + 1) st urls queries =
      (let st1 := { st with rounds := st.rounds + 1 }
       let st2 := harvestB o st1 urls queries
       let st3 := if getQueuedUrls st2 ≠ [] then harvestB o st2 (getQueuedUrls st2) []
         else st2
       let st4 := (reviewForGapsB o st3).1
       let newQueries := (reviewForGapsB o st3).2
       let filtered := (newQueries.map jsTrim).filter
         fun q => q ≠ "" && !decide (q ∈ st4.visitedQueries)
       if filtered = [] then st4 else runLoopAux o fuel st4 [] filtered) :=
  rfl

theorem rmono_runLoopAux (o : ResearchOracles) :
    ∀ (fuel : Nat) (st : ResearchState) (urls queries : List String),
      RMono st (runLoopAux o fuel st urls queries) := by
  intro fuel
  induction fuel with
  | zero =>
    intro st urls queries
    rw [runLoopAux_zero_eq]
    dsimp only
    exact RMono.comp (rmono_rounds st)
      (RMono.comp (rmono_harvestB o _ urls queries) (rmono_drain o _))
  | succ fuel ih =>
    intro st urls queries
    rw [runLoopAux_succ_eq]
    dsimp only
    have tail : ∀ (s4 : ResearchState) (nq : List String),
        RMono s4
          (if ((nq.map jsTrim).filter
              fun q => q ≠ "" && !decide (q ∈ s4.visitedQueries)) = [] then s4
           else runLoopAux o fuel s4 []
             ((nq.map jsTrim).filter
               fun q => q ≠ "" && !decide (q ∈ s4.visitedQueries))) := by
      intro s4 nq
      split
      · exact RMono.rfl _
      · exact ih _ [] _
    exact RMono.comp (rmono_rounds st)
      (RMono.comp (rmono_harvestB o _ urls queries)
        (RMono.comp (rmono_drain o _)
          (RMono.comp (rmono_reviewGaps o _) (tail _ _))))

/-! ## Theorems: recursion depth and round structure (C6) -/

theorem rounds_collectAux :
    ∀ (L ups : List String) (st : ResearchState),
      (collectUrlsAux st L ups).1.rounds = st.rounds := by
  intro L
  induction L with
  | nil => intro ups st; rfl
  | cons url rest ih =>
    intro ups st
    unfold collectUrlsAux
    split
    · rw [ih]; simp
    · split
      · split <;> rw [ih]
      · rw [ih]; simp

theorem gap_collectAux :
    ∀ (L ups : List String) (st : ResearchState),
      (collectUrlsAux st L ups).1.gapCalls = st.gapCalls := by
  intro L
  induction L with
  | nil => intro ups st; rfl
  | cons url rest ih =>
    intro ups st
    unfold collectUrlsAux
    split
    · rw [ih]; simp
    · split
      · split <;> rw [ih]
      · rw [ih]; simp

theorem events_collectAux :
    ∀ (L ups : List String) (st : ResearchState),
      (collectUrlsAux st L ups).1.events = st.events := by
  intro L
  induction L with
  | nil => intro ups st; rfl
  | cons url rest ih =>
    intro ups st
    unfold collectUrlsAux
    split
    · rw [ih]; simp
    · split
      · split <;> rw [ih]
      · rw [ih]; simp

theorem rounds_foldl_processUrl (o : ResearchOracles) :
    ∀ (L : List String) (st : ResearchState),
      (L.foldl (processUrl o) st).rounds = st.rounds := by
  intro L
  induction L with
  | nil => intro st; rfl
  | cons u rest ih => intro st; rw [List.foldl_cons, ih, rounds_processUrl]

theorem gap_foldl_processUrl (o : ResearchOracles) :
    ∀ (L : List String) (st : ResearchState),
      (L.foldl (processUrl o) st).gapCalls = st.gapCalls := by
  intro L
  induction L with
  | nil => intro st; rfl
  | cons u rest ih => intro st; rw [List.foldl_cons, ih, gap_processUrl]

theorem events_foldl_processUrl (o : ResearchOracles) :
    ∀ (L : List String) (st : ResearchState),
      (L.foldl (processUrl o) st).events = st.events ++ L.map .fetch := by
  intro L
  induction L with
  | nil => intro st; simp
  | cons u rest ih =>
    intro st
    rw [List.foldl_cons, ih, events_processUrl]
    simp

theorem rounds_foldl_processQuery (o : ResearchOracles) :
    ∀ (L : List String) (st : ResearchState),
      (L.foldl (processQuery o) st).rounds = st.rounds := by
  intro L
  induction L with
  | nil => intro st; rfl
  | cons q rest ih => intro st; rw [List.foldl_cons, ih, rounds_processQuery]

theorem gap_foldl_processQuery (o : ResearchOracles) :
    ∀ (L : List String) (st : ResearchState),
      (L.foldl (processQuery o) st).gapCalls = st.gapCalls := by
  intro L
  induction L with
  | nil => intro st; rfl
  | cons q rest ih => intro st; rw [List.foldl_cons, ih, gap_processQuery]

theorem events_foldl_processQuery (o : ResearchOracles) :
    ∀ (L : List String) (st : ResearchState),
      (L.foldl (processQuery o) st).events = st.events ++ L.map .exec := by
  intro L
  induction L with
  | nil => intro st; simp
  | cons q rest ih =>
    intro st
    rw [List.foldl_cons, ih, events_processQuery]
    simp

theorem rounds_harvestB (o : ResearchOracles) (st : ResearchState)
    (urls queries : List String) : (harvestB o st urls queries).rounds = st.rounds := by
  rw [harvestB_eq]
  dsimp only
  rw [rounds_foldl_processQuery]
  show (List.foldl (processUrl o) _ _).rounds = st.rounds
  rw [rounds_foldl_processUrl]
  exact rounds_collectAux _ [] st

theorem gap_harvestB (o : ResearchOracles) (st : ResearchState)
    (urls queries : List String) :
    (harvestB o st urls queries).gapCalls = st.gapCalls := by
  rw [harvestB_eq]
  dsimp only
  rw [gap_foldl_processQuery]
  show (List.foldl (processUrl o) _ _).gapCalls = st.gapCalls
  rw [gap_foldl_processUrl]
  exact gap_collectAux _ [] st

/-- `harvest` emits only fetch/exec events — never a gap-analysis event. -/
theorem harvestB_events_nogap (o : ResearchOracles) (st : ResearchState)
    (urls queries : List String) :
    ∃ t, (harvestB o st urls queries).events = st.events ++ t ∧
      ∀ e ∈ t, isGapEvent e = false := by
  rw [harvestB_eq]
  dsimp only
  rw [events_foldl_processQuery]
  have h1 : ∀ (s2 : ResearchState) (fq : List String),
      ({ s2 with visitedQueries := fq.foldl addVisited s2.visitedQueries } :
        ResearchState).events = s2.events := fun _ _ => rfl
  have h2 : ∀ (L : List String), (collectUrls st L).1.events = st.events :=
    fun L => events_collectAux L [] st
  rw [h1, events_foldl_processUrl, h2]
  refine ⟨_, List.append_assoc st.events _ _, ?_⟩
  intro e he
  simp only [List.mem_append, List.mem_map] at he
  rcases he with ⟨u, _, rfl⟩ | ⟨q, _, rfl⟩ <;> rfl

theorem rounds_drain (o : ResearchOracles) (st : ResearchState) :
    (if getQueuedUrls st ≠ [] then harvestB o st (getQueuedUrls st) [] else st).rounds
      = st.rounds := by
  split
  · exact rounds_harvestB o st _ []
  · rfl

theorem gap_drain (o : ResearchOracles) (st : ResearchState) :
    (if getQueuedUrls st ≠ [] then harvestB o st (getQueuedUrls st) [] else st).gapCalls
      = st.gapCalls := by
  split
  · exact gap_harvestB o st _ []
  · rfl

theorem rounds_reviewGaps (o : ResearchOracles) (st : ResearchState) :
    (reviewForGapsB o st).1.rounds = st.rounds := rfl

theorem gap_reviewGaps (o : ResearchOracles) (st : ResearchState) :
    (reviewForGapsB o st).1.gapCalls = st.gapCalls + 1 := rfl

theorem events_reviewGaps (o : ResearchOracles) (st : ResearchState) :
    (reviewForGapsB o st).1.events = st.events ++ [.gapReview] := rfl

theorem rounds_runLoopAux (o : ResearchOracles) :
    ∀ (fuel : Nat) (st : ResearchState) (urls queries : List String),
      (runLoopAux o fuel st urls queries).rounds ≤ st.rounds + fuel + 1 := by
  intro fuel
  induction fuel with
  | zero =>
    intro st urls queries
    rw [runLoopAux_zero_eq]
    dsimp only
    rw [rounds_drain, rounds_harvestB]
  | succ fuel ih =>
    intro st urls queries
    rw [runLoopAux_succ_eq]
    have tailBound : ∀ (st3 : ResearchState), st3.rounds = st.rounds + 1 →
        (let st4 := (reviewForGapsB o st3).1
         let filtered := ((reviewForGapsB o st3).2.map jsTrim).filter
           fun q => q ≠ "" && !decide (q ∈ st4.visitedQueries)
         if filtered = [] then st4
         else runLoopAux o fuel st4 [] filtered).rounds ≤
          st.rounds + (fuel + 1) + 1 := by
      intro st3 h3
      dsimp only
      split
      · rw [rounds_reviewGaps]
        omega
      · refine le_trans (ih _ [] _) ?_
        rw [rounds_reviewGaps]
        omega
    exact tailBound
      (if getQueuedUrls (harvestB o { st with rounds := st.rounds + 1 } urls queries)
          ≠ [] then
        harvestB o (harvestB o { st with rounds := st.rounds + 1 } urls queries)
          (getQueuedUrls (harvestB o { st with rounds := st.rounds + 1 } urls queries))
          []
      else harvestB o { st with rounds := st.rounds + 1 } urls queries)
      (by rw [rounds_drain, rounds_harvestB])

theorem gap_runLoopAux (o : ResearchOracles) :
    ∀ (fuel : Nat) (st : ResearchState) (urls queries : List String),
      (runLoopAux o fuel st urls queries).gapCalls ≤ st.gapCalls + fuel := by
  intro fuel
  induction fuel with
  | zero =>
    intro st urls queries
    rw [runLoopAux_zero_eq]
    dsimp only
    rw [gap_drain, gap_harvestB]
    show st.gapCalls ≤ st.gapCalls + 0
    omega
  | succ fuel ih =>
    intro st urls queries
    rw [runLoopAux_succ_eq]
    have tailBound : ∀ (st3 : ResearchState), st3.gapCalls = st.gapCalls →
        (let st4 := (reviewForGapsB o st3).1
         let filtered := ((reviewForGapsB o st3).2.map jsTrim).filter
           fun q => q ≠ "" && !decide (q ∈ st4.visitedQueries)
         if filtered = [] then st4
         else runLoopAux o fuel st4 [] filtered).gapCalls ≤
          st.gapCalls + (fuel + 1) := by
      intro st3 h3
      dsimp only
      split
      · rw [gap_reviewGaps]
        omega
      · refine le_trans (ih _ [] _) ?_
        rw [gap_reviewGaps]
        omega
    exact tailBound
      (if getQueuedUrls (harvestB o { st with rounds := st.rounds + 1 } urls queries)
          ≠ [] then
        harvestB o (harvestB o { st with rounds := st.rounds + 1 } urls queries)
          (getQueuedUrls (harvestB o { st with rounds := st.rounds + 1 } urls queries))
          []
      else harvestB o { st with rounds := st.rounds + 1 } urls queries)
      (by rw [gap_drain, gap_harvestB])

theorem runLoop_events_front (o : ResearchOracles) (fuel : Nat)
    (st : ResearchState) (urls queries : List String) :
    ∃ t, (runLoopAux o fuel st urls queries).events =
      (harvestB o { st with rounds := st.rounds + 1 } urls queries).events ++ t := by
  cases fuel with
  | zero =>
    rw [runLoopAux_zero_eq]
    dsimp only
    split
    · obtain ⟨t, ht, _⟩ := harvestB_events_nogap o
        (harvestB o { st with rounds := st.rounds + 1 } urls queries) _ []
      exact ⟨t, ht⟩
    · exact ⟨[], by simp⟩
  | succ fuel =>
    rw [runLoopAux_succ_eq]
    have tailPre : ∀ (st3 : ResearchState) (t1 : List REvent),
        st3.events =
          (harvestB o { st with rounds := st.rounds + 1 } urls queries).events ++ t1 →
        ∃ t, (let st4 := (reviewForGapsB o st3).1
              let filtered := ((reviewForGapsB o st3).2.map jsTrim).filter
                fun q => q ≠ "" && !decide (q ∈ st4.visitedQueries)
              if filtered = [] then st4
              else runLoopAux o fuel st4 [] filtered).events =
          (harvestB o { st with rounds := st.rounds + 1 } urls queries).events ++ t := by
      intro st3 t1 h3
      dsimp only
      split
      · refine ⟨t1 ++ [.gapReview], ?_⟩
        rw [events_reviewGaps, h3]
        simp
      · obtain ⟨t2, ht2⟩ := (rmono_runLoopAux o fuel _ [] _).events
        refine ⟨t1 ++ [.gapReview] ++ t2, ?_⟩
        rw [ht2, events_reviewGaps, h3]
        simp
    have hD : ∃ t1,
        (if getQueuedUrls (harvestB o { st with rounds := st.rounds + 1 } urls queries)
            ≠ [] then
          harvestB o (harvestB o { st with rounds := st.rounds + 1 } urls queries)
            (getQueuedUrls
              (harvestB o { st with rounds := st.rounds + 1 } urls queries)) []
        else harvestB o { st with rounds := st.rounds + 1 } urls queries).events =
        (harvestB o { st with rounds := st.rounds + 1 } urls queries).events ++ t1 := by
      split
      · obtain ⟨t, ht, _⟩ := harvestB_events_nogap o _ _ []
        exact ⟨t, ht⟩
      · exact ⟨[], by simp⟩
    obtain ⟨t1, ht1⟩ := hD
    exact tailPre _ t1 ht1

/-- C6: the harvest→gap-analysis recursion is bounded — at most
`MAX_RESEARCH_DEPTH + 1` `runLoop` rounds and `MAX_RESEARCH_DEPTH`
gap-analysis calls even when every gap review returns fresh queries — and the
first round harvests the caller-supplied URLs and queries before any
gap-analysis event appears in the trace.  (Termination is by construction:
`runLoopAux` is a total structurally recursive function.) -/
theorem research_recursion_bounded (o : ResearchOracles)
    (urls queries : List String) :
    (runResearchState o urls queries).rounds ≤ MAX_RESEARCH_DEPTH + 1 ∧
    (runResearchState o urls queries).gapCalls ≤ MAX_RESEARCH_DEPTH ∧
    (∃ t, (runResearchState o urls queries).events =
      (harvestB o { initResearchState with rounds := 1 } urls queries).events ++ t) ∧
    (∀ e ∈ (harvestB o { initResearchState with rounds := 1 } urls queries).events,
      isGapEvent e = false) := by
  refine ⟨?_, ?_, ?_, ?_⟩
  · have h := rounds_runLoopAux o MAX_RESEARCH_DEPTH initResearchState urls queries
    exact h
  · have h := gap_runLoopAux o MAX_RESEARCH_DEPTH initResearchState urls queries
    exact h
  · exact runLoop_events_front o MAX_RESEARCH_DEPTH initResearchState urls queries
  · obtain ⟨t, ht, hng⟩ := harvestB_events_nogap o
      { initResearchState with rounds := 1 } urls queries
    intro e he
    rw [ht] at he
    refine hng e ?_
    simpa [initResearchState] using he

/-! ## Theorems: query dedup (C4) -/

theorem head?_dropWhile_false {α : Type} (p : α → Bool) :
    ∀ (l : List α) (a : α), (l.dropWhile p).head? = some a → p a = false := by
  intro l
  induction l with
  | nil => intro a h; simp [List.dropWhile] at h
  | cons x xs ih =>
    intro a h
    rw [List.dropWhile_cons] at h
    by_cases hp : p x = true
    · rw [if_pos hp] at h
      exact ih a h
    · rw [if_neg hp] at h
      simp only [List.head?_cons, Option.some.injEq] at h
      subst h
      simpa using hp

theorem dropWhile_eq_self_of_head {α : Type} (p : α → Bool) (l : List α)
    (h : ∀ a, l.head? = some a → p a = false) : l.dropWhile p = l := by
  cases l with
  | nil => rfl
  | cons x xs =>
    rw [List.dropWhile_cons, if_neg]
    simp [h x rfl]

theorem dropWhile_dropWhile {α : Type} (p : α → Bool) (l : List α) :
    (l.dropWhile p).dropWhile p = l.dropWhile p :=
  dropWhile_eq_self_of_head p _ (fun a ha => head?_dropWhile_false p l a ha)

theorem getLast?_dropWhile {α : Type} (p : α → Bool) (l : List α)
    (hne : l.dropWhile p ≠ []) : (l.dropWhile p).getLast? = l.getLast? := by
  conv_rhs => rw [← List.takeWhile_append_dropWhile p l]
  rw [List.getLast?_append]
  cases hg : (l.dropWhile p).getLast? with
  | none =>
    rw [List.getLast?_eq_none_iff] at hg
    exact absurd hg hne
  | some b => simp [Option.or]

theorem jsTrim_idem (s : String) : jsTrim (jsTrim s) = jsTrim s := by
  have step1 : ∀ (l : List Char),
      ((((l.dropWhile isWsChar).reverse.dropWhile isWsChar).reverse).dropWhile
        isWsChar) =
        ((l.dropWhile isWsChar).reverse.dropWhile isWsChar).reverse := by
    intro l
    apply dropWhile_eq_self_of_head
    intro a ha
    rw [List.head?_reverse] at ha
    have hne : (l.dropWhile isWsChar).reverse.dropWhile isWsChar ≠ [] := by
      intro hcon
      rw [hcon] at ha
      simp at ha
    rw [getLast?_dropWhile _ _ hne, List.getLast?_reverse] at ha
    exact head?_dropWhile_false _ _ a ha
  show (⟨_⟩ : String) = ⟨_⟩
  congr 1
  have hdata : (jsTrim s).data =
      ((s.data.dropWhile isWsChar).reverse.dropWhile isWsChar).reverse := rfl
  rw [hdata, step1, List.reverse_reverse]
  exact step1 s.data

/-- Per-round reply of the gap-analysis oracle after the catch/parse
fallback. -/

theorem snd_reviewGaps (o : ResearchOracles) (st : ResearchState) :
    (reviewForGapsB o st).2 = gapReply o st.gapCalls := rfl

theorem execOf_append (es ts : List REvent) :
    (es ++ ts).filterMap (fun e => match e with | .exec q => some q | _ => none) =
      es.filterMap (fun e => match e with | .exec q => some q | _ => none) ++
      ts.filterMap (fun e => match e with | .exec q => some q | _ => none) :=
  List.filterMap_append _ _ _

theorem execOf_map_fetch (L : List String) :
    (L.map REvent.fetch).filterMap
      (fun e => match e with | .exec q => some q | _ => none) = [] := by
  induction L with
  | nil => rfl
  | cons u rest ih => simp [ih]

theorem execOf_map_exec (L : List String) :
    (L.map REvent.exec).filterMap
      (fun e => match e with | .exec q => some q | _ => none) = L := by
  induction L with
  | nil => rfl
  | cons u rest ih => simpa using ih

theorem mem_foldl_addVisited :
    ∀ (L vs : List String) (q : String),
      q ∈ L.foldl addVisited vs ↔ q ∈ vs ∨ q ∈ L := by
  intro L
  induction L with
  | nil => intro vs q; simp
  | cons x xs ih =>
    intro vs q
    rw [List.foldl_cons]
    by_cases hx : x ∈ vs
    · rw [show addVisited vs x = vs from by simp [addVisited, hx]]
      rw [ih]
      constructor
      · rintro (h | h)
        · exact Or.inl h
        · exact Or.inr (by simp [h])
      · rintro (h | h)
        · exact Or.inl h
        · rcases List.mem_cons.mp h with rfl | h
          · exact Or.inl hx
          · exact Or.inr h
    · rw [show addVisited vs x = vs ++ [x] from by simp [addVisited, hx]]
      rw [ih]
      simp only [List.mem_append, List.mem_singleton, List.mem_cons]
      tauto

theorem visited_foldl_processUrl (o : ResearchOracles) :
    ∀ (L : List String) (st : ResearchState),
      (L.foldl (processUrl o) st).visitedQueries = st.visitedQueries := by
  intro L
  induction L with
  | nil => intro st; rfl
  | cons u rest ih => intro st; rw [List.foldl_cons, ih, visited_processUrl]

theorem visited_foldl_processQuery (o : ResearchOracles) :
    ∀ (L : List String) (st : ResearchState),
      (L.foldl (processQuery o) st).visitedQueries = st.visitedQueries := by
  intro L
  induction L with
  | nil => intro st; rfl
  | cons q rest ih => intro st; rw [List.foldl_cons, ih, visited_processQuery]

theorem visited_collectAux :
    ∀ (L ups : List String) (st : ResearchState),
      (collectUrlsAux st L ups).1.visitedQueries = st.visitedQueries := by
  intro L
  induction L with
  | nil => intro ups st; rfl
  | cons url rest ih =>
    intro ups st
    unfold collectUrlsAux
    split
    · rw [ih]; simp
    · split
      · split <;> rw [ih]
      · rw [ih]; simp

theorem executedQueries_rfl_events {s1 s2 : ResearchState}
    (h : s2.events = s1.events) : executedQueries s2 = executedQueries s1 := by
  unfold executedQueries
  rw [h]

/-- Filtering against `visitedQueries` preserves dedup of the trimmed batch:
the strict filter is a filter of the `≠ ""` filter. -/
theorem filter_visited_nodup (base vs : List String)
    (hbase : (base.filter (· ≠ "")).Nodup) :
    (base.filter (fun q => q ≠ "" && !decide (q ∈ vs))).Nodup := by
  have hsub : base.filter (fun q => q ≠ "" && !decide (q ∈ vs)) =
      (base.filter (· ≠ "")).filter (fun q => !decide (q ∈ vs)) := by
    rw [List.filter_filter]
    apply List.filter_congr
    intro a _
    rw [Bool.and_comm]
  rw [hsub]
  exact List.Nodup.filter _ hbase

theorem executedQueries_reviewGaps (o : ResearchOracles) (st : ResearchState) :
    executedQueries (reviewForGapsB o st).1 = executedQueries st := by
  unfold executedQueries
  rw [events_reviewGaps, List.filterMap_append]
  simp

theorem visited_reviewGaps (o : ResearchOracles) (st : ResearchState) :
    (reviewForGapsB o st).1.visitedQueries = st.visitedQueries := rfl

theorem map_jsTrim_self :
    ∀ (L : List String), (∀ a ∈ L, jsTrim a = a) → L.map jsTrim = L := by
  intro L
  induction L with
  | nil => intro h; rfl
  | cons x xs ih =>
    intro h
    simp only [List.map_cons]
    rw [h x (by simp), ih (fun a ha => h a (by simp [ha]))]

/-- A filtered batch of trimmed queries is stable under the trim-and-drop-empty
preprocessing of the next round. -/
theorem filtered_trim_stable (l vs : List String) :
    ((((l.map jsTrim).filter fun q => q ≠ "" && !decide (q ∈ vs)).map
      jsTrim).filter (· ≠ "")) =
    (l.map jsTrim).filter fun q => q ≠ "" && !decide (q ∈ vs) := by
  have hmap : ((l.map jsTrim).filter fun q => q ≠ "" && !decide (q ∈ vs)).map
      jsTrim = (l.map jsTrim).filter fun q => q ≠ "" && !decide (q ∈ vs) := by
    apply map_jsTrim_self
    intro a ha
    obtain ⟨y, _, rfl⟩ := List.mem_map.mp (List.mem_of_mem_filter ha)
    exact jsTrim_idem y
  rw [hmap]
  apply List.filter_eq_self.mpr
  intro a ha
  have hb := List.of_mem_filter ha
  rw [Bool.and_eq_true] at hb
  exact hb.1

/-- One `harvest` call preserves the query-execution invariant, given the
trimmed batch is duplicate-free. -/
theorem QInv_harvestB (o : ResearchOracles) (st : ResearchState)
    (urls queries : List String)
    (hq : ((queries.map jsTrim).filter (· ≠ "")).Nodup)
    (h1 : (executedQueries st).Nodup)
    (h2 : ∀ q ∈ executedQueries st, q ∈ st.visitedQueries) :
    (executedQueries (harvestB o st urls queries)).Nodup ∧
    (∀ q ∈ executedQueries (harvestB o st urls queries),
      q ∈ (harvestB o st urls queries).visitedQueries) := by
  rw [harvestB_eq]
  have main : ∀ (st2 : ResearchState) (fq : List String),
      executedQueries st2 = executedQueries st →
      st2.visitedQueries = st.visitedQueries →
      fq.Nodup →
      (∀ q ∈ fq, q ∉ st2.visitedQueries) →
      (executedQueries (fq.foldl (processQuery o)
        { st2 with visitedQueries := fq.foldl addVisited st2.visitedQueries })).Nodup
      ∧ ∀ q ∈ executedQueries (fq.foldl (processQuery o)
          { st2 with visitedQueries := fq.foldl addVisited st2.visitedQueries }),
          q ∈ (fq.foldl (processQuery o)
            { st2 with visitedQueries := fq.foldl addVisited st2.visitedQueries
            }).visitedQueries := by
    intro st2 fq he hv hnd hfresh
    have hev : executedQueries (fq.foldl (processQuery o)
        { st2 with visitedQueries := fq.foldl addVisited st2.visitedQueries }) =
        executedQueries st ++ fq := by
      unfold executedQueries
      rw [events_foldl_processQuery, List.filterMap_append, execOf_map_exec]
      show st2.events.filterMap _ ++ _ = _
      rw [show st2.events.filterMap
          (fun e => match e with | .exec q => some q | _ => none) =
          executedQueries st2 from rfl, he]
      rfl
    have hvis : (fq.foldl (processQuery o)
        { st2 with visitedQueries := fq.foldl addVisited st2.visitedQueries
        }).visitedQueries = fq.foldl addVisited st2.visitedQueries := by
      rw [visited_foldl_processQuery]
    constructor
    · rw [hev, List.nodup_append]
      refine ⟨h1, hnd, ?_⟩
      intro a ha hafq
      exact hfresh a hafq (hv ▸ h2 a ha)
    · intro q hqmem
      rw [hev] at hqmem
      rw [hvis, mem_foldl_addVisited]
      rcases List.mem_append.mp hqmem with h | h
      · exact Or.inl (hv ▸ h2 q h)
      · exact Or.inr h
  have he' : executedQueries
      (List.foldl (processUrl o)
        (collectUrls st ((urls.map jsTrim).filter (· ≠ ""))).1
        (collectUrls st ((urls.map jsTrim).filter (· ≠ ""))).2) =
      executedQueries st := by
    unfold executedQueries
    rw [events_foldl_processUrl, List.filterMap_append, execOf_map_fetch,
      List.append_nil]
    rw [show (collectUrls st ((urls.map jsTrim).filter (· ≠ ""))).1.events =
      st.events from events_collectAux _ [] st]
  have hv' : (List.foldl (processUrl o)
      (collectUrls st ((urls.map jsTrim).filter (· ≠ ""))).1
      (collectUrls st ((urls.map jsTrim).filter (· ≠ ""))).2).visitedQueries =
      st.visitedQueries := by
    rw [visited_foldl_processUrl]
    exact visited_collectAux _ [] st
  have hnd' := filter_visited_nodup (queries.map jsTrim)
    (List.foldl (processUrl o)
      (collectUrls st ((urls.map jsTrim).filter (· ≠ ""))).1
      (collectUrls st ((urls.map jsTrim).filter (· ≠ ""))).2).visitedQueries hq
  exact main
    (List.foldl (processUrl o)
      (collectUrls st ((urls.map jsTrim).filter (· ≠ ""))).1
      (collectUrls st ((urls.map jsTrim).filter (· ≠ ""))).2)
    ((queries.map jsTrim).filter (fun q => q ≠ "" &&
      !decide (q ∈ (List.foldl (processUrl o)
        (collectUrls st ((urls.map jsTrim).filter (· ≠ ""))).1
        (collectUrls st ((urls.map jsTrim).filter (· ≠ ""))).2).visitedQueries)))
    he' hv' hnd'
    (fun q hqmem hmem2 => by
      have hb := List.of_mem_filter hqmem
      rw [Bool.and_eq_true, decide_eq_true hmem2] at hb
      exact absurd hb.2 (by decide))

/-- The query-execution invariant holds through the whole research loop,
provided each supplied batch (the caller's queries and every gap-analysis
reply) is duplicate-free after trimming. -/
theorem QInv_runLoopAux (o : ResearchOracles)
    (hgap : ∀ i, (((gapReply o i).map jsTrim).filter (· ≠ "")).Nodup) :
    ∀ (fuel : Nat) (st : ResearchState) (urls queries : List String),
      ((queries.map jsTrim).filter (· ≠ "")).Nodup →
      (executedQueries st).Nodup →
      (∀ q ∈ executedQueries st, q ∈ st.visitedQueries) →
      (executedQueries (runLoopAux o fuel st urls queries)).Nodup ∧
      ∀ q ∈ executedQueries (runLoopAux o fuel st urls queries),
        q ∈ (runLoopAux o fuel st urls queries).visitedQueries := by
  intro fuel
  induction fuel with
  | zero =>
    intro st urls queries hq h1 h2
    rw [runLoopAux_zero_eq]
    dsimp only
    have hbase := QInv_harvestB o { st with rounds := st.rounds + 1 }
      urls queries hq h1 h2
    split
    · exact QInv_harvestB o _ _ [] List.nodup_nil hbase.1 hbase.2
    · exact hbase
  | succ fuel ih =>
    intro st urls queries hq h1 h2
    rw [runLoopAux_succ_eq]
    have hbase := QInv_harvestB o { st with rounds := st.rounds + 1 }
      urls queries hq h1 h2
    have tailInv : ∀ (st3 : ResearchState),
        (executedQueries st3).Nodup →
        (∀ q ∈ executedQueries st3, q ∈ st3.visitedQueries) →
        (executedQueries (let st4 := (reviewForGapsB o st3).1
            let filtered := ((reviewForGapsB o st3).2.map jsTrim).filter
              fun q => q ≠ "" && !decide (q ∈ st4.visitedQueries)
            if filtered = [] then st4
            else runLoopAux o fuel st4 [] filtered)).Nodup ∧
        ∀ q ∈ executedQueries (let st4 := (reviewForGapsB o st3).1
            let filtered := ((reviewForGapsB o st3).2.map jsTrim).filter
              fun q => q ≠ "" && !decide (q ∈ st4.visitedQueries)
            if filtered = [] then st4
            else runLoopAux o fuel st4 [] filtered),
          q ∈ (let st4 := (reviewForGapsB o st3).1
              let filtered := ((reviewForGapsB o st3).2.map jsTrim).filter
                fun q => q ≠ "" && !decide (q ∈ st4.visitedQueries)
              if filtered = [] then st4
              else runLoopAux o fuel st4 [] filtered).visitedQueries := by
      intro st3 g1 g2
      dsimp only
      have g1' : (executedQueries (reviewForGapsB o st3).1).Nodup := by
        rw [executedQueries_reviewGaps]
        exact g1
      have g2' : ∀ q ∈ executedQueries (reviewForGapsB o st3).1,
          q ∈ (reviewForGapsB o st3).1.visitedQueries := by
        intro q hqm
        rw [executedQueries_reviewGaps] at hqm
        rw [visited_reviewGaps]
        exact g2 q hqm
      split
      · exact ⟨g1', g2'⟩
      · refine ih _ [] _ ?_ g1' g2'
        rw [filtered_trim_stable, snd_reviewGaps]
        exact filter_visited_nodup _ _ (hgap st3.gapCalls)
    have hD : (executedQueries
        (if getQueuedUrls (harvestB o { st with rounds := st.rounds + 1 }
            urls queries) ≠ [] then
          harvestB o (harvestB o { st with rounds := st.rounds + 1 } urls queries)
            (getQueuedUrls
              (harvestB o { st with rounds := st.rounds + 1 } urls queries)) []
        else harvestB o { st with rounds := st.rounds + 1 } urls queries)).Nodup ∧
        ∀ q ∈ executedQueries
          (if getQueuedUrls (harvestB o { st with rounds := st.rounds + 1 }
              urls queries) ≠ [] then
            harvestB o (harvestB o { st with rounds := st.rounds + 1 } urls queries)
              (getQueuedUrls
                (harvestB o { st with rounds := st.rounds + 1 } urls queries)) []
          else harvestB o { st with rounds := st.rounds + 1 } urls queries),
          q ∈ (if getQueuedUrls (harvestB o { st with rounds := st.rounds + 1 }
              urls queries) ≠ [] then
            harvestB o (harvestB o { st with rounds := st.rounds + 1 } urls queries)
              (getQueuedUrls
                (harvestB o { st with rounds := st.rounds + 1 } urls queries)) []
          else harvestB o { st with rounds := st.rounds + 1 } urls
            queries).visitedQueries := by
      split
      · exact QInv_harvestB o _ _ [] List.nodup_nil hbase.1 hbase.2
      · exact hbase
    exact tailInv _ hD.1 hD.2


/-- C4 counterexample: the same query supplied twice in one input batch is
passed to the search-vector executor twice — the one-pass filter marks
nothing visited until the whole batch has been filtered. -/
theorem duplicate_query_executed_twice_cex :
    (executedQueries (runResearchState plainSearchOracles [] ["alpha", "alpha"])).count
      "alpha" = 2 := by
  decide

/-- C4 (corrected): if every supplied batch — the caller's query list and every
gap-analysis reply — is duplicate-free after trimming, then each distinct query
string is passed to the search-vector executor at most once across the entire
run, including recursive gap-fill rounds.  (Without that proviso the claim is
false: see the in-batch duplicate counterexample.) -/
theorem query_dedup_amended (o : ResearchOracles) (urls queries : List String)
    (hq : ((queries.map jsTrim).filter (· ≠ "")).Nodup)
    (hgap : ∀ i, (((gapReply o i).map jsTrim).filter (· ≠ "")).Nodup) :
    ∀ q, (executedQueries (runResearchState o urls queries)).count q ≤ 1 := by
  have h := QInv_runLoopAux o hgap MAX_RESEARCH_DEPTH initResearchState
    urls queries hq List.nodup_nil (fun q hqm => absurd hqm (List.not_mem_nil q))
  exact List.nodup_iff_count_le_one.mp h.1

theorem query_dedup_amended_witness :
    (((["alpha", "beta"].map jsTrim).filter (· ≠ "")).Nodup) ∧
    ∀ q, (executedQueries (runResearchState plainSearchOracles
      ["https://example.com/a"] ["alpha", "beta"])).count q ≤ 1 :=
  ⟨by decide, query_dedup_amended plainSearchOracles ["https://example.com/a"]
    ["alpha", "beta"] (by decide) (fun _ => List.nodup_nil)⟩

/-! ## RInv preservation: per-operation effect lemmas -/

theorem fetched_rfl_events {s1 s2 : ResearchState} (h : s1.events = s2.events) :
    fetchedUrls s1 = fetchedUrls s2 := by
  unfold fetchedUrls
  rw [h]

theorem fetched_processUrl (o : ResearchOracles) (st : ResearchState)
    (u : String) : fetchedUrls (processUrl o st u) = fetchedUrls st ++ [u] := by
  unfold fetchedUrls
  rw [events_processUrl, List.filterMap_append]
  simp

theorem fetched_processQuery (o : ResearchOracles) (st : ResearchState)
    (q : String) : fetchedUrls (processQuery o st q) = fetchedUrls st := by
  unfold fetchedUrls
  rw [events_processQuery, List.filterMap_append]
  simp

theorem fetched_reviewGaps (o : ResearchOracles) (st : ResearchState) :
    fetchedUrls (reviewForGapsB o st).1 = fetchedUrls st := by
  unfold fetchedUrls
  rw [events_reviewGaps, List.filterMap_append]
  simp

theorem lookupA_register_ne (st : ResearchState) (src : SourceReference)
    (u : String) (h : u ≠ src.url) :
    lookupA (registerDiscoveredSource st src).sourceRegistry u =
      lookupA st.sourceRegistry u := by
  unfold registerDiscoveredSource
  split
  · rfl
  · dsimp only
    split
    · dsimp only
      rw [lookupA_updateA_ne _ _ _ _ h, reg_upsertSource']
    · split
      · show lookupA (upsertSource st src).sourceRegistry u = _
        rw [reg_upsertSource']
      · dsimp only
        rw [lookupA_updateA_ne _ _ _ _ h, reg_upsertSource']

theorem statusOf_register_terminal (st : ResearchState) (src : SourceReference)
    (u : String) (h : terminalAt st u) :
    statusOf (registerDiscoveredSource st src) u = statusOf st u := by
  by_cases hne : u = src.url
  case neg =>
    unfold statusOf
    rw [lookupA_register_ne st src u hne]
  case pos =>
    subst hne
    unfold registerDiscoveredSource
    split
    · rfl
    · dsimp only
      split
      · rename_i hnone
        exfalso
        rw [show (upsertSource st src).sourceRegistry = st.sourceRegistry from
          reg_upsertSource' st src] at hnone
        unfold terminalAt statusOf at h
        rw [hnone] at h
        simp at h
      · rename_i e hsome
        rw [show (upsertSource st src).sourceRegistry = st.sourceRegistry from
          reg_upsertSource' st src] at hsome
        split
        · show statusOf (upsertSource st src) src.url = _
          unfold statusOf
          rw [reg_upsertSource']
        · rename_i hterm
          exfalso
          unfold terminalAt statusOf at h
          rw [hsome] at h
          apply hterm
          rcases h with h | h
          · exact Or.inl (by simpa using h)
          · exact Or.inr (by simpa using h)

theorem keys_nodup_register (st : ResearchState) (src : SourceReference)
    (h : (st.sourceRegistry.map (·.1)).Nodup) :
    ((registerDiscoveredSource st src).sourceRegistry.map (·.1)).Nodup := by
  unfold registerDiscoveredSource
  split
  · exact h
  · dsimp only
    split
    · dsimp only
      refine keys_nodup_updateA _ _ _ ?_
      rw [reg_upsertSource']
      exact h
    · split
      · show (((upsertSource st src).sourceRegistry).map (·.1)).Nodup
        rw [reg_upsertSource']
        exact h
      · dsimp only
        refine keys_nodup_updateA _ _ _ ?_
        rw [reg_upsertSource']
        exact h

theorem mem_keys_register (st : ResearchState) (src : SourceReference)
    (u : String)
    (h : u ∈ (registerDiscoveredSource st src).sourceRegistry.map (·.1)) :
    u ∈ st.sourceRegistry.map (·.1) ∨ u = src.url := by
  unfold registerDiscoveredSource at h
  split at h
  · exact Or.inl h
  · dsimp only at h
    split at h
    · dsimp only at h
      rw [mem_keys_updateA, reg_upsertSource'] at h
      exact h
    · split at h
      · rw [show ((upsertSource st src).sourceRegistry).map (·.1) =
          st.sourceRegistry.map (·.1) from by rw [reg_upsertSource']] at h
        exact Or.inl h
      · dsimp only at h
        rw [mem_keys_updateA, reg_upsertSource'] at h
        exact h

theorem terminalAt_congr {s s' : ResearchState}
    (hreg : s'.sourceRegistry = s.sourceRegistry) (u : String)
    (h : terminalAt s u) : terminalAt s' u := by
  unfold terminalAt statusOf
  rw [hreg]
  exact h

/-- Transport `RCore` along a step that leaves every relevant projection
unchanged. -/
theorem RCore_congr {s s' : ResearchState}
    (hfet : fetchedUrls s' = fetchedUrls s)
    (hreg : s'.sourceRegistry = s.sourceRegistry)
    (hctx : s'.contextParts = s.contextParts)
    (hids : s'.contextSourceIds = s.contextSourceIds)
    (hfail : s'.failedUrls = s.failedUrls)
    (hgath : s'.gatheredSources = s.gatheredSources)
    (h : RCore s) : RCore s' := by
  refine ⟨?_, ?_, ?_, ?_, ?_, ?_, ?_, ?_, ?_, ?_, ?_, ?_, ?_⟩
  · rw [hfet]; exact h.fetchNodup
  · rw [hfet]; exact h.fetchValid
  · rw [hids]; exact h.idsNodup
  · rw [hctx, hids]; exact h.ctxSub
  · rw [hctx, hids]; exact h.ctxCount
  · rw [hctx]; exact h.ctxDir
  · rw [hids]; exact h.idsShape
  · rw [hreg]; exact h.regNodup
  · rw [hreg]; exact h.regNE
  · rw [hreg]; exact h.invalidFailed
  · rw [hfail]; exact h.failedNodup
  · rw [hfail]; exact h.failedInvalidReason
  · rw [hgath]; exact h.sourcesValid

/-- Transport `RInv` along a step that leaves every relevant projection
unchanged. -/
theorem RInv_congr {s s' : ResearchState}
    (hfet : fetchedUrls s' = fetchedUrls s)
    (hreg : s'.sourceRegistry = s.sourceRegistry)
    (hctx : s'.contextParts = s.contextParts)
    (hids : s'.contextSourceIds = s.contextSourceIds)
    (hfail : s'.failedUrls = s.failedUrls)
    (hgath : s'.gatheredSources = s.gatheredSources)
    (h : RInv s) : RInv s' :=
  ⟨RCore_congr hfet hreg hctx hids hfail hgath h.toRCore,
   fun u hu => terminalAt_congr hreg u (h.fetchTerm u (hfet ▸ hu))⟩

theorem addVisited_of_mem {l : List String} {q : String} (h : q ∈ l) :
    addVisited l q = l := by
  simp [addVisited, h]

theorem addVisited_of_not_mem {l : List String} {q : String} (h : q ∉ l) :
    addVisited l q = l ++ [q] := by
  simp [addVisited, h]

theorem mem_addVisited (l : List String) (q x : String) :
    x ∈ addVisited l q ↔ x ∈ l ∨ x = q := by
  unfold addVisited
  split
  · rename_i hq
    constructor
    · exact Or.inl
    · rintro (hx | rfl)
      · exact hx
      · exact hq
  · simp

theorem nodup_addVisited {l : List String} (q : String) (h : l.Nodup) :
    (addVisited l q).Nodup := by
  unfold addVisited
  split
  · exact h
  · rename_i hq
    rw [List.nodup_append]
    exact ⟨h, List.nodup_singleton q, by simpa using hq⟩

theorem ensure_of_mem (st : ResearchState)
    (h : citationDirectiveUrl ∈ st.contextSourceIds) :
    ensureCitationDirective st = st := by
  simp [ensureCitationDirective, h]

theorem ensure_of_not_mem (st : ResearchState)
    (h : citationDirectiveUrl ∉ st.contextSourceIds) :
    (ensureCitationDirective st).contextParts =
      st.contextParts ++ [mkCitationBlock citationDirectiveUrl "Citation Format"
        citationDirectiveContent] ∧
    (ensureCitationDirective st).contextSourceIds =
      st.contextSourceIds ++ [citationDirectiveUrl] := by
  simp [ensureCitationDirective, h]

theorem mkCitationBlock_url (u t c : String) : (mkCitationBlock u t c).url = u :=
  rfl

theorem RCore_ensure (st : ResearchState) (h : RCore st) :
    RCore (ensureCitationDirective st) := by
  by_cases hd : citationDirectiveUrl ∈ st.contextSourceIds
  · rw [ensure_of_mem st hd]
    exact h
  · obtain ⟨hp, hi⟩ := ensure_of_not_mem st hd
    have hdirp : citationDirectiveUrl ∉ st.contextParts.map (·.url) :=
      fun hmem => hd (h.ctxSub _ hmem)
    have hpm : (ensureCitationDirective st).contextParts.map (·.url) =
        st.contextParts.map (·.url) ++ [citationDirectiveUrl] := by
      rw [hp, List.map_append]
      rfl
    refine ⟨?_, ?_, ?_, ?_, ?_, ?_, ?_, ?_, ?_, ?_, ?_, ?_, ?_⟩
    · rw [fetched_rfl_events (events_ensure st)]; exact h.fetchNodup
    · rw [fetched_rfl_events (events_ensure st)]; exact h.fetchValid
    · rw [hi, List.nodup_append]
      exact ⟨h.idsNodup, List.nodup_singleton _, by simpa using hd⟩
    · intro u hu
      rw [hpm] at hu
      rw [hi]
      rcases List.mem_append.mp hu with hu | hu
      · exact List.mem_append.mpr (Or.inl (h.ctxSub u hu))
      · exact List.mem_append.mpr (Or.inr hu)
    · intro u hu
      rw [hpm, hi, List.count_append, List.count_append]
      rw [h.ctxCount u hu]
    · rw [hpm, List.count_append]
      have h0 : (st.contextParts.map (·.url)).count citationDirectiveUrl = 0 :=
        List.count_eq_zero.mpr hdirp
      rw [h0]
      simp
    · intro u hu
      rw [hi] at hu
      rcases List.mem_append.mp hu with hu | hu
      · exact h.idsShape u hu
      · exact Or.inl (by simpa using hu)
    · rw [reg_ensure]; exact h.regNodup
    · rw [reg_ensure]; exact h.regNE
    · rw [reg_ensure]; exact h.invalidFailed
    · rw [failed_ensure]; exact h.failedNodup
    · rw [failed_ensure]; exact h.failedInvalidReason
    · rw [gath_ensure]; exact h.sourcesValid

theorem append_eq_of_fresh (st : ResearchState) (u t c : String)
    (hg : ¬(u = "" ∨ u ∈ st.contextSourceIds)) :
    (appendCitationBlock st u t c).contextParts =
      (ensureCitationDirective st).contextParts ++ [mkCitationBlock u t c] ∧
    (appendCitationBlock st u t c).contextSourceIds =
      addVisited (ensureCitationDirective st).contextSourceIds u := by
  simp [appendCitationBlock, hg]

theorem ids_ensure_cases (st : ResearchState) :
    (ensureCitationDirective st).contextSourceIds = st.contextSourceIds ∨
    (ensureCitationDirective st).contextSourceIds =
      st.contextSourceIds ++ [citationDirectiveUrl] := by
  by_cases hd : citationDirectiveUrl ∈ st.contextSourceIds
  · rw [ensure_of_mem st hd]
    exact Or.inl rfl
  · exact Or.inr (ensure_of_not_mem st hd).2

theorem RCore_append (st : ResearchState) (u t c : String)
    (hu : u = citationDirectiveUrl ∨ isValidSourceUrl u = true ∨
      isQueryKey u = true)
    (h : RCore st) : RCore (appendCitationBlock st u t c) := by
  by_cases hg : u = "" ∨ u ∈ st.contextSourceIds
  · rw [show appendCitationBlock st u t c = st from by
      simp [appendCitationBlock, hg]]
    exact h
  · have hnotin : u ∉ st.contextSourceIds := fun hx => hg (Or.inr hx)
    obtain ⟨hp, hi⟩ := append_eq_of_fresh st u t c hg
    have hE := RCore_ensure st h
    have hpm : (appendCitationBlock st u t c).contextParts.map (·.url) =
        (ensureCitationDirective st).contextParts.map (·.url) ++ [u] := by
      rw [hp, List.map_append]
      rfl
    have huE : u ≠ citationDirectiveUrl → u ∉
        (ensureCitationDirective st).contextSourceIds := by
      intro hud hmem
      rcases ids_ensure_cases st with hc | hc
      · rw [hc] at hmem
        exact hnotin hmem
      · rw [hc] at hmem
        rcases List.mem_append.mp hmem with hm | hm
        · exact hnotin hm
        · exact hud (by simpa using hm)
    refine ⟨?_, ?_, ?_, ?_, ?_, ?_, ?_, ?_, ?_, ?_, ?_, ?_, ?_⟩
    · rw [fetched_rfl_events (events_append st u t c)]; exact h.fetchNodup
    · rw [fetched_rfl_events (events_append st u t c)]; exact h.fetchValid
    · rw [hi]
      exact nodup_addVisited u hE.idsNodup
    · intro w hw
      rw [hpm] at hw
      rw [hi]
      rcases List.mem_append.mp hw with hw | hw
      · exact (mem_addVisited _ _ _).mpr (Or.inl (hE.ctxSub w hw))
      · exact (mem_addVisited _ _ _).mpr (Or.inr (by simpa using hw))
    · intro w hwd
      rw [hpm, hi, List.count_append]
      by_cases hwu : w = u
      · subst hwu
        rw [addVisited_of_not_mem (huE hwd), List.count_append,
          hE.ctxCount w hwd]
      · have h0 : ([u]).count w = 0 :=
          List.count_eq_zero.mpr (by simpa using hwu)
        rw [h0]
        by_cases hmem : u ∈ (ensureCitationDirective st).contextSourceIds
        · rw [addVisited_of_mem hmem]
          rw [hE.ctxCount w hwd]
          omega
        · rw [addVisited_of_not_mem hmem, List.count_append,
            hE.ctxCount w hwd]
          have h1 : ([u]).count w = 0 :=
            List.count_eq_zero.mpr (by simpa using hwu)
          rw [h1]
    · rw [hpm, List.count_append]
      by_cases hud : u = citationDirectiveUrl
      · have hnotin' : citationDirectiveUrl ∉ st.contextSourceIds := hud ▸ hnotin
        have hd0 : citationDirectiveUrl ∉ st.contextParts.map (·.url) :=
          fun hm => hnotin' (h.ctxSub _ hm)
        have hs : (st.contextParts.map (·.url)).count citationDirectiveUrl = 0 :=
          List.count_eq_zero.mpr hd0
        obtain ⟨hpe, _⟩ := ensure_of_not_mem st hnotin'
        rw [show (ensureCitationDirective st).contextParts.map (·.url) =
            st.contextParts.map (·.url) ++ [citationDirectiveUrl] from by
          rw [hpe, List.map_append]; rfl]
        rw [List.count_append, hs, hud]
        simp [List.count_singleton]
      · have h0 : ([u]).count citationDirectiveUrl = 0 :=
          List.count_eq_zero.mpr (by simpa using fun hx => hud hx.symm)
        rw [h0]
        have := hE.ctxDir
        omega
    · intro w hw
      rw [hi] at hw
      rcases (mem_addVisited _ _ _).mp hw with hw | hw
      · exact hE.idsShape w hw
      · subst hw
        exact hu
    · rw [reg_append]; exact h.regNodup
    · rw [reg_append]; exact h.regNE
    · rw [reg_append]; exact h.invalidFailed
    · rw [failed_append]; exact h.failedNodup
    · rw [failed_append]; exact h.failedInvalidReason
    · rw [gath_append]; exact h.sourcesValid

theorem lookupA_setReg_ne (st : ResearchState) (u : String) (stt : SourceStatus)
    (a b c : String) (w : String) (h : w ≠ u) :
    lookupA (setRegistryStatus st u stt a b c).sourceRegistry w =
      lookupA st.sourceRegistry w := by
  unfold setRegistryStatus
  dsimp only
  rw [lookupA_updateA_ne _ _ _ _ h]

theorem RCore_setReg (st : ResearchState) (u : String) (stt : SourceStatus)
    (a b c : String) (hne : u ≠ "")
    (hinv : isValidSourceUrl u = false → stt = .failed)
    (h : RCore st) : RCore (setRegistryStatus st u stt a b c) := by
  refine ⟨?_, ?_, ?_, ?_, ?_, ?_, ?_, ?_, ?_, ?_, ?_, ?_, ?_⟩
  · rw [fetched_rfl_events (events_setReg st u stt a b c)]; exact h.fetchNodup
  · rw [fetched_rfl_events (events_setReg st u stt a b c)]; exact h.fetchValid
  · rw [ids_setReg]; exact h.idsNodup
  · rw [ctx_setReg, ids_setReg]; exact h.ctxSub
  · rw [ctx_setReg, ids_setReg]; exact h.ctxCount
  · rw [ctx_setReg]; exact h.ctxDir
  · rw [ids_setReg]; exact h.idsShape
  · show ((updateA st.sourceRegistry u _).map (·.1)).Nodup
    exact keys_nodup_updateA _ _ _ h.regNodup
  · intro k hk
    have hk' : k ∈ (updateA st.sourceRegistry u _).map (·.1) := hk
    rw [mem_keys_updateA] at hk'
    rcases hk' with hk' | hk'
    · exact h.regNE k hk'
    · rw [hk']; exact hne
  · intro w e hwinv hlk
    by_cases hwu : w = u
    · subst hwu
      have hs := statusOf_setReg_self st w stt a b c
      unfold statusOf at hs
      rw [hlk] at hs
      simp at hs
      rw [hs]
      exact hinv hwinv
    · rw [lookupA_setReg_ne st u stt a b c w hwu] at hlk
      exact h.invalidFailed w e hwinv hlk
  · rw [failed_setReg]; exact h.failedNodup
  · rw [failed_setReg]; exact h.failedInvalidReason
  · rw [gath_setReg]; exact h.sourcesValid

theorem fetched_push_fetch (st : ResearchState) (u : String) :
    fetchedUrls { st with events := st.events ++ [.fetch u] } =
      fetchedUrls st ++ [u] := by
  unfold fetchedUrls
  rw [show ({ st with events := st.events ++ [.fetch u] } :
    ResearchState).events = st.events ++ [.fetch u] from rfl]
  rw [List.filterMap_append]
  rfl

theorem RCore_push_fetch (st : ResearchState) (u : String)
    (hval : isValidSourceUrl u = true) (hnf : u ∉ fetchedUrls st)
    (h : RCore st) : RCore { st with events := st.events ++ [.fetch u] } := by
  refine ⟨?_, ?_, h.idsNodup, h.ctxSub, h.ctxCount, h.ctxDir, h.idsShape,
    h.regNodup, h.regNE, h.invalidFailed, h.failedNodup,
    h.failedInvalidReason, h.sourcesValid⟩
  · rw [fetched_push_fetch, List.nodup_append]
    exact ⟨h.fetchNodup, List.nodup_singleton u, by simpa using hnf⟩
  · intro w hw
    rw [fetched_push_fetch] at hw
    rcases List.mem_append.mp hw with hw | hw
    · exact h.fetchValid w hw
    · rw [show w = u from by simpa using hw]
      exact hval

theorem RCore_upsertEvidence (st : ResearchState) (r : EvidenceRecord)
    (h : RCore st) : RCore (upsertEvidence st r) :=
  RCore_congr (fetched_rfl_events (events_upsertEvidence st r))
    (reg_upsertEvidence' st r) (ctx_upsertEvidence st r)
    (ids_upsertEvidence st r) (failed_upsertEvidence st r)
    (gath_upsertEvidence st r) h

theorem mem_gath_upsertSource (st : ResearchState) (src : SourceReference)
    (u : String) (h : u ∈ (upsertSource st src).gatheredSources.map (·.1)) :
    u ∈ st.gatheredSources.map (·.1) ∨
      (u = src.url ∧ isValidSourceUrl src.url = true) := by
  unfold upsertSource at h
  split at h
  · exact Or.inl h
  · rename_i hg
    dsimp only at h
    rw [mem_keys_updateA] at h
    rcases h with h | h
    · exact Or.inl h
    · refine Or.inr ⟨h, ?_⟩
      cases hv : isValidSourceUrl src.url with
      | false => exact absurd (Or.inr hv) hg
      | true => rfl

theorem RCore_upsertSource (st : ResearchState) (src : SourceReference)
    (h : RCore st) : RCore (upsertSource st src) := by
  refine ⟨?_, ?_, ?_, ?_, ?_, ?_, ?_, ?_, ?_, ?_, ?_, ?_, ?_⟩
  · rw [fetched_rfl_events (events_upsertSource st src)]; exact h.fetchNodup
  · rw [fetched_rfl_events (events_upsertSource st src)]; exact h.fetchValid
  · rw [ids_upsertSource]; exact h.idsNodup
  · rw [ctx_upsertSource, ids_upsertSource]; exact h.ctxSub
  · rw [ctx_upsertSource, ids_upsertSource]; exact h.ctxCount
  · rw [ctx_upsertSource]; exact h.ctxDir
  · rw [ids_upsertSource]; exact h.idsShape
  · rw [reg_upsertSource']; exact h.regNodup
  · rw [reg_upsertSource']; exact h.regNE
  · rw [reg_upsertSource']; exact h.invalidFailed
  · rw [failed_upsertSource]; exact h.failedNodup
  · rw [failed_upsertSource]; exact h.failedInvalidReason
  · intro w hw
    rcases mem_gath_upsertSource st src w hw with hw | ⟨rfl, hv⟩
    · exact h.sourcesValid w hw
    · exact hv

theorem RCore_markCompleted (st : ResearchState) (u t sm : String)
    (h : RCore st) : RCore (markSourceCompleted st u t sm) := by
  unfold markSourceCompleted
  split
  · exact h
  · rename_i hg
    have hne : u ≠ "" := fun he => hg (Or.inl he)
    have hval : isValidSourceUrl u = true := by
      cases hv : isValidSourceUrl u with
      | false => exact absurd (Or.inr hv) hg
      | true => rfl
    exact RCore_setReg _ u .completed t sm "" hne
      (fun hf => absurd hf (by simp [hval]))
      (RCore_upsertSource st { url := u, title := t, summary := sm } h)

theorem addFailed_cases (st : ResearchState) (u r : String) (b : Bool) :
    (addFailedUrl st u r b).failedUrls = st.failedUrls ∨
    (u ∉ st.failedUrls.map (·.url) ∧
      (addFailedUrl st u r b).failedUrls =
        st.failedUrls ++ [{ url := u, reason := r, isHighValue := b }]) := by
  unfold addFailedUrl
  split
  · exact Or.inl rfl
  · split
    · exact Or.inl rfl
    · rename_i hany
      refine Or.inr ⟨?_, rfl⟩
      intro hmem
      apply hany
      rw [List.any_eq_true]
      obtain ⟨f, hf, hfu⟩ := List.mem_map.mp hmem
      exact ⟨f, hf, by simp [hfu]⟩

theorem RCore_addFailed (st : ResearchState) (u r : String) (b : Bool)
    (hur : isValidSourceUrl u = true ∨
      (r = "Invalid or unsupported source URL" ∧ b = true))
    (h : RCore st) : RCore (addFailedUrl st u r b) := by
  refine ⟨?_, ?_, ?_, ?_, ?_, ?_, ?_, ?_, ?_, ?_, ?_, ?_, ?_⟩
  · rw [fetched_rfl_events (events_addFailed st u r b)]; exact h.fetchNodup
  · rw [fetched_rfl_events (events_addFailed st u r b)]; exact h.fetchValid
  · rw [ids_addFailed]; exact h.idsNodup
  · rw [ctx_addFailed, ids_addFailed]; exact h.ctxSub
  · rw [ctx_addFailed, ids_addFailed]; exact h.ctxCount
  · rw [ctx_addFailed]; exact h.ctxDir
  · rw [ids_addFailed]; exact h.idsShape
  · rw [reg_addFailed']; exact h.regNodup
  · rw [reg_addFailed']; exact h.regNE
  · rw [reg_addFailed']; exact h.invalidFailed
  · rcases addFailed_cases st u r b with hc | ⟨hnm, hc⟩
    · rw [hc]; exact h.failedNodup
    · rw [hc, List.map_append, List.nodup_append]
      exact ⟨h.failedNodup, List.nodup_singleton u, by simpa using hnm⟩
  · intro f hf hfinv
    rcases addFailed_cases st u r b with hc | ⟨hnm, hc⟩
    · rw [hc] at hf
      exact h.failedInvalidReason f hf hfinv
    · rw [hc] at hf
      rcases List.mem_append.mp hf with hf | hf
      · exact h.failedInvalidReason f hf hfinv
      · have hfe : f = { url := u, reason := r, isHighValue := b } := by
          simpa using hf
        rcases hur with hur | hur
        · exfalso
          rw [hfe] at hfinv
          simp at hfinv
          rw [hfinv] at hur
          cases hur
        · rw [hfe]
          exact ⟨hur.1, hur.2⟩
  · rw [gath_addFailed]; exact h.sourcesValid

theorem gath_register_eq (st : ResearchState) (src : SourceReference) :
    (registerDiscoveredSource st src).gatheredSources =
      (upsertSource st src).gatheredSources := by
  unfold registerDiscoveredSource
  split
  · rename_i hg
    rw [show upsertSource st src = st from by unfold upsertSource; rw [if_pos hg]]
  · dsimp only
    split
    · simp
    · split <;> simp

theorem mem_keys_register' (st : ResearchState) (src : SourceReference)
    (u : String)
    (h : u ∈ (registerDiscoveredSource st src).sourceRegistry.map (·.1)) :
    u ∈ st.sourceRegistry.map (·.1) ∨
      (u = src.url ∧ src.url ≠ "" ∧ isValidSourceUrl src.url = true) := by
  unfold registerDiscoveredSource at h
  split at h
  · exact Or.inl h
  · rename_i hg
    have hne : src.url ≠ "" := fun he => hg (Or.inl he)
    have hval : isValidSourceUrl src.url = true := by
      cases hv : isValidSourceUrl src.url with
      | false => exact absurd (Or.inr hv) hg
      | true => rfl
    dsimp only at h
    split at h
    · dsimp only at h
      rw [mem_keys_updateA, reg_upsertSource'] at h
      rcases h with h | h
      · exact Or.inl h
      · exact Or.inr ⟨h, hne, hval⟩
    · split at h
      · rw [show ((upsertSource st src).sourceRegistry).map (·.1) =
          st.sourceRegistry.map (·.1) from by rw [reg_upsertSource']] at h
        exact Or.inl h
      · dsimp only at h
        rw [mem_keys_updateA, reg_upsertSource'] at h
        rcases h with h | h
        · exact Or.inl h
        · exact Or.inr ⟨h, hne, hval⟩

theorem RCore_register (st : ResearchState) (src : SourceReference)
    (h : RCore st) : RCore (registerDiscoveredSource st src) := by
  refine ⟨?_, ?_, ?_, ?_, ?_, ?_, ?_, ?_, ?_, ?_, ?_, ?_, ?_⟩
  · rw [fetched_rfl_events (events_register st src)]; exact h.fetchNodup
  · rw [fetched_rfl_events (events_register st src)]; exact h.fetchValid
  · rw [ids_register]; exact h.idsNodup
  · rw [ctx_register, ids_register]; exact h.ctxSub
  · rw [ctx_register, ids_register]; exact h.ctxCount
  · rw [ctx_register]; exact h.ctxDir
  · rw [ids_register]; exact h.idsShape
  · exact keys_nodup_register st src h.regNodup
  · intro k hk
    rcases mem_keys_register' st src k hk with hk | ⟨rfl, hne, _⟩
    · exact h.regNE k hk
    · exact hne
  · intro w e hwinv hlk
    by_cases hwsrc : w = src.url
    · have hval : isValidSourceUrl src.url = false := hwsrc ▸ hwinv
      rw [show registerDiscoveredSource st src = st from by
        unfold registerDiscoveredSource; rw [if_pos (Or.inr hval)]] at hlk
      exact h.invalidFailed w e hwinv hlk
    · rw [lookupA_register_ne st src w hwsrc] at hlk
      exact h.invalidFailed w e hwinv hlk
  · rw [failed_register]; exact h.failedNodup
  · rw [failed_register]; exact h.failedInvalidReason
  · intro w hw
    rw [gath_register_eq] at hw
    rcases mem_gath_upsertSource st src w hw with hw | ⟨rfl, hv⟩
    · exact h.sourcesValid w hw
    · exact hv

theorem terminal_register_fold (srcs : List SourceReference) :
    ∀ (st : ResearchState) (u : String), terminalAt st u →
      terminalAt (srcs.foldl registerDiscoveredSource st) u := by
  induction srcs with
  | nil => intro st u h; exact h
  | cons s rest ih =>
    intro st u h
    refine ih _ u ?_
    unfold terminalAt
    rw [statusOf_register_terminal st s u h]
    exact h

theorem RCore_register_fold (srcs : List SourceReference) :
    ∀ (st : ResearchState), RCore st →
      RCore (srcs.foldl registerDiscoveredSource st) := by
  induction srcs with
  | nil => intro st h; exact h
  | cons s rest ih => intro st h; exact ih _ (RCore_register st s h)

theorem terminalAt_append (st : ResearchState) (u t c : String) (w : String)
    (h : terminalAt st w) : terminalAt (appendCitationBlock st u t c) w :=
  terminalAt_congr (reg_append st u t c) w h

theorem terminalAt_markCompleted_ne (st : ResearchState) (u t sm w : String)
    (hw : w ≠ u) (h : terminalAt st w) :
    terminalAt (markSourceCompleted st u t sm) w := by
  unfold terminalAt
  rw [statusOf_markCompleted_ne st u t sm w hw]
  exact h

theorem terminalAt_setReg_ne (st : ResearchState) (u : String)
    (stt : SourceStatus) (a b c : String) (w : String) (hw : w ≠ u)
    (h : terminalAt st w) :
    terminalAt (setRegistryStatus st u stt a b c) w := by
  unfold terminalAt
  rw [statusOf_setReg_ne st u stt a b c w hw]
  exact h

theorem RInv_processUrl (o : ResearchOracles) (st : ResearchState) (u : String)
    (hval : isValidSourceUrl u = true) (hne : u ≠ "")
    (hnf : u ∉ fetchedUrls st) (h : RInv st) : RInv (processUrl o st u) := by
  have hfet1 : fetchedUrls (setRegistryStatus st u .processing "" "" "") =
      fetchedUrls st := fetched_rfl_events (events_setReg st u .processing "" "" "")
  have hcore1 : RCore (setRegistryStatus st u .processing "" "" "") :=
    RCore_setReg st u .processing "" "" "" hne
      (fun hf => absurd hf (by simp [hval])) h.toRCore
  have hcore2 : RCore { setRegistryStatus st u .processing "" "" "" with
      events := (setRegistryStatus st u .processing "" "" "").events ++
        [.fetch u] } :=
    RCore_push_fetch _ u hval (by rw [hfet1]; exact hnf) hcore1
  have hcore : RCore (processUrl o st u) := by
    unfold processUrl
    cases hfu : o.fetch u with
    | ok data =>
      dsimp only
      exact RCore_append _ u _ _ (Or.inr (Or.inl hval))
        (RCore_markCompleted _ u _ _ (RCore_upsertEvidence _ _ hcore2))
    | error e =>
      dsimp only
      exact RCore_setReg _ u .failed "" "" _ hne (fun _ => rfl)
        (RCore_addFailed _ u _ true (Or.inl hval) hcore2)
  refine ⟨hcore, ?_⟩
  intro w hw
  rw [fetched_processUrl] at hw
  rcases List.mem_append.mp hw with hw | hw
  · have hwu : w ≠ u := fun e => hnf (e ▸ hw)
    have ht0 : terminalAt st w := h.fetchTerm w hw
    have ht1 : terminalAt (setRegistryStatus st u .processing "" "" "") w :=
      terminalAt_setReg_ne st u .processing "" "" "" w hwu ht0
    have ht2 : terminalAt { setRegistryStatus st u .processing "" "" "" with
        events := (setRegistryStatus st u .processing "" "" "").events ++
          [.fetch u] } w := terminalAt_congr rfl w ht1
    unfold processUrl
    cases hfu : o.fetch u with
    | ok data =>
      dsimp only
      exact terminalAt_append _ u _ _ w
        (terminalAt_markCompleted_ne _ u _ _ w hwu
          (terminalAt_congr (reg_upsertEvidence' _ _) w ht2))
    | error e =>
      dsimp only
      exact terminalAt_setReg_ne _ u .failed "" "" _ w hwu
        (terminalAt_congr (reg_addFailed' _ u _ true) w ht2)
  · rw [show w = u from by simpa using hw]
    unfold processUrl
    cases hfu : o.fetch u with
    | ok data =>
      dsimp only
      unfold terminalAt
      rw [show statusOf (appendCitationBlock
          (markSourceCompleted (upsertEvidence
            { setRegistryStatus st u .processing "" "" "" with
              events := (setRegistryStatus st u .processing "" "" "").events ++
                [.fetch u] }
            { url := u, title := jsOr data.title (formatSourceTitle u),
              summary := jsOr data.summary "Analysed source.",
              facts := (data.facts.filter (· ≠ "")).take MAX_FACTS_PER_SOURCE })
          u (jsOr data.title (formatSourceTitle u))
            (jsOr data.summary "Analysed source.")) u _ _) u =
          statusOf (markSourceCompleted (upsertEvidence
            { setRegistryStatus st u .processing "" "" "" with
              events := (setRegistryStatus st u .processing "" "" "").events ++
                [.fetch u] }
            { url := u, title := jsOr data.title (formatSourceTitle u),
              summary := jsOr data.summary "Analysed source.",
              facts := (data.facts.filter (· ≠ "")).take MAX_FACTS_PER_SOURCE })
          u (jsOr data.title (formatSourceTitle u))
            (jsOr data.summary "Analysed source.")) u from by
        unfold statusOf; rw [reg_append]]
      rw [statusOf_markCompleted_self _ u _ _ hval hne]
      exact Or.inl rfl
    | error e =>
      dsimp only
      unfold terminalAt
      rw [statusOf_setReg_self]
      exact Or.inr rfl

theorem isPrefixOf_append_self (l t : List Char) :
    l.isPrefixOf (l ++ t) = true := by
  induction l with
  | nil => simp [List.isPrefixOf]
  | cons a as ih => simp [List.isPrefixOf, ih]

theorem isQueryKey_queryUrl (q : String) :
    isQueryKey ("https://search.local/query?q=" ++ encodeURIComponent q) =
      true := by
  unfold isQueryKey
  rw [String.data_append]
  exact isPrefixOf_append_self _ _

theorem fetched_push_exec (st : ResearchState) (q : String) :
    fetchedUrls { st with events := st.events ++ [.exec q] } =
      fetchedUrls st := by
  unfold fetchedUrls
  rw [show ({ st with events := st.events ++ [.exec q] } :
    ResearchState).events = st.events ++ [.exec q] from rfl]
  rw [List.filterMap_append]
  simp

theorem RInv_processQuery (o : ResearchOracles) (st : ResearchState)
    (q : String) (h : RInv st) : RInv (processQuery o st q) := by
  have hc1 : RCore { st with events := st.events ++ [.exec q] } :=
    RCore_congr (fetched_push_exec st q) rfl rfl rfl rfl rfl h.toRCore
  refine ⟨?_, ?_⟩
  · unfold processQuery
    dsimp only
    split
    · exact RCore_register_fold _ _
        (RCore_append _ _ _ _ (Or.inr (Or.inr (isQueryKey_queryUrl q)))
          (RCore_upsertEvidence _ _ hc1))
    · exact RCore_register_fold _ _ hc1
  · intro w hw
    rw [fetched_processQuery] at hw
    have ht := h.fetchTerm w hw
    have ht1 : terminalAt { st with events := st.events ++ [.exec q] } w :=
      terminalAt_congr rfl w ht
    unfold processQuery
    dsimp only
    split
    · exact terminal_register_fold _ _ w
        (terminalAt_append _ _ _ _ w
          (terminalAt_congr (reg_upsertEvidence' _ _) w ht1))
    · exact terminal_register_fold _ _ w ht1

/-- The synchronous dedup loop of `harvest` preserves the run invariant and
returns a duplicate-free list of fresh (valid, nonempty, `QUEUED`) URLs. -/
theorem RInv_collectAux :
    ∀ (batch : List String) (st : ResearchState) (ups : List String),
      RInv st → (∀ x ∈ batch, x ≠ "") → ups.Nodup →
      (∀ x ∈ ups, isValidSourceUrl x = true ∧ x ≠ "" ∧
        statusOf st x = some .queued) →
      RInv (collectUrlsAux st batch ups).1 ∧
      (collectUrlsAux st batch ups).2.Nodup ∧
      (∀ x ∈ (collectUrlsAux st batch ups).2,
        isValidSourceUrl x = true ∧ x ≠ "" ∧
        statusOf (collectUrlsAux st batch ups).1 x = some .queued) := by
  intro batch
  induction batch with
  | nil =>
    intro st ups h hb hn hu
    exact ⟨h, hn, hu⟩
  | cons url rest ih =>
    intro st ups h hb hn hu
    have hurlne : url ≠ "" := hb url (by simp)
    have hbrest : ∀ x ∈ rest, x ≠ "" := fun x hx => hb x (by simp [hx])
    unfold collectUrlsAux
    split
    · rename_i hv
      refine ih _ _ ?_ hbrest hn ?_
      · refine ⟨RCore_setReg _ url .failed "" "" _ hurlne (fun _ => rfl)
          (RCore_addFailed st url _ true (Or.inr ⟨rfl, rfl⟩) h.toRCore), ?_⟩
        intro w hw
        rw [fetched_rfl_events (events_setReg _ url .failed "" "" _),
          fetched_rfl_events (events_addFailed st url _ true)] at hw
        have hwu : w ≠ url := by
          intro e
          have hval := h.fetchValid w hw
          rw [e, hv] at hval
          cases hval
        exact terminalAt_setReg_ne _ url .failed "" "" _ w hwu
          (terminalAt_congr (reg_addFailed' st url _ true) w (h.fetchTerm w hw))
      · intro x hx
        obtain ⟨hxv, hxne, hxq⟩ := hu x hx
        have hxu : x ≠ url := by
          intro e
          rw [e, hv] at hxv
          cases hxv
        refine ⟨hxv, hxne, ?_⟩
        rw [statusOf_setReg_ne _ url .failed "" "" _ x hxu]
        unfold statusOf
        rw [show (addFailedUrl st url "Invalid or unsupported source URL"
          true).sourceRegistry = st.sourceRegistry from
          reg_addFailed' st url _ true]
        exact hxq
    · rename_i hnv
      have hv' : isValidSourceUrl url = true := by
        cases hx : isValidSourceUrl url with
        | false => exact absurd hx hnv
        | true => rfl
      split
      · rename_i e hlk
        split
        · exact ih _ _ h hbrest hn hu
        · rename_i hst
          have hq : e.status = .queued := by
            cases hs : e.status
            · rfl
            · exact absurd (by rw [hs]; simp) hst
            · exact absurd (by rw [hs]; simp) hst
            · exact absurd (by rw [hs]; simp) hst
          refine ih _ _ h hbrest ?_ ?_
          · by_cases hmem : url ∈ ups
            · rw [if_pos hmem]
              exact hn
            · rw [if_neg hmem, List.nodup_append]
              exact ⟨hn, List.nodup_singleton _, by simpa using hmem⟩
          · intro x hx
            by_cases hmem : url ∈ ups
            · rw [if_pos hmem] at hx
              exact hu x hx
            · rw [if_neg hmem] at hx
              rcases List.mem_append.mp hx with hx | hx
              · exact hu x hx
              · rw [show x = url from by simpa using hx]
                refine ⟨hv', hurlne, ?_⟩
                unfold statusOf
                rw [hlk]
                simp [hq]
      · rename_i hlk
        refine ih _ _ ?_ hbrest ?_ ?_
        · refine ⟨RCore_setReg st url .queued "" "" "" hurlne
            (fun hf => absurd hf (by simp [hv'])) h.toRCore, ?_⟩
          intro w hw
          rw [fetched_rfl_events (events_setReg st url .queued "" "" "")] at hw
          have hwu : w ≠ url := by
            intro e'
            have ht := h.fetchTerm w hw
            unfold terminalAt statusOf at ht
            rw [e', hlk] at ht
            simp at ht
          exact terminalAt_setReg_ne st url .queued "" "" "" w hwu
            (h.fetchTerm w hw)
        · by_cases hmem : url ∈ ups
          · rw [if_pos hmem]
            exact hn
          · rw [if_neg hmem, List.nodup_append]
            exact ⟨hn, List.nodup_singleton _, by simpa using hmem⟩
        · intro x hx
          by_cases hmem : url ∈ ups
          · rw [if_pos hmem] at hx
            obtain ⟨hxv, hxne, hxq⟩ := hu x hx
            have hxu : x ≠ url := by
              intro e'
              rw [e'] at hxq
              unfold statusOf at hxq
              rw [hlk] at hxq
              cases hxq
            refine ⟨hxv, hxne, ?_⟩
            rw [statusOf_setReg_ne st url .queued "" "" "" x hxu]
            exact hxq
          · rw [if_neg hmem] at hx
            rcases List.mem_append.mp hx with hx | hx
            · obtain ⟨hxv, hxne, hxq⟩ := hu x hx
              have hxu : x ≠ url := by
                intro e'
                rw [e'] at hxq
                unfold statusOf at hxq
                rw [hlk] at hxq
                cases hxq
              refine ⟨hxv, hxne, ?_⟩
              rw [statusOf_setReg_ne st url .queued "" "" "" x hxu]
              exact hxq
            · rw [show x = url from by simpa using hx]
              exact ⟨hv', hurlne, statusOf_setReg_self st url .queued "" "" ""⟩

theorem RInv_foldProcessUrl (o : ResearchOracles) :
    ∀ (ups : List String) (st : ResearchState), RInv st → ups.Nodup →
      (∀ x ∈ ups, isValidSourceUrl x = true ∧ x ≠ "" ∧ x ∉ fetchedUrls st) →
      RInv (ups.foldl (processUrl o) st) := by
  intro ups
  induction ups with
  | nil =>
    intro st h _ _
    exact h
  | cons u rest ih =>
    intro st h hn hf
    obtain ⟨hv, hne, hnf⟩ := hf u (by simp)
    rw [List.nodup_cons] at hn
    simp only [List.foldl_cons]
    refine ih _ (RInv_processUrl o st u hv hne hnf h) hn.2 ?_
    intro x hx
    obtain ⟨hxv, hxne, hxnf⟩ := hf x (by simp [hx])
    refine ⟨hxv, hxne, ?_⟩
    rw [fetched_processUrl]
    intro hmem
    rcases List.mem_append.mp hmem with hm | hm
    · exact hxnf hm
    · exact hn.1 ((show x = u from by simpa using hm) ▸ hx)

theorem RInv_foldProcessQuery (o : ResearchOracles) :
    ∀ (qs : List String) (st : ResearchState), RInv st →
      RInv (qs.foldl (processQuery o) st) := by
  intro qs
  induction qs with
  | nil =>
    intro st h
    exact h
  | cons q rest ih =>
    intro st h
    simp only [List.foldl_cons]
    exact ih _ (RInv_processQuery o st q h)

theorem RInv_rounds_bump (st : ResearchState) (h : RInv st) :
    RInv { st with rounds := st.rounds + 1 } := by
  refine ⟨RCore_congr ?_ ?_ ?_ ?_ ?_ ?_ h.toRCore, ?_⟩
  · rfl
  · rfl
  · rfl
  · rfl
  · rfl
  · rfl
  · intro u hu
    exact terminalAt_congr rfl u (h.fetchTerm u hu)

theorem RInv_set_visited (st : ResearchState) (v : List String) (h : RInv st) :
    RInv { st with visitedQueries := v } := by
  refine ⟨RCore_congr ?_ ?_ ?_ ?_ ?_ ?_ h.toRCore, ?_⟩
  · rfl
  · rfl
  · rfl
  · rfl
  · rfl
  · rfl
  · intro u hu
    exact terminalAt_congr rfl u (h.fetchTerm u hu)

theorem RInv_harvestB (o : ResearchOracles) (st : ResearchState)
    (urlBatch queryBatch : List String) (h : RInv st) :
    RInv (harvestB o st urlBatch queryBatch) := by
  rw [harvestB_eq]
  have hb : ∀ x ∈ (urlBatch.map jsTrim).filter (· ≠ ""), x ≠ "" :=
    fun x hx => of_decide_eq_true (List.mem_filter.mp hx).2
  obtain ⟨h1, h2, h3⟩ := RInv_collectAux ((urlBatch.map jsTrim).filter (· ≠ ""))
    st [] h hb List.nodup_nil (fun x hx => absurd hx (List.not_mem_nil x))
  have h4 : RInv (List.foldl (processUrl o)
      (collectUrls st ((urlBatch.map jsTrim).filter (· ≠ ""))).1
      (collectUrls st ((urlBatch.map jsTrim).filter (· ≠ ""))).2) := by
    refine RInv_foldProcessUrl o _ _ h1 h2 ?_
    intro x hx
    obtain ⟨hxv, hxne, hxq⟩ := h3 x hx
    refine ⟨hxv, hxne, ?_⟩
    intro hm
    have ht := h1.fetchTerm x hm
    unfold terminalAt at ht
    rw [hxq] at ht
    simp at ht
  exact RInv_foldProcessQuery o
    ((queryBatch.map jsTrim).filter fun q => q ≠ "" &&
      !decide (q ∈ (List.foldl (processUrl o)
        (collectUrls st ((urlBatch.map jsTrim).filter (· ≠ ""))).1
        (collectUrls st ((urlBatch.map jsTrim).filter (· ≠ ""))).2).visitedQueries))
    { List.foldl (processUrl o)
        (collectUrls st ((urlBatch.map jsTrim).filter (· ≠ ""))).1
        (collectUrls st ((urlBatch.map jsTrim).filter (· ≠ ""))).2 with
      visitedQueries :=
        ((queryBatch.map jsTrim).filter fun q => q ≠ "" &&
          !decide (q ∈ (List.foldl (processUrl o)
            (collectUrls st ((urlBatch.map jsTrim).filter (· ≠ ""))).1
            (collectUrls st ((urlBatch.map jsTrim).filter
              (· ≠ ""))).2).visitedQueries)).foldl addVisited
          (List.foldl (processUrl o)
            (collectUrls st ((urlBatch.map jsTrim).filter (· ≠ ""))).1
            (collectUrls st ((urlBatch.map jsTrim).filter
              (· ≠ ""))).2).visitedQueries }
    (RInv_set_visited _ _ h4)

theorem RInv_reviewGaps (o : ResearchOracles) (st : ResearchState)
    (h : RInv st) : RInv (reviewForGapsB o st).1 :=
  RInv_congr (fetched_reviewGaps o st) rfl rfl rfl rfl rfl h

theorem RInv_runLoopAux (o : ResearchOracles) :
    ∀ (fuel : Nat) (st : ResearchState) (urls queries : List String),
      RInv st → RInv (runLoopAux o fuel st urls queries) := by
  intro fuel
  induction fuel with
  | zero =>
    intro st urls queries h
    rw [runLoopAux_zero_eq]
    dsimp only
    have hbase : RInv (harvestB o { st with rounds := st.rounds + 1 }
        urls queries) :=
      RInv_harvestB o _ urls queries (RInv_rounds_bump st h)
    split
    · exact RInv_harvestB o _ _ [] hbase
    · exact hbase
  | succ fuel ih =>
    intro st urls queries h
    rw [runLoopAux_succ_eq]
    have hbase : RInv (harvestB o { st with rounds := st.rounds + 1 }
        urls queries) :=
      RInv_harvestB o _ urls queries (RInv_rounds_bump st h)
    have tailInv : ∀ (st3 : ResearchState), RInv st3 →
        RInv (let st4 := (reviewForGapsB o st3).1
          let filtered := ((reviewForGapsB o st3).2.map jsTrim).filter
            fun q => q ≠ "" && !decide (q ∈ st4.visitedQueries)
          if filtered = [] then st4
          else runLoopAux o fuel st4 [] filtered) := by
      intro st3 h3
      dsimp only
      split
      · exact RInv_reviewGaps o st3 h3
      · exact ih _ [] _ (RInv_reviewGaps o st3 h3)
    have hD : RInv
        (if getQueuedUrls (harvestB o { st with rounds := st.rounds + 1 }
            urls queries) ≠ [] then
          harvestB o (harvestB o { st with rounds := st.rounds + 1 } urls queries)
            (getQueuedUrls
              (harvestB o { st with rounds := st.rounds + 1 } urls queries)) []
        else harvestB o { st with rounds := st.rounds + 1 } urls queries) := by
      split
      · exact RInv_harvestB o _ _ [] hbase
      · exact hbase
    exact tailInv _ hD

theorem RInv_init : RInv initResearchState := by
  refine ⟨⟨List.nodup_nil, ?_, List.nodup_nil, ?_, ?_, ?_, ?_, List.nodup_nil,
    ?_, ?_, List.nodup_nil, ?_, ?_⟩, ?_⟩
  · intro u hu
    exact absurd hu (List.not_mem_nil u)
  · intro u hu
    exact absurd hu (List.not_mem_nil u)
  · intro u _
    rfl
  · exact Nat.zero_le 2
  · intro u hu
    exact absurd hu (List.not_mem_nil u)
  · intro k hk
    exact absurd hk (List.not_mem_nil k)
  · intro u e _ hlk
    cases hlk
  · intro f hf
    exact absurd hf (List.not_mem_nil f)
  · intro u hu
    exact absurd hu (List.not_mem_nil u)
  · intro u hu
    exact absurd hu (List.not_mem_nil u)

theorem RInv_runResearchState (o : ResearchOracles) (urls queries : List String) :
    RInv (runResearchState o urls queries) :=
  RInv_runLoopAux o MAX_RESEARCH_DEPTH initResearchState urls queries RInv_init

/-- Everything `harvest` does after its synchronous dedup loop is monotone. -/
theorem rmono_harvest_from_collect (o : ResearchOracles) (st : ResearchState)
    (urlBatch queryBatch : List String) :
    RMono (collectUrls st ((urlBatch.map jsTrim).filter (· ≠ ""))).1
      (harvestB o st urlBatch queryBatch) := by
  rw [harvestB_eq]
  exact RMono.comp
    (rmono_foldl (processUrl o) (rmono_processUrl o)
      (collectUrls st ((urlBatch.map jsTrim).filter (· ≠ ""))).2
      (collectUrls st ((urlBatch.map jsTrim).filter (· ≠ ""))).1)
    (RMono.comp
      (rmono_visitedFold
        (List.foldl (processUrl o)
          (collectUrls st ((urlBatch.map jsTrim).filter (· ≠ ""))).1
          (collectUrls st ((urlBatch.map jsTrim).filter (· ≠ ""))).2)
        ((queryBatch.map jsTrim).filter fun q => q ≠ "" &&
          !decide (q ∈ (List.foldl (processUrl o)
            (collectUrls st ((urlBatch.map jsTrim).filter (· ≠ ""))).1
            (collectUrls st ((urlBatch.map jsTrim).filter
              (· ≠ ""))).2).visitedQueries)))
      (rmono_foldl (processQuery o) (rmono_processQuery o) _ _))

/-- The rest of the research loop after the first harvest is monotone. -/
theorem rmono_runLoop_from_harvest (o : ResearchOracles) (fuel : Nat)
    (st : ResearchState) (urls queries : List String) :
    RMono (harvestB o { st with rounds := st.rounds + 1 } urls queries)
      (runLoopAux o fuel st urls queries) := by
  cases fuel with
  | zero =>
    rw [runLoopAux_zero_eq]
    dsimp only
    split
    · exact rmono_harvestB o _ _ []
    · exact RMono.rfl _
  | succ fuel =>
    rw [runLoopAux_succ_eq]
    have tailRM : ∀ (st3 : ResearchState),
        RMono (harvestB o { st with rounds := st.rounds + 1 } urls queries) st3 →
        RMono (harvestB o { st with rounds := st.rounds + 1 } urls queries)
          (let st4 := (reviewForGapsB o st3).1
           let filtered := ((reviewForGapsB o st3).2.map jsTrim).filter
             fun q => q ≠ "" && !decide (q ∈ st4.visitedQueries)
           if filtered = [] then st4
           else runLoopAux o fuel st4 [] filtered) := by
      intro st3 h3
      dsimp only
      split
      · exact RMono.comp h3 (rmono_reviewGaps o st3)
      · exact RMono.comp h3 (RMono.comp (rmono_reviewGaps o st3)
          (rmono_runLoopAux o fuel _ [] _))
    have hD : RMono (harvestB o { st with rounds := st.rounds + 1 } urls queries)
        (if getQueuedUrls (harvestB o { st with rounds := st.rounds + 1 }
            urls queries) ≠ [] then
          harvestB o (harvestB o { st with rounds := st.rounds + 1 } urls queries)
            (getQueuedUrls
              (harvestB o { st with rounds := st.rounds + 1 } urls queries)) []
        else harvestB o { st with rounds := st.rounds + 1 } urls queries) := by
      split
      · exact rmono_harvestB o _ _ []
      · exact RMono.rfl _
    exact tailRM _ hD

theorem mem_keys_setReg_self (st : ResearchState) (u : String)
    (stt : SourceStatus) (a b c : String) :
    u ∈ (setRegistryStatus st u stt a b c).sourceRegistry.map (·.1) := by
  show u ∈ (updateA st.sourceRegistry u _).map (·.1)
  rw [mem_keys_updateA]
  exact Or.inr rfl

/-- Every URL of the batch ends up as a registry key after the dedup loop. -/
theorem mem_keys_collectAux :
    ∀ (batch : List String) (st : ResearchState) (ups : List String)
      (u : String), u ∈ batch →
      u ∈ (collectUrlsAux st batch ups).1.sourceRegistry.map (·.1) := by
  intro batch
  induction batch with
  | nil =>
    intro st ups u hu
    exact absurd hu (List.not_mem_nil u)
  | cons url rest ih =>
    intro st ups u hu
    rcases List.mem_cons.mp hu with rfl | hu
    · unfold collectUrlsAux
      split
      · exact (rmono_collectAux rest _ _).regKeys u
          (mem_keys_setReg_self _ u .failed "" "" _)
      · split
        · rename_i e hlk
          split
          · exact (rmono_collectAux rest _ _).regKeys u
              ((lookupA_isSome_iff st.sourceRegistry u).mp (by rw [hlk]; rfl))
          · exact (rmono_collectAux rest _ _).regKeys u
              ((lookupA_isSome_iff st.sourceRegistry u).mp (by rw [hlk]; rfl))
        · exact (rmono_collectAux rest _ _).regKeys u
            (mem_keys_setReg_self st u .queued "" "" "")
    · unfold collectUrlsAux
      split
      · exact ih _ _ u hu
      · split
        · split
          · exact ih _ _ u hu
          · exact ih _ _ u hu
        · exact ih _ _ u hu

/-- An invalid nonempty URL of the batch is recorded in `failedUrls` by the
dedup loop. -/
theorem mem_failed_collectAux :
    ∀ (batch : List String) (st : ResearchState) (ups : List String)
      (u : String), u ∈ batch → u ≠ "" → isValidSourceUrl u = false →
      ∃ f ∈ (collectUrlsAux st batch ups).1.failedUrls, f.url = u := by
  intro batch
  induction batch with
  | nil =>
    intro st ups u hu
    exact absurd hu (List.not_mem_nil u)
  | cons url rest ih =>
    intro st ups u hu hne hinv
    rcases List.mem_cons.mp hu with rfl | hu
    · unfold collectUrlsAux
      rw [if_pos hinv]
      have hmem : ∃ f ∈ (setRegistryStatus
          (addFailedUrl st u "Invalid or unsupported source URL" true)
          u .failed "" "" "Invalid or unsupported source URL").failedUrls,
          f.url = u := by
        rw [failed_setReg]
        unfold addFailedUrl
        rw [if_neg hne]
        split
        · rename_i hany
          rw [List.any_eq_true] at hany
          obtain ⟨f, hf, hfu⟩ := hany
          exact ⟨f, hf, of_decide_eq_true hfu⟩
        · exact ⟨⟨u, "Invalid or unsupported source URL", true⟩, by simp, rfl⟩
      obtain ⟨f, hf, hfu⟩ := hmem
      obtain ⟨t, ht⟩ := (rmono_collectAux rest _ _).failed
      exact ⟨f, by rw [ht]; exact List.mem_append.mpr (Or.inl hf), hfu⟩
    · unfold collectUrlsAux
      split
      · exact ih _ _ u hu hne hinv
      · split
        · split
          · exact ih _ _ u hu hne hinv
          · exact ih _ _ u hu hne hinv
        · exact ih _ _ u hu hne hinv

theorem mem_keys_harvestB (o : ResearchOracles) (st : ResearchState)
    (urlBatch queryBatch : List String) (u : String)
    (hu : u ∈ (urlBatch.map jsTrim).filter (· ≠ "")) :
    u ∈ (harvestB o st urlBatch queryBatch).sourceRegistry.map (·.1) :=
  (rmono_harvest_from_collect o st urlBatch queryBatch).regKeys u
    (mem_keys_collectAux _ st [] u hu)

theorem mem_failed_harvestB (o : ResearchOracles) (st : ResearchState)
    (urlBatch queryBatch : List String) (u : String)
    (hu : u ∈ (urlBatch.map jsTrim).filter (· ≠ "")) (hne : u ≠ "")
    (hinv : isValidSourceUrl u = false) :
    ∃ f ∈ (harvestB o st urlBatch queryBatch).failedUrls, f.url = u := by
  obtain ⟨f, hf, hfu⟩ := mem_failed_collectAux _ st [] u hu hne hinv
  obtain ⟨t, ht⟩ := (rmono_harvest_from_collect o st urlBatch queryBatch).failed
  exact ⟨f, by rw [ht]; exact List.mem_append.mpr (Or.inl hf), hfu⟩

theorem mem_keys_runLoop (o : ResearchOracles) (fuel : Nat)
    (st : ResearchState) (urls queries : List String) (u : String)
    (hu : u ∈ (urls.map jsTrim).filter (· ≠ "")) :
    u ∈ (runLoopAux o fuel st urls queries).sourceRegistry.map (·.1) :=
  (rmono_runLoop_from_harvest o fuel st urls queries).regKeys u
    (mem_keys_harvestB o _ urls queries u hu)

theorem mem_failed_runLoop (o : ResearchOracles) (fuel : Nat)
    (st : ResearchState) (urls queries : List String) (u : String)
    (hu : u ∈ (urls.map jsTrim).filter (· ≠ "")) (hne : u ≠ "")
    (hinv : isValidSourceUrl u = false) :
    ∃ f ∈ (runLoopAux o fuel st urls queries).failedUrls, f.url = u := by
  obtain ⟨f, hf, hfu⟩ := mem_failed_harvestB o _ urls queries u hu hne hinv
  obtain ⟨t, ht⟩ := (rmono_runLoop_from_harvest o fuel st urls queries).failed
  exact ⟨f, by rw [ht]; exact List.mem_append.mpr (Or.inl hf), hfu⟩

/-- C3 counterexample: the internal citation-format directive key is itself a
valid, fetchable URL; supplying it twice as an input yields one registry entry
and one fetch, but TWO context blocks keyed by it (the directive block plus
its harvested block), refuting "at most one Citation Block keyed by that
URL". -/
theorem directive_url_double_citation_cex :
    ((runResearchState plainSearchOracles
        ["https://directive.local/citation-format",
         "https://directive.local/citation-format"] []).contextParts.map
      (·.url)).count "https://directive.local/citation-format" = 2 ∧
    ((runResearchState plainSearchOracles
        ["https://directive.local/citation-format",
         "https://directive.local/citation-format"] []).sourceRegistry.map
      (·.1)).count "https://directive.local/citation-format" = 1 ∧
    (fetchedUrls (runResearchState plainSearchOracles
        ["https://directive.local/citation-format",
         "https://directive.local/citation-format"] [])).count
      "https://directive.local/citation-format" = 1 := by
  refine ⟨?_, ?_, ?_⟩ <;> decide

/-- C3 (corrected): for every run and every trimmed nonempty input URL `u`
other than the internal citation-directive sentinel, `u` has exactly one
Source Registry entry, is fetched at most once, and at most one Citation
Block keyed by `u` is appended to the context — even when `u` is supplied
twice or rediscovered across recursive rounds.  (For the sentinel URL itself
the block bound is two: see the counterexample.) -/
theorem url_dedup_amended (o : ResearchOracles) (urls queries : List String)
    (u : String) (hu : u ∈ (urls.map jsTrim).filter (· ≠ ""))
    (hdir : u ≠ citationDirectiveUrl) :
    ((runResearchState o urls queries).sourceRegistry.map (·.1)).count u = 1 ∧
    (fetchedUrls (runResearchState o urls queries)).count u ≤ 1 ∧
    ((runResearchState o urls queries).contextParts.map (·.url)).count u
      ≤ 1 := by
  have hinv := RInv_runResearchState o urls queries
  have hmem : u ∈ (runResearchState o urls queries).sourceRegistry.map (·.1) :=
    mem_keys_runLoop o MAX_RESEARCH_DEPTH initResearchState urls queries u hu
  refine ⟨?_, ?_, ?_⟩
  · have hle := List.nodup_iff_count_le_one.mp hinv.regNodup u
    have hpos := List.count_pos_iff.mpr hmem
    omega
  · exact List.nodup_iff_count_le_one.mp hinv.fetchNodup u
  · rw [hinv.ctxCount u hdir]
    exact List.nodup_iff_count_le_one.mp hinv.idsNodup u

theorem url_dedup_amended_witness :
    "https://example.com/a" ∈
      ((["https://example.com/a", "https://example.com/a"].map
        jsTrim).filter (· ≠ "")) ∧
    "https://example.com/a" ≠ citationDirectiveUrl ∧
    (((runResearchState plainSearchOracles
        ["https://example.com/a", "https://example.com/a"]
        []).sourceRegistry.map (·.1)).count "https://example.com/a" = 1 ∧
      (fetchedUrls (runResearchState plainSearchOracles
        ["https://example.com/a", "https://example.com/a"]
        [])).count "https://example.com/a" ≤ 1 ∧
      ((runResearchState plainSearchOracles
        ["https://example.com/a", "https://example.com/a"]
        []).contextParts.map (·.url)).count "https://example.com/a" ≤ 1) :=
  ⟨by decide, by decide,
   url_dedup_amended plainSearchOracles
     ["https://example.com/a", "https://example.com/a"] []
     "https://example.com/a" (by decide) (by decide)⟩

theorem mem_updateA {β : Type} :
    ∀ (l : List (String × β)) (k : String) (v : β) (p : String × β),
      p ∈ updateA l k v → p ∈ l ∨ p = (k, v) := by
  intro l k v
  induction l with
  | nil =>
    intro p hp
    simp [updateA] at hp
    exact Or.inr hp
  | cons q rest ih =>
    obtain ⟨k1, v1⟩ := q
    intro p hp
    by_cases hk : k1 = k
    · subst hk
      rw [show updateA ((k1, v1) :: rest) k1 v = (k1, v) :: rest from by
        simp [updateA]] at hp
      rcases List.mem_cons.mp hp with rfl | hp
      · exact Or.inr rfl
      · exact Or.inl (List.mem_cons.mpr (Or.inr hp))
    · rw [show updateA ((k1, v1) :: rest) k v = (k1, v1) :: updateA rest k v
        from by simp [updateA, hk]] at hp
      rcases List.mem_cons.mp hp with rfl | hp
      · exact Or.inl (List.mem_cons.mpr (Or.inl rfl))
      · rcases ih p hp with hp | hp
        · exact Or.inl (List.mem_cons.mpr (Or.inr hp))
        · exact Or.inr hp


theorem GKV_congr {s s' : ResearchState}
    (hg : s'.gatheredSources = s.gatheredSources) (h : GKV s) : GKV s' := by
  intro p hp
  rw [hg] at hp
  exact h p hp

theorem GKV_upsertSource (st : ResearchState) (src : SourceReference)
    (h : GKV st) : GKV (upsertSource st src) := by
  unfold upsertSource
  split
  · exact h
  · intro p hp
    dsimp only at hp
    rcases mem_updateA _ _ _ p hp with hp | hp
    · exact h p hp
    · rw [hp]

theorem GKV_register (st : ResearchState) (src : SourceReference)
    (h : GKV st) : GKV (registerDiscoveredSource st src) :=
  GKV_congr (gath_register_eq st src) (GKV_upsertSource st src h)

theorem GKV_register_fold (srcs : List SourceReference) :
    ∀ (st : ResearchState), GKV st →
      GKV (srcs.foldl registerDiscoveredSource st) := by
  induction srcs with
  | nil => intro st h; exact h
  | cons s rest ih => intro st h; exact ih _ (GKV_register st s h)

theorem GKV_markCompleted (st : ResearchState) (u t sm : String)
    (h : GKV st) : GKV (markSourceCompleted st u t sm) := by
  unfold markSourceCompleted
  split
  · exact h
  · exact GKV_congr (gath_setReg _ u .completed t sm "")
      (GKV_upsertSource st _ h)

theorem GKV_processUrl (o : ResearchOracles) (st : ResearchState) (u : String)
    (h : GKV st) : GKV (processUrl o st u) := by
  unfold processUrl
  cases hf : o.fetch u with
  | ok data =>
    dsimp only
    exact GKV_congr (gath_append _ u _ _)
      (GKV_markCompleted _ u _ _
        (GKV_congr (gath_upsertEvidence _ _)
          (GKV_congr rfl (GKV_congr (gath_setReg st u .processing "" "" "") h))))
  | error e =>
    dsimp only
    exact GKV_congr (gath_setReg _ u .failed "" "" _)
      (GKV_congr (gath_addFailed _ u _ true)
        (GKV_congr rfl (GKV_congr (gath_setReg st u .processing "" "" "") h)))

theorem GKV_processQuery (o : ResearchOracles) (st : ResearchState)
    (q : String) (h : GKV st) : GKV (processQuery o st q) := by
  unfold processQuery
  dsimp only
  split
  · exact GKV_register_fold _ _
      (GKV_congr (gath_append _ _ _ _)
        (GKV_congr (gath_upsertEvidence _ _) (GKV_congr rfl h)))
  · exact GKV_register_fold _ _ (GKV_congr rfl h)

theorem gath_collectAux :
    ∀ (L ups : List String) (st : ResearchState),
      (collectUrlsAux st L ups).1.gatheredSources = st.gatheredSources := by
  intro L
  induction L with
  | nil => intro ups st; rfl
  | cons url rest ih =>
    intro ups st
    unfold collectUrlsAux
    split
    · rw [ih]; simp
    · split
      · split <;> rw [ih]
      · rw [ih]; simp

theorem GKV_foldProcessUrl (o : ResearchOracles) :
    ∀ (ups : List String) (st : ResearchState), GKV st →
      GKV (ups.foldl (processUrl o) st) := by
  intro ups
  induction ups with
  | nil => intro st h; exact h
  | cons u rest ih => intro st h; exact ih _ (GKV_processUrl o st u h)

theorem GKV_foldProcessQuery (o : ResearchOracles) :
    ∀ (qs : List String) (st : ResearchState), GKV st →
      GKV (qs.foldl (processQuery o) st) := by
  intro qs
  induction qs with
  | nil => intro st h; exact h
  | cons q rest ih => intro st h; exact ih _ (GKV_processQuery o st q h)

theorem GKV_harvestB (o : ResearchOracles) (st : ResearchState)
    (urlBatch queryBatch : List String) (h : GKV st) :
    GKV (harvestB o st urlBatch queryBatch) := by
  rw [harvestB_eq]
  exact GKV_foldProcessQuery o _ _
    (GKV_congr rfl
      (GKV_foldProcessUrl o _ _
        (GKV_congr (gath_collectAux _ [] st) h)))

theorem GKV_runLoopAux (o : ResearchOracles) :
    ∀ (fuel : Nat) (st : ResearchState) (urls queries : List String),
      GKV st → GKV (runLoopAux o fuel st urls queries) := by
  intro fuel
  induction fuel with
  | zero =>
    intro st urls queries h
    rw [runLoopAux_zero_eq]
    dsimp only
    have hbase : GKV (harvestB o { st with rounds := st.rounds + 1 }
        urls queries) := GKV_harvestB o _ urls queries (GKV_congr rfl h)
    split
    · exact GKV_harvestB o _ _ [] hbase
    · exact hbase
  | succ fuel ih =>
    intro st urls queries h
    rw [runLoopAux_succ_eq]
    have hbase : GKV (harvestB o { st with rounds := st.rounds + 1 }
        urls queries) := GKV_harvestB o _ urls queries (GKV_congr rfl h)
    have tailG : ∀ (st3 : ResearchState), GKV st3 →
        GKV (let st4 := (reviewForGapsB o st3).1
          let filtered := ((reviewForGapsB o st3).2.map jsTrim).filter
            fun q => q ≠ "" && !decide (q ∈ st4.visitedQueries)
          if filtered = [] then st4
          else runLoopAux o fuel st4 [] filtered) := by
      intro st3 h3
      dsimp only
      split
      · exact GKV_congr rfl h3
      · exact ih _ [] _ (GKV_congr rfl h3)
    have hD : GKV
        (if getQueuedUrls (harvestB o { st with rounds := st.rounds + 1 }
            urls queries) ≠ [] then
          harvestB o (harvestB o { st with rounds := st.rounds + 1 } urls queries)
            (getQueuedUrls
              (harvestB o { st with rounds := st.rounds + 1 } urls queries)) []
        else harvestB o { st with rounds := st.rounds + 1 } urls queries) := by
      split
      · exact GKV_harvestB o _ _ [] hbase
      · exact hbase
    exact tailG _ hD

theorem GKV_runResearchState (o : ResearchOracles) (urls queries : List String) :
    GKV (runResearchState o urls queries) :=
  GKV_runLoopAux o MAX_RESEARCH_DEPTH initResearchState urls queries
    (fun p hp => absurd hp (List.not_mem_nil p))


/-- C10 counterexample: a query containing `vertexaisearch` produces a
synthetic search-key Citation Block whose key contains `vertexaisearch` —
an invalid URL does appear as the key of an emitted Citation Block. -/
theorem invalid_query_key_in_context_cex :
    isValidSourceUrl "https://search.local/query?q=vertexaisearch" = false ∧
    "https://search.local/query?q=vertexaisearch" ∈
      ((runResearchState chattySearchOracles []
        ["vertexaisearch"]).contextParts.map (·.url)) :=
  ⟨by decide, by decide⟩

/-- C10 (corrected): an invalid URL is never fetched, never appears in the
returned sources list, and — when supplied as a direct input — is recorded
exactly once in `failedUrls` with the fixed reason and a `FAILED` registry
entry; but it *can* appear as the key of a Citation Block, namely when it is
a synthetic search key: every invalid context key is a search key. -/
theorem invalid_url_handling_amended (o : ResearchOracles)
    (urls queries : List String) (u : String)
    (hinv : isValidSourceUrl u = false) :
    u ∉ fetchedUrls (runResearchState o urls queries) ∧
    (∀ s ∈ (runResearchPhase o urls queries).sources, s.url ≠ u) ∧
    (u ∈ (runResearchState o urls queries).contextParts.map (·.url) →
      isQueryKey u = true) ∧
    (u ∈ (urls.map jsTrim).filter (· ≠ "") →
      ((runResearchState o urls queries).failedUrls.map (·.url)).count u = 1 ∧
      (∀ f ∈ (runResearchState o urls queries).failedUrls, f.url = u →
        f.reason = "Invalid or unsupported source URL" ∧
          f.isHighValue = true) ∧
      statusOf (runResearchState o urls queries) u = some .failed) := by
  have hri := RInv_runResearchState o urls queries
  have hgkv := GKV_runResearchState o urls queries
  refine ⟨?_, ?_, ?_, ?_⟩
  · intro hmem
    have := hri.fetchValid u hmem
    rw [hinv] at this
    cases this
  · intro s hs
    have hs' : s ∈ (runResearchState o urls queries).gatheredSources.map
      (·.2) := hs
    obtain ⟨p, hp, hps⟩ := List.mem_map.mp hs'
    have hkv := hgkv p hp
    have hkval := hri.sourcesValid p.1 (List.mem_map.mpr ⟨p, hp, rfl⟩)
    intro he
    rw [← hkv, hps, he] at hkval
    rw [hinv] at hkval
    cases hkval
  · intro hmem
    have hid := hri.ctxSub u hmem
    have hdirvalid : isValidSourceUrl citationDirectiveUrl = true := by decide
    rcases hri.idsShape u hid with hq | hq | hq
    · rw [hq, hdirvalid] at hinv
      cases hinv
    · rw [hq] at hinv
      cases hinv
    · exact hq
  · intro hu
    have hne : u ≠ "" := of_decide_eq_true (List.mem_filter.mp hu).2
    obtain ⟨f, hf, hfu⟩ := mem_failed_runLoop o MAX_RESEARCH_DEPTH
      initResearchState urls queries u hu hne hinv
    refine ⟨?_, ?_, ?_⟩
    · have hmemf : u ∈ (runResearchState o urls
          queries).failedUrls.map (·.url) :=
        List.mem_map.mpr ⟨f, hf, hfu⟩
      have hle := List.nodup_iff_count_le_one.mp hri.failedNodup u
      have hpos := List.count_pos_iff.mpr hmemf
      omega
    · intro g hg hgu
      exact hri.failedInvalidReason g hg (by rw [hgu]; exact hinv)
    · have hmemk : u ∈ (runResearchState o urls
          queries).sourceRegistry.map (·.1) :=
        mem_keys_runLoop o MAX_RESEARCH_DEPTH initResearchState urls queries
          u hu
      obtain ⟨e, hlk⟩ := Option.isSome_iff_exists.mp
        ((lookupA_isSome_iff _ u).mpr hmemk)
      have hst := hri.invalidFailed u e hinv hlk
      unfold statusOf
      rw [hlk]
      simp [hst]

theorem invalid_url_handling_amended_witness :
    isValidSourceUrl "https://google.com/search?q=example" = false ∧
    ("https://google.com/search?q=example" ∉ fetchedUrls
      (runResearchState plainSearchOracles
        ["https://google.com/search?q=example"] []) ∧
    (∀ s ∈ (runResearchPhase plainSearchOracles
        ["https://google.com/search?q=example"] []).sources,
      s.url ≠ "https://google.com/search?q=example") ∧
    ("https://google.com/search?q=example" ∈
      (runResearchState plainSearchOracles
        ["https://google.com/search?q=example"] []).contextParts.map (·.url) →
      isQueryKey "https://google.com/search?q=example" = true) ∧
    ("https://google.com/search?q=example" ∈
      ((["https://google.com/search?q=example"].map jsTrim).filter (· ≠ "")) →
      ((runResearchState plainSearchOracles
        ["https://google.com/search?q=example"] []).failedUrls.map
          (·.url)).count "https://google.com/search?q=example" = 1 ∧
      (∀ f ∈ (runResearchState plainSearchOracles
          ["https://google.com/search?q=example"] []).failedUrls,
        f.url = "https://google.com/search?q=example" →
        f.reason = "Invalid or unsupported source URL" ∧
          f.isHighValue = true) ∧
      statusOf (runResearchState plainSearchOracles
          ["https://google.com/search?q=example"] [])
        "https://google.com/search?q=example" = some .failed)) :=
  ⟨by decide, invalid_url_handling_amended plainSearchOracles
    ["https://google.com/search?q=example"] []
    "https://google.com/search?q=example" (by decide)⟩


/-- C1 counterexample: a `QUOTA_EXCEEDED` fetch error does NOT propagate out
of the harvester — the run returns normally and the URL is recorded as a
Failed Source with reason `QUOTA_EXCEEDED`. -/
theorem quota_error_recorded_as_failed_source_cex :
    (runResearchPhase quotaFetchOracles
      ["https://example.com/a"] []).failedUrls =
      [⟨"https://example.com/a", "QUOTA_EXCEEDED", true⟩] := by
  decide

/-- C1 (corrected): a writer-call quota error does propagate uncaught out of
`runDraftingPhase`; but the fail-open paths swallow it elsewhere: a quota
error thrown by a per-URL fetch is caught and recorded as a Failed Source
(the run returns normally), and a quota error thrown by the critique call is
caught by `reviewDraft` and the current draft is accepted after exactly one
writer and one editor call. -/
theorem quota_propagation_amended :
    (∀ (od : Nat → DraftOracles) (p : ReportStructureItem)
      (rest : List ReportStructureItem),
      (od 0).draft 0 = .error .quotaExceeded →
      runDraftingPhase od (p :: rest) = .error .quotaExceeded) ∧
    (∀ (o : ResearchOracles) (u : String), jsTrim u = u → u ≠ "" →
      isValidSourceUrl u = true → o.fetch u = .error .quotaExceeded →
      (⟨u, "QUOTA_EXCEEDED", true⟩ : FailedSource) ∈
        (runResearchPhase o [u] []).failedUrls) ∧
    (∀ (o : DraftOracles) (plan : ReportStructureItem) (p0 : DraftPayload),
      o.draft 0 = .ok p0 → o.review 0 = .error .quotaExceeded →
      draftSection o plan =
        .ok (⟨plan.title, plan.type, p0.content⟩, 1, 1)) := by
  refine ⟨?_, ?_, ?_⟩
  · intro od p rest hq
    have hds : draftSection (od 0) p = .error .quotaExceeded := by
      unfold draftSection
      rw [hq]
      rfl
    unfold runDraftingPhase
    unfold runDraftingPhase.go
    rw [hds]
    rfl
  · intro o u ht hne hval hfetch
    have hcol : collectUrls
        { initResearchState with rounds := initResearchState.rounds + 1 }
        (([u].map jsTrim).filter (· ≠ "")) =
        (setRegistryStatus
          { initResearchState with rounds := initResearchState.rounds + 1 }
          u .queued "" "" "", [u]) := by
      rw [show ([u].map jsTrim).filter (· ≠ "") = [u] from by simp [ht, hne]]
      unfold collectUrls collectUrlsAux
      rw [if_neg (by simp [hval])]
      rfl
    have hpu : (processUrl o (setRegistryStatus
        { initResearchState with rounds := initResearchState.rounds + 1 }
        u .queued "" "" "") u).failedUrls =
        [⟨u, "QUOTA_EXCEEDED", true⟩] := by
      unfold processUrl
      rw [hfetch]
      dsimp only
      rw [failed_setReg]
      unfold addFailedUrl
      rw [if_neg hne]
      rfl
    have hharv : (harvestB o
        { initResearchState with rounds := initResearchState.rounds + 1 }
        [u] []).failedUrls = [⟨u, "QUOTA_EXCEEDED", true⟩] := by
      rw [harvestB_eq]
      dsimp only
      rw [hcol]
      dsimp only
      show (processUrl o (setRegistryStatus
        { initResearchState with rounds := initResearchState.rounds + 1 }
        u .queued "" "" "") u).failedUrls = [⟨u, "QUOTA_EXCEEDED", true⟩]
      exact hpu
    show (⟨u, "QUOTA_EXCEEDED", true⟩ : FailedSource) ∈
      (runLoopAux o MAX_RESEARCH_DEPTH initResearchState [u] []).failedUrls
    obtain ⟨t, htl⟩ := (rmono_runLoop_from_harvest o MAX_RESEARCH_DEPTH
      initResearchState [u] []).failed
    rw [htl, hharv]
    exact List.mem_append.mpr (Or.inl (by simp))
  · intro o plan p0 hd hr
    simp [draftSection, MAX_REVISIONS, hd, sectionLoop, reviewDraftModel, hr,
      mkDraft, Bind.bind, Except.bind]

theorem quota_propagation_amended_witness :
    runDraftingPhase (fun _ => draftOraclesWriterQuota) [planW] =
      .error .quotaExceeded ∧
    (⟨"https://example.com/b", "QUOTA_EXCEEDED", true⟩ : FailedSource) ∈
      (runResearchPhase quotaFetchOracles ["https://example.com/b"]
        []).failedUrls ∧
    draftSection draftOraclesReviewQuota planW =
      .ok (⟨planW.title, planW.type, .str "Findings."⟩, 1, 1) :=
  ⟨quota_propagation_amended.1 (fun _ => draftOraclesWriterQuota) planW [] rfl,
   quota_propagation_amended.2.1 quotaFetchOracles "https://example.com/b"
     (by decide) (by decide) (by decide) rfl,
   quota_propagation_amended.2.2 draftOraclesReviewQuota planW
     ⟨.str "Findings.", []⟩ rfl rfl⟩

end OSINT
